import Mathlib

/-!
# AlphaShape3D and NativeModule (PR-DC/JSLAB, `cpp/alpha-shape-3d.{h,cpp}`,
`cpp/native-module.cpp`)

A shallow embedding of the `AlphaShape3D` class (namespace
`alpha_shape_3d_ns`) and of the numeric functions of `NativeModule`
(namespace `native_module_ns`), and the properties their specification states
about them.

Conventions of the embedding

* In `AlphaShape3D` a `double` is only stored, copied and compared, and its
  values are rationals (`ℚ`); the one place where the code produces a
  not-a-number has its own result type `F64`.  `NativeModule` computes with
  `double`: there the type of the values and the operations are parameters
  (`native_module_ns.Double`), so that no rounding is fixed.
* `uint32_t` arithmetic is arithmetic on `ℕ` reduced by `u32`.
* An access outside a container (undefined behaviour in C++) is `none`.
* CGAL is a library the class calls into.  The data the code reads from CGAL
  objects (half-edge connectivity of a `Surface_mesh`, cells and neighbours of
  the triangulation) is modelled as plain data; CGAL algorithms
  (`orient_polygon_soup`, `edge_collapse`, ...) are parameters of the
  functions that call them.
-/

set_option autoImplicit false

namespace alpha_shape_3d_ns

/-! ## Definitions -/

/-- Reduction of a natural number to the range of `uint32_t`. -/
def u32 (n : ℕ) : ℕ := n % 4294967296

/-- Embeds `CGAL::Alpha_shape_3::Classification_type`, in declaration order. -/
inductive Classification_type where
  | EXTERIOR
  | SINGULAR
  | REGULAR
  | INTERIOR
deriving DecidableEq, Repr

/-- The integer value of the enumerator, as used when the code stores a
classification in a `double`. -/
def Classification_type.toNat : Classification_type → ℕ
  | .EXTERIOR => 0
  | .SINGULAR => 1
  | .REGULAR => 2
  | .INTERIOR => 3

/-- Embeds `Dt::Point`: three coordinates. -/
structure Point where
  x : ℚ
  y : ℚ
  z : ℚ
deriving DecidableEq, Repr

/-- Embeds `Point::operator[]`. -/
def Point.coord (p : Point) (j : ℕ) : ℚ :=
  if j = 0 then p.x else if j = 1 then p.y else p.z

/-! ### `CustomMatrix<T>` (alpha-shape-3d.h, lines 91-118) -/

/-- Embeds `CustomMatrix<T>`: row-major storage with `uint32_t` dimensions. -/
structure CustomMatrix (T : Type) where
  data : List T
  rows : ℕ
  cols : ℕ
deriving DecidableEq, Repr

/-- The type `Matrix` is `CustomMatrix<double>`. -/
abbrev Matrix := CustomMatrix ℚ

namespace CustomMatrix

variable {T : Type}

/-- Embeds `CustomMatrix()`. -/
def empty : CustomMatrix T := ⟨[], 0, 0⟩

/-- Embeds `CustomMatrix(r, c)`: `data(r * c)` value-initialised, the product taken
in `uint32_t`. -/
def new [Inhabited T] (r c : ℕ) : CustomMatrix T :=
  ⟨List.replicate (u32 (r * c)) default, r, c⟩

/-- Offset of entry `(i, j)`: `i * cols + j` in `uint32_t`. -/
def offset (m : CustomMatrix T) (i j : ℕ) : ℕ := u32 (i * m.cols + j)

/-- Embeds `operator()(i, j) const`; `none` outside the storage. -/
def get? (m : CustomMatrix T) (i j : ℕ) : Option T := m.data[m.offset i j]?

/-- Assignment through `operator()(i, j)`; a write outside the storage is
not modelled and leaves the matrix as it is. -/
def set (m : CustomMatrix T) (i j : ℕ) (v : T) : CustomMatrix T :=
  { m with data := m.data.set (m.offset i j) v }

/-- Embeds `numRows()`. -/
def numRows (m : CustomMatrix T) : ℕ := m.rows

/-- Embeds `numCols()`. -/
def numCols (m : CustomMatrix T) : ℕ := m.cols

/-- Row `i` as the list of its first three entries (the way the JavaScript
wrappers read a three-column matrix). -/
def row3? (m : CustomMatrix T) (i : ℕ) : Option (List T) := do
  let a ← m.get? i 0
  let b ← m.get? i 1
  let c ← m.get? i 2
  pure [a, b, c]

end CustomMatrix

/-- Storage invariant of a `CustomMatrix`: `data` holds `rows * cols` entries
and the product fits `uint32_t`. -/
def CustomMatrix.WF {T : Type} (m : CustomMatrix T) : Prop :=
  m.data.length = m.rows * m.cols ∧ m.rows * m.cols < 4294967296

/-! ### Facet vertex order in `setAlpha` (alpha-shape-3d.cpp, lines 677-684) -/

/-- The call `std::swap(indices[0], indices[1])` on a three-element array. -/
def swap01 : List ℕ → List ℕ
  | a :: b :: rest => b :: a :: rest
  | l => l

/-- The local vertex indices `indices[0..2]` computed for a facet whose
opposite vertex has local index `second`. -/
def facetIndices (second : ℕ) : List ℕ :=
  let indices := [(second + 1) % 4, (second + 2) % 4, (second + 3) % 4]
  if second % 2 = 0 then swap01 indices else indices

/-- The sequence `(s, i0, i1, i2)` as a map of positions: position `k` of
`(0,1,2,3)` is sent to entry `k` of the sequence. -/
def arrangement (s : Fin 4) (k : Fin 4) : Fin 4 :=
  Fin.ofNat ((s.val :: facetIndices s.val).getD k.val 0)

/-- The position at which a local index occurs in `(s, i0, i1, i2)`. -/
def arrangementInv (s : Fin 4) (k : Fin 4) : Fin 4 :=
  Fin.ofNat ((s.val :: facetIndices s.val).indexOf k.val)

/-- The permutation of the four local vertex indices that sends `(0,1,2,3)`
to `(s, i0, i1, i2)`. -/
def facetPerm (s : Fin 4) : Equiv.Perm (Fin 4) :=
  ⟨arrangement s, arrangementInv s, by revert s; decide, by revert s; decide⟩

/-! ### The triangulation as `setAlpha` reads it (lines 665-691) -/

/-- A cell of the triangulation data structure: four vertex handles `V[0..3]`
and four neighbour cell handles `N[0..3]`; `N[i]` is the cell across the facet
opposite `V[i]`. -/
structure Cell where
  vertex : Fin 4 → ℕ
  neighbor : Fin 4 → ℕ

instance : Inhabited Cell := ⟨⟨fun _ => 0, fun _ => 0⟩⟩

/-- Embeds `Cell::index(n)`: the position of the neighbour `n`, tried in the order
0, 1, 2 and 3 otherwise. -/
def Cell.index (c : Cell) (n : ℕ) : Fin 4 :=
  if n = c.neighbor 0 then 0
  else if n = c.neighbor 1 then 1
  else if n = c.neighbor 2 then 2
  else 3

/-- Embeds `cell->vertex(i)` for an `int` index. -/
def Cell.vertexAt (c : Cell) (i : ℕ) : ℕ :=
  if h : i < 4 then c.vertex ⟨i, h⟩ else 0

/-- The triangulation: an arena of cells (a `Cell_handle` is a position in
it) and the `info()` of every vertex handle, the id given at ingestion. -/
structure Triangulation where
  cells : List Cell
  info : ℕ → ℕ

/-- Dereference of a `Cell_handle`. -/
def Triangulation.cell (t : Triangulation) (c : ℕ) : Cell := t.cells.getD c default

/-- Embeds `As3::Facet`: a pair (cell handle, local index of the opposite vertex). -/
structure Facet where
  first : ℕ
  second : Fin 4
deriving DecidableEq, Repr

/-- Embeds `mirror_facet(f)`: the same facet seen from the neighbouring cell,
`Facet(n, n->index(f.first))` with `n = f.first->neighbor(f.second)`. -/
def Triangulation.mirror_facet (t : Triangulation) (f : Facet) : Facet :=
  let n := (t.cell f.first).neighbor f.second
  ⟨n, (t.cell n).index f.first⟩

/-- The orientation step of `setAlpha` (lines 674-675): the facet is replaced
by its mirror when the cell it is referenced from is not `EXTERIOR`. -/
def orientFacet (t : Triangulation) (classify : ℕ → Classification_type) (f : Facet) : Facet :=
  if classify f.first ≠ Classification_type.EXTERIOR then t.mirror_facet f else f

/-- The polygon `p` pushed for a facet (lines 677-690): the `info()` of the
three vertices of the cell at the local indices `facetIndices`. -/
def facetPolygon (t : Triangulation) (f : Facet) : List ℕ :=
  (facetIndices f.second.val).map (fun j => t.info ((t.cell f.first).vertexAt j))

/-- The three vertex ids of the triangle a facet denotes: the vertices of its
cell other than the opposite one. -/
def Triangulation.facetVertices (t : Triangulation) (f : Facet) : List ℕ :=
  ((List.finRange 4).filter (fun j => j ≠ f.second)).map
    (fun j => t.info ((t.cell f.first).vertex j))

/-- A facet is Regular when exactly one of its two incident cells is
classified `EXTERIOR`. -/
def Triangulation.isRegular (t : Triangulation) (classify : ℕ → Classification_type)
    (f : Facet) : Prop :=
  (classify f.first = Classification_type.EXTERIOR ∧
      classify ((t.cell f.first).neighbor f.second) ≠ Classification_type.EXTERIOR) ∨
  (classify f.first ≠ Classification_type.EXTERIOR ∧
      classify ((t.cell f.first).neighbor f.second) = Classification_type.EXTERIOR)

/-- Validity of the adjacency, as CGAL keeps it for a triangulation data
structure: every neighbour handle is a cell of the arena, the neighbour has
the cell among its own neighbours, and wherever it has, the three vertices of
the shared facet sit at its other three positions. -/
def Triangulation.valid (t : Triangulation) : Prop :=
  ∀ c, c < t.cells.length → ∀ i : Fin 4,
    (t.cell c).neighbor i < t.cells.length ∧
    (∃ j : Fin 4, (t.cell ((t.cell c).neighbor i)).neighbor j = c) ∧
    ∀ j : Fin 4, (t.cell ((t.cell c).neighbor i)).neighbor j = c →
      ∀ k : Fin 4, k ≠ i → ∃ l : Fin 4, l ≠ j ∧
        (t.cell ((t.cell c).neighbor i)).vertex l = (t.cell c).vertex k

instance (t : Triangulation) : Decidable t.valid := by
  unfold Triangulation.valid
  infer_instance

instance (t : Triangulation) (classify : ℕ → Classification_type) (f : Facet) :
    Decidable (t.isRegular classify f) := by
  unfold Triangulation.isRegular
  infer_instance

/-- A cell given by the lists of its vertex and neighbour handles. -/
def Cell.ofLists (v n : List ℕ) : Cell :=
  ⟨fun i => v.getD i.val 0, fun i => n.getD i.val 0⟩

/-- The triangulation of the four points `tetraPoints` (ids `0..3`): with
the infinite vertex `4` its cells are the five 4-subsets of `0..4`; cell `k` is
the one without vertex `k`, so the neighbour opposite vertex `v` is cell `v`.
Cell `4` is the only finite cell; every cell lists its vertices in positive
orientation. -/
def tetraTriangulation : Triangulation :=
  { cells := [Cell.ofLists [1, 2, 3, 4] [1, 2, 3, 4],
              Cell.ofLists [2, 0, 3, 4] [2, 0, 3, 4],
              Cell.ofLists [0, 1, 3, 4] [0, 1, 3, 4],
              Cell.ofLists [1, 0, 2, 4] [1, 0, 2, 4],
              Cell.ofLists [0, 1, 2, 3] [0, 1, 2, 3]],
    info := fun v => v }

/-- Classification of the cells of `tetraTriangulation` for an alpha that
lets the finite cell in: infinite cells are always `EXTERIOR`. -/
def tetraClassify (c : ℕ) : Classification_type :=
  if c = 4 then Classification_type.INTERIOR else Classification_type.EXTERIOR

/-! ### `CGAL::Surface_mesh<Point>` as the class reads it -/

/-- Connectivity stored for a halfedge: the vertex it points to and the next
halfedge around its face. -/
structure Halfedge_connectivity where
  vertex_ : ℕ
  next_halfedge_ : ℕ
deriving DecidableEq, Repr

/-- Embeds `Mesh` (`CGAL::Surface_mesh<Point>`): index-based half-edge storage.  A
`Vertex_index`, `Halfedge_index` or `Face_index` is a position in the
corresponding list. -/
structure Mesh where
  /-- Vertex property `v:point`. -/
  vpoint : List Point
  /-- Vertex property `v:removed`. -/
  vremoved : List Bool
  /-- Halfedge property `h:connectivity`. -/
  hconn : List Halfedge_connectivity
  /-- Face property `f:connectivity`: a halfedge of the face. -/
  fconn : List ℕ
deriving DecidableEq, Repr

namespace Mesh

/-- A default-constructed or cleared mesh. -/
def empty : Mesh := ⟨[], [], [], []⟩

/-- Embeds `is_removed(v)`. -/
def is_removed (m : Mesh) (v : ℕ) : Bool := m.vremoved.getD v false

/-- The range `vertices()`: the indices of the vertices not marked removed. -/
def vertices (m : Mesh) : List ℕ :=
  (List.range m.vpoint.length).filter (fun v => !m.is_removed v)

/-- Embeds `number_of_vertices()`. -/
def number_of_vertices (m : Mesh) : ℕ := m.vertices.length

/-- The range `faces()`. -/
def faces (m : Mesh) : List ℕ := List.range m.fconn.length

/-- Embeds `number_of_faces()`. -/
def number_of_faces (m : Mesh) : ℕ := m.fconn.length

/-- Embeds `point(v)`. -/
def point (m : Mesh) (v : ℕ) : Option Point := m.vpoint[v]?

/-- Embeds `halfedge(f)`. -/
def halfedge (m : Mesh) (f : ℕ) : Option ℕ := m.fconn[f]?

/-- Embeds `target(h)`. -/
def target (m : Mesh) (h : ℕ) : Option ℕ := m.hconn[h]?.map (fun c => c.vertex_)

/-- Embeds `next(h)`. -/
def next (m : Mesh) (h : ℕ) : Option ℕ := m.hconn[h]?.map (fun c => c.next_halfedge_)

end Mesh

/-- The three reads `*vcirc++` of a
`CGAL::Vertex_around_face_circulator<Mesh> vcirc(h, g)`: dereferencing gives
`target(h, g)`, incrementing moves to `next(h, g)`; both are looked up in the
mesh `g` handed to the circulator. -/
def vertex_around_face (g : Mesh) (h : ℕ) : Option (ℕ × ℕ × ℕ) := do
  let v0 ← g.target h
  let h1 ← g.next h
  let v1 ← g.target h1
  let h2 ← g.next h1
  let v2 ← g.target h2
  let _ ← g.next h2
  pure (v0, v1, v2)

/-- The loop that fills `Points` from a mesh (lines 881-886 and 967-972). -/
def pointsOfMesh (m : Mesh) : Option Matrix :=
  m.vertices.foldlM
    (fun (M : Matrix) v => do
      let p ← m.point v
      pure (((M.set v 0 (p.coord 0)).set v 1 (p.coord 1)).set v 2 (p.coord 2)))
    (CustomMatrix.new (u32 m.number_of_vertices) 3)

/-- The loop that fills `bf` (lines 766-773, 888-894 and 974-980): for every
face of `m` the circulator is started at `m.halfedge(face)` and walks the
mesh `g`. -/
def facetsOfMesh (m g : Mesh) : Option Matrix :=
  m.faces.foldlM
    (fun (M : Matrix) f => do
      let h ← m.halfedge f
      let (v0, v1, v2) ← vertex_around_face g h
      pure (((M.set f 0 (v0 : ℚ)).set f 1 (v1 : ℚ)).set f 2 (v2 : ℚ)))
    (CustomMatrix.new (u32 m.number_of_faces) 3)

/-! ### The CGAL objects and algorithms the class calls -/

/-- Embeds `As3` (`CGAL::Alpha_shape_3<Dt>`) as the class uses it: the current alpha
and what the object answers, each answer a function of the alpha in effect. -/
structure As3 where
  /-- Value of `get_alpha()`; `set_alpha` stores it. -/
  alpha : ℚ
  /-- The alpha spectrum: `number_of_alphas()` is its length and
  `get_nth_alpha(n)` its `n`-th entry counted from 1. -/
  alpha_spectrum : List ℚ
  /-- Embeds `find_alpha_solid()`. -/
  find_alpha_solid : ℚ
  /-- Embeds `*find_optimal_alpha(nb_components)`. -/
  find_optimal_alpha : ℕ → ℚ
  /-- Embeds `number_of_solid_components()` at an alpha. -/
  number_of_solid_components : ℚ → ℕ
  /-- The triangulation the alpha shape was built on. -/
  tr : Triangulation
  /-- Embeds `classify(Cell_handle)` at an alpha. -/
  classifyCell : ℚ → ℕ → Classification_type
  /-- Embeds `classify(Point)` at an alpha. -/
  classifyPoint : ℚ → Point → Classification_type
  /-- Embeds `get_alpha_shape_facets(out, REGULAR)` at an alpha. -/
  regularFacets : ℚ → List Facet

namespace As3

/-- Embeds `number_of_alphas()`. -/
def number_of_alphas (a : As3) : ℕ := a.alpha_spectrum.length

/-- Embeds `get_nth_alpha(n)`: entry `n - 1` of the spectrum. -/
def get_nth_alpha (a : As3) (n : ℕ) : Option ℚ :=
  if 0 < n then a.alpha_spectrum[n - 1]? else none

/-- Embeds `set_alpha(alpha)`. -/
def set_alpha (a : As3) (alpha : ℚ) : As3 := { a with alpha := alpha }

/-- Embeds `classify(Point)` at the current alpha. -/
def classify (a : As3) (p : Point) : Classification_type := a.classifyPoint a.alpha p

end As3

/-- The CGAL algorithms called by the class.  They are not part of the
repository; every function that calls one takes the library as a parameter. -/
structure CGAL where
  /-- Embeds `PMP::orient_polygon_soup(points, polygons)`. -/
  orient_polygon_soup : List Point × List (List ℕ) → List Point × List (List ℕ)
  /-- Embeds `PMP::repair_polygon_soup(points, polygons)`. -/
  repair_polygon_soup : List Point × List (List ℕ) → List Point × List (List ℕ)
  /-- Embeds `PMP::polygon_soup_to_polygon_mesh(points, polygons, mesh)` on an empty
  mesh. -/
  polygon_soup_to_polygon_mesh : List Point → List (List ℕ) → Mesh
  /-- Embeds `Surface_mesh::collect_garbage()`. -/
  collect_garbage : Mesh → Mesh
  /-- Embeds `SMS::edge_collapse(mesh, Edge_count_ratio_stop_predicate(stop_ratio))`. -/
  edge_collapse : Mesh → ℚ → Mesh
  /-- Embeds `PMP::remove_isolated_vertices(mesh)`. -/
  remove_isolated_vertices : Mesh → Mesh
  /-- Embeds `K_neighbor_search(tree, query, 1, 0, true, tr_dist).begin()`: the key
  found among `0..n-1` and its transformed distance; `none` for an empty
  tree. -/
  k_neighbor_search : (n : ℕ) → (ℕ → Option Point) → Point → Option (ℕ × ℚ)
  /-- Embeds `tr_dist.inverse_of_transformed_distance(d)`. -/
  inverse_of_transformed_distance : ℚ → ℚ

/-! ### The class `AlphaShape3D` -/

/-- The data members of `AlphaShape3D` (alpha-shape-3d.h, lines 127-129 and
169-173).  A null pointer is `none`. -/
structure AlphaShape3D where
  inputPoints : Matrix
  Points : List Point
  Vertices : List (Point × ℕ)
  alphaShape : Option As3
  delaunayTriangulation : Option Triangulation
  triangulationMatrix : Matrix
  numAlphaValues : ℕ
  surface_mesh : Mesh

/-- A not-a-number or a number: the result type of `getCriticalAlpha`. -/
inductive F64 where
  | num (q : ℚ)
  | nan
deriving DecidableEq, Repr

/-- Lines of text written to a file by `writeOff`. -/
abbrev OffFile := List String

/-- The cast `(uint64_t)` applied to a `double` holding a non-negative value. -/
def toUInt64 (q : ℚ) : ℕ := (Rat.floor q).toNat % 18446744073709551616

/-- Embeds `writeOff(filename, Points, bf)` (lines 986-1012): the lines written to
`filename`.  `fmt` is the text `operator<<` produces for a `double`. -/
def writeOff (fmt : ℚ → String) (Points bf : Matrix) : Option OffFile := do
  let n := Points.numRows
  let nbf := bf.numRows
  let pts ← (List.range n).mapM (fun i => do
    let x ← Points.get? i 0
    let y ← Points.get? i 1
    let z ← Points.get? i 2
    pure (fmt x ++ " " ++ fmt y ++ " " ++ fmt z))
  let ind ← (List.range nbf).mapM (fun i => do
    let a ← bf.get? i 0
    let b ← bf.get? i 1
    let c ← bf.get? i 2
    pure ("3 " ++ toString (toUInt64 a) ++ " " ++ toString (toUInt64 b) ++ " "
      ++ toString (toUInt64 c)))
  pure (["OFF", toString n ++ " " ++ toString nbf ++ " 0"] ++ pts ++ ind)

namespace AlphaShape3D

/-- The polygons `setAlpha` builds from the Regular facets (lines 665-691). -/
def setAlphaPolygons (a : As3) : List (List ℕ) :=
  (a.regularFacets a.alpha).map
    (fun f => facetPolygon a.tr (orientFacet a.tr (a.classifyCell a.alpha) f))

/-- Embeds `setAlpha(alpha)` (lines 629-695). -/
def setAlpha (lib : CGAL) (alpha : ℚ) : StateM AlphaShape3D (Option Unit) := do
  modify (fun self => { self with surface_mesh := Mesh.empty })
  let self ← get
  match self.alphaShape with
  | none => pure none
  | some as3 =>
    let as3 := as3.set_alpha alpha
    let polygons := setAlphaPolygons as3
    set { self with
      alphaShape := some as3,
      surface_mesh := lib.polygon_soup_to_polygon_mesh self.Points polygons }
    pure (some ())

/-- Embeds `getAlphaSpectrum()` (lines 709-719). -/
def getAlphaSpectrum (self : AlphaShape3D) : Option Matrix := do
  let as3 ← self.alphaShape
  (List.range self.numAlphaValues).foldlM
    (fun (a : Matrix) i => do
      let v ← as3.get_nth_alpha (i + 1)
      pure (a.set 0 i v))
    (CustomMatrix.new 1 (u32 self.numAlphaValues))

/-- Embeds `getCriticalAlpha(type)` (lines 723-737); `none` when the alpha shape
pointer is null and is dereferenced. -/
def getCriticalAlpha (self : AlphaShape3D) (type : String) : Option F64 :=
  if type = "all-points" then
    self.alphaShape.map (fun a => F64.num a.find_alpha_solid)
  else if type = "one-region" then
    self.alphaShape.map (fun a => F64.num (a.find_optimal_alpha 1))
  else
    some F64.nan

/-- Embeds `getBoundaryFacets()` (lines 761-775). -/
def getBoundaryFacets (self : AlphaShape3D) : Option Matrix :=
  facetsOfMesh self.surface_mesh self.surface_mesh

/-- Embeds `checkInShape(QP)` (lines 797-807): the classification of each query
point, stored as a `double`. -/
def checkInShape (self : AlphaShape3D) (QP : Matrix) : Option Matrix := do
  let as3 ← self.alphaShape
  (List.range QP.numRows).foldlM
    (fun (tf : Matrix) i => do
      let x ← QP.get? i 0
      let y ← QP.get? i 1
      let z ← QP.get? i 2
      pure (tf.set i 0 ((as3.classify ⟨x, y, z⟩).toNat : ℚ)))
    (CustomMatrix.new QP.numRows 1)

/-- The matrix the JavaScript wrappers build from an array of points
(lines 386-392, 470-476): `jsArray.Length()` rows of three coordinates. -/
def matrixOfPoints (jsArray : List Point) : Matrix :=
  (List.range jsArray.length).foldl
    (fun (QP : Matrix) i =>
      let p := jsArray.getD i ⟨0, 0, 0⟩
      ((QP.set i 0 (p.coord 0)).set i 1 (p.coord 1)).set i 2 (p.coord 2))
    (CustomMatrix.new jsArray.length 3)

/-- Embeds `CheckInShapeJS` (lines 375-399) on an array of well-formed points: the
array of booleans handed to the caller. -/
def CheckInShapeJS (self : AlphaShape3D) (jsArray : List Point) : Option (List Bool) := do
  let result ← self.checkInShape (matrixOfPoints jsArray)
  (List.range result.numRows).mapM (fun i => do
    let r ← result.get? i 0
    pure (decide (r ≠ 0)))

/-- Embeds `getNearestNeighbor(QP)` (lines 821-856).  The number of keys of
the search tree, `vertices(surface_mesh_s).size()`, is the number of vertices
of the copy that are not marked removed. -/
def getNearestNeighbor (lib : CGAL) (QP : Matrix) :
    StateM AlphaShape3D (Option (Matrix × Matrix)) := do
  let self ← get
  let surface_mesh_s := lib.remove_isolated_vertices self.surface_mesh
  let vs := surface_mesh_s.vertices.filter (fun i => !surface_mesh_s.is_removed i)
  let points := vs.filterMap surface_mesh_s.point
  let result := (List.range QP.numRows).foldlM
    (fun (ID : Matrix × Matrix) i => do
      let x ← QP.get? i 0
      let y ← QP.get? i 1
      let z ← QP.get? i 2
      let found ← lib.k_neighbor_search surface_mesh_s.vertices.length
        (fun k => points[k]?) ⟨x, y, z⟩
      let v ← vs[found.1]?
      pure (ID.1.set i 0 (v : ℚ),
        ID.2.set i 0 (lib.inverse_of_transformed_distance found.2)))
    (CustomMatrix.new QP.numRows 1, CustomMatrix.new QP.numRows 1)
  pure result

/-- Embeds `getSimplifiedShape(double stop_ratio)` (lines 860-896).  The copy
`surface_mesh_s` is simplified and compacted; the circulator that reads the
faces is started at a halfedge of the copy and walks `this->surface_mesh`. -/
def getSimplifiedShape (lib : CGAL) (stop_ratio : ℚ) :
    StateM AlphaShape3D (Option (Matrix × Matrix)) := do
  let self ← get
  let surface_mesh_s := self.surface_mesh
  let surface_mesh_s := lib.edge_collapse surface_mesh_s stop_ratio
  let surface_mesh_s := lib.remove_isolated_vertices surface_mesh_s
  let surface_mesh_s := lib.collect_garbage surface_mesh_s
  let result := do
    let Points ← pointsOfMesh surface_mesh_s
    let bf ← facetsOfMesh surface_mesh_s self.surface_mesh
    pure (Points, bf)
  pure result

/-- Embeds `getSimplifiedShape()` (lines 900-904). -/
def getSimplifiedShape_default (lib : CGAL) :
    StateM AlphaShape3D (Option (Matrix × Matrix)) :=
  getSimplifiedShape lib (5 / 100)

/-- Embeds `getSimplifiedShape(std::string filename)` (lines 908-914): the result and
the file written. -/
def getSimplifiedShape_filename (lib : CGAL) (fmt : ℚ → String) :
    StateM AlphaShape3D (Option ((Matrix × Matrix) × OffFile)) := do
  let ret ← getSimplifiedShape lib (5 / 100)
  pure (ret.bind (fun r => (writeOff fmt r.1 r.2).map (fun file => (r, file))))

/-- Embeds `getSimplifiedShape(double stop_ratio, std::string filename)`
(lines 918-924): the result and the file written. -/
def getSimplifiedShape_ratio_filename (lib : CGAL) (fmt : ℚ → String) (stop_ratio : ℚ) :
    StateM AlphaShape3D (Option ((Matrix × Matrix) × OffFile)) := do
  let ret ← getSimplifiedShape lib stop_ratio
  pure (ret.bind (fun r => (writeOff fmt r.1 r.2).map (fun file => (r, file))))

/-- The soup `removeUnusedPoints` reads from its arguments (lines 943-956):
a point per row of `Pi`, a polygon per row of `bfi`. -/
def soupOfMatrices (Pi bfi : Matrix) : Option (List Point × List (List ℕ)) := do
  let points ← (List.range Pi.numRows).mapM (fun i => do
    let x ← Pi.get? i 0
    let y ← Pi.get? i 1
    let z ← Pi.get? i 2
    pure (Point.mk x y z))
  let polygons ← (List.range bfi.numRows).mapM (fun i => do
    let a ← bfi.get? i 0
    let b ← bfi.get? i 1
    let c ← bfi.get? i 2
    pure [toUInt64 a, toUInt64 b, toUInt64 c])
  pure (points, polygons)

/-- Embeds `removeUnusedPoints(Pi, bfi)` (lines 928-982).  The mesh `surface_mesh_s`
is built from the repaired soup; the circulator that reads its faces is
started at a halfedge of `surface_mesh_s` and walks `this->surface_mesh`. -/
def removeUnusedPoints (lib : CGAL) (Pi bfi : Matrix) :
    StateM AlphaShape3D (Option (Matrix × Matrix)) := do
  let self ← get
  let result := do
    let soup ← soupOfMatrices Pi bfi
    let soup := lib.orient_polygon_soup soup
    let soup := lib.repair_polygon_soup soup
    let surface_mesh_s := lib.polygon_soup_to_polygon_mesh soup.1 soup.2
    let surface_mesh_s := lib.collect_garbage surface_mesh_s
    let Points ← pointsOfMesh surface_mesh_s
    let bf ← facetsOfMesh surface_mesh_s self.surface_mesh
    pure (Points, bf)
  pure result

end AlphaShape3D

/-- A shape on which nothing has been built: the state the constructor
leaves (lines 65-71). -/
def AlphaShape3D.init : AlphaShape3D :=
  { inputPoints := CustomMatrix.empty, Points := [], Vertices := [],
    alphaShape := none, delaunayTriangulation := none,
    triangulationMatrix := CustomMatrix.empty, numAlphaValues := 0,
    surface_mesh := Mesh.empty }

/-! ### Example shapes and the library on the examples -/

/-- A mesh without removed elements, from its points and connectivity. -/
def Mesh.ofTables (pts : List Point) (hconn : List Halfedge_connectivity)
    (fconn : List ℕ) : Mesh :=
  ⟨pts, List.replicate pts.length false, hconn, fconn⟩

/-- Points of the first example: the corners of a tetrahedron. -/
def tetraPoints : List Point := [⟨0, 0, 0⟩, ⟨1, 0, 0⟩, ⟨0, 1, 0⟩, ⟨0, 0, 1⟩]

/-- The alpha shape object of `tetraPoints`, with the answers it gives once
the finite cell is in (alpha at least 3/4, the squared circumradius). -/
def tetraAs3 : As3 :=
  { alpha := 1,
    alpha_spectrum := [1 / 4, 1 / 2, 3 / 4],
    find_alpha_solid := 3 / 4,
    find_optimal_alpha := fun _ => 3 / 4,
    number_of_solid_components := fun _ => 1,
    tr := tetraTriangulation,
    classifyCell := fun _ => tetraClassify,
    classifyPoint := fun _ p =>
      if 0 ≤ p.x ∧ 0 ≤ p.y ∧ 0 ≤ p.z ∧ p.x + p.y + p.z ≤ 1 then
        Classification_type.INTERIOR
      else Classification_type.EXTERIOR,
    regularFacets := fun _ => [⟨4, 0⟩, ⟨4, 1⟩, ⟨4, 2⟩, ⟨4, 3⟩] }

/-- Half-edge connectivity of the boundary of the tetrahedron, faces
`(1,2,3)`, `(2,0,3)`, `(0,1,3)`, `(1,0,2)` in this order: every new edge takes
the next two halfedge indices and a face refers to its last halfedge. -/
def tetraMesh : Mesh :=
  Mesh.ofTables tetraPoints
    [⟨2, 2⟩, ⟨1, 11⟩, ⟨3, 4⟩, ⟨2, 6⟩, ⟨1, 0⟩, ⟨3, 9⟩, ⟨0, 8⟩, ⟨2, 1⟩, ⟨3, 3⟩, ⟨0, 10⟩,
      ⟨1, 5⟩, ⟨0, 7⟩]
    [4, 3, 9, 1]

/-- The shape after `newShape(tetraPoints)` and `setAlpha(1)`. -/
def tetraShape : AlphaShape3D :=
  { inputPoints := ⟨[0, 0, 0, 1, 0, 0, 0, 1, 0, 0, 0, 1], 4, 3⟩,
    Points := tetraPoints,
    Vertices := [(⟨0, 0, 0⟩, 0), (⟨1, 0, 0⟩, 1), (⟨0, 1, 0⟩, 2), (⟨0, 0, 1⟩, 3)],
    alphaShape := some tetraAs3,
    delaunayTriangulation := some tetraTriangulation,
    triangulationMatrix := ⟨[0, 1, 2, 0, 2, 3, 1, 2, 3, 0, 1, 3], 4, 3⟩,
    numAlphaValues := 3,
    surface_mesh := tetraMesh }

/-- Points of the second example: a point inside a tetrahedron (id `0`) and
the four corners (ids `1..4`). -/
def starPoints : List Point :=
  [⟨1, 1, 1⟩, ⟨0, 0, 0⟩, ⟨4, 0, 0⟩, ⟨0, 4, 0⟩, ⟨0, 0, 4⟩]

/-- The triangulation of `starPoints`: four finite cells around the inner
point (cells `0..3`) and four infinite cells (cells `4..7`, infinite vertex
`5`), every cell in positive orientation. -/
def starTriangulation : Triangulation :=
  { cells := [Cell.ofLists [0, 2, 3, 4] [4, 1, 2, 3],
              Cell.ofLists [1, 0, 3, 4] [0, 5, 2, 3],
              Cell.ofLists [1, 2, 0, 4] [0, 1, 6, 3],
              Cell.ofLists [1, 2, 3, 0] [0, 1, 2, 7],
              Cell.ofLists [5, 3, 2, 4] [0, 6, 5, 7],
              Cell.ofLists [1, 5, 4, 3] [4, 1, 7, 6],
              Cell.ofLists [2, 1, 5, 4] [5, 4, 2, 7],
              Cell.ofLists [2, 1, 3, 5] [5, 4, 6, 3]],
    info := fun v => v }

/-- The alpha shape object of `starPoints`, with the answers it gives once
all four finite cells are in (alpha at least 363/4). -/
def starAs3 : As3 :=
  { alpha := 100,
    alpha_spectrum := [57 / 4, 363 / 4],
    find_alpha_solid := 57 / 4,
    find_optimal_alpha := fun _ => 57 / 4,
    number_of_solid_components := fun _ => 1,
    tr := starTriangulation,
    classifyCell := fun _ c =>
      if c < 4 then Classification_type.INTERIOR else Classification_type.EXTERIOR,
    classifyPoint := fun _ p =>
      if 0 ≤ p.x ∧ 0 ≤ p.y ∧ 0 ≤ p.z ∧ p.x + p.y + p.z ≤ 4 then
        Classification_type.INTERIOR
      else Classification_type.EXTERIOR,
    regularFacets := fun _ => [⟨0, 0⟩, ⟨1, 1⟩, ⟨2, 2⟩, ⟨3, 3⟩] }

/-- Connectivity of the boundary of the tetrahedron of `starPoints`, faces
`(2,3,4)`, `(4,3,1)`, `(2,4,1)`, `(2,1,3)` in this order. -/
def starConnectivity : List Halfedge_connectivity :=
  [⟨3, 2⟩, ⟨2, 11⟩, ⟨4, 4⟩, ⟨3, 6⟩, ⟨2, 0⟩, ⟨4, 9⟩, ⟨1, 8⟩, ⟨3, 1⟩, ⟨4, 3⟩, ⟨1, 10⟩,
    ⟨2, 5⟩, ⟨1, 7⟩]

/-- The canonical mesh of the second example: one vertex per input point,
vertex `0` (the inner point) isolated. -/
def starMesh : Mesh := Mesh.ofTables starPoints starConnectivity [4, 8, 10, 1]

/-- The copy of `starMesh` after `remove_isolated_vertices` and
`collect_garbage`: the removed vertex `0` has changed places with the last
vertex, `4`, and is dropped; the halfedges that pointed to `4` point to `0`. -/
def starMeshCompact : Mesh :=
  Mesh.ofTables [⟨0, 0, 4⟩, ⟨0, 0, 0⟩, ⟨4, 0, 0⟩, ⟨0, 4, 0⟩]
    [⟨3, 2⟩, ⟨2, 11⟩, ⟨0, 4⟩, ⟨3, 6⟩, ⟨2, 0⟩, ⟨0, 9⟩, ⟨1, 8⟩, ⟨3, 1⟩, ⟨0, 3⟩, ⟨1, 10⟩,
      ⟨2, 5⟩, ⟨1, 7⟩]
    [4, 8, 10, 1]

/-- The shape after `newShape(starPoints)` and `setAlpha(100)`. -/
def starShape : AlphaShape3D :=
  { inputPoints := ⟨[1, 1, 1, 0, 0, 0, 4, 0, 0, 0, 4, 0, 0, 0, 4], 5, 3⟩,
    Points := starPoints,
    Vertices := [(⟨1, 1, 1⟩, 0), (⟨0, 0, 0⟩, 1), (⟨4, 0, 0⟩, 2), (⟨0, 4, 0⟩, 3),
      (⟨0, 0, 4⟩, 4)],
    alphaShape := some starAs3,
    delaunayTriangulation := some starTriangulation,
    triangulationMatrix :=
      ⟨[0, 2, 3, 0, 3, 4, 2, 3, 4, 0, 2, 4, 1, 0, 3, 1, 3, 4, 0, 3, 4, 1, 0, 4,
        1, 2, 0, 1, 0, 4, 2, 0, 4, 1, 2, 4, 1, 2, 3, 1, 3, 0, 2, 3, 0, 1, 2, 0], 16, 3⟩,
    numAlphaValues := 2,
    surface_mesh := starMesh }

/-- Marks as removed the vertices no halfedge points to. -/
def markIsolated (m : Mesh) : Mesh :=
  { m with
    vremoved := (List.range m.vpoint.length).map
        (fun v => m.is_removed v || m.hconn.all (fun c => c.vertex_ != v)) }

/-- Squared Euclidean distance. -/
def sqDist (p q : Point) : ℚ :=
  (p.x - q.x) ^ 2 + (p.y - q.y) ^ 2 + (p.z - q.z) ^ 2

/-- The library on the inputs of the examples: what the CGAL functions return
for the soups and meshes that occur in `tetraShape` and `starShape` and in the
calls evaluated below.  The soups are consistently oriented and free of
duplicates, so orientation leaves them as they are and repair only drops
isolated points (here: the ones at the end of the list); a tetrahedron has no
edge that can be collapsed. -/
def exampleCGAL : CGAL :=
  { orient_polygon_soup := fun soup => soup,
    repair_polygon_soup := fun soup =>
      (soup.1.take ((soup.2.map (fun p => p.foldl max 0)).foldl max 0 + 1), soup.2),
    polygon_soup_to_polygon_mesh := fun pts polygons =>
      if polygons = [[0, 1, 2]] then
        Mesh.ofTables pts [⟨1, 2⟩, ⟨0, 5⟩, ⟨2, 4⟩, ⟨1, 1⟩, ⟨0, 0⟩, ⟨2, 3⟩] [4]
      else if polygons = [[0, 1, 2], [3, 4, 5]] then
        Mesh.ofTables pts
          [⟨1, 2⟩, ⟨0, 5⟩, ⟨2, 4⟩, ⟨1, 1⟩, ⟨0, 0⟩, ⟨2, 3⟩, ⟨4, 8⟩, ⟨3, 11⟩, ⟨5, 10⟩,
            ⟨4, 7⟩, ⟨3, 6⟩, ⟨5, 9⟩]
          [4, 10]
      else if polygons = [[1, 2, 3], [1, 3, 0]] then
        Mesh.ofTables pts
          [⟨2, 2⟩, ⟨1, 9⟩, ⟨3, 4⟩, ⟨2, 1⟩, ⟨1, 0⟩, ⟨3, 6⟩, ⟨0, 8⟩, ⟨3, 3⟩, ⟨1, 5⟩, ⟨0, 7⟩]
          [4, 8]
      else if polygons = [[1, 2, 3], [2, 0, 3], [0, 1, 3], [1, 0, 2]] then
        Mesh.ofTables pts tetraMesh.hconn tetraMesh.fconn
      else if polygons = [[2, 3, 4], [4, 3, 1], [2, 4, 1], [2, 1, 3]] then
        Mesh.ofTables pts starConnectivity [4, 8, 10, 1]
      else Mesh.ofTables pts [] [],
    collect_garbage := fun m =>
      if m = markIsolated starMesh then starMeshCompact else m,
    edge_collapse := fun m _ => m,
    remove_isolated_vertices := markIsolated,
    k_neighbor_search := fun n map query =>
      ((List.range n).filterMap (fun k => (map k).map (fun p => (k, sqDist query p)))).foldl
        (fun best c =>
          match best with
          | none => some c
          | some b => if c.2 < b.2 then some c else some b)
        none,
    inverse_of_transformed_distance := Rat.sqrt }

/-- A triangle soup of three points, as matrices. -/
def trianglePoints : Matrix := ⟨[5, 0, 0, 6, 0, 0, 5, 1, 0], 3, 3⟩

/-- The single facet `(0, 1, 2)`. -/
def triangleFacets : Matrix := ⟨[0, 1, 2], 1, 3⟩

/-- Six points, as a matrix. -/
def twoTrianglesPoints : Matrix :=
  ⟨[5, 0, 0, 6, 0, 0, 5, 1, 0, 8, 0, 0, 9, 0, 0, 8, 1, 0], 6, 3⟩

/-- The facets `(0, 1, 2)` and `(3, 4, 5)`: two triangles apart. -/
def twoTrianglesFacets : Matrix := ⟨[0, 1, 2, 3, 4, 5], 2, 3⟩

/-! ### The text `writeOff` writes -/

/-- The line `writeOff` writes for row `i` of `Points` (line 998). -/
def offPointLine (fmt : ℚ → String) (Points : Matrix) (i : ℕ) : String :=
  fmt ((Points.get? i 0).getD 0) ++ " " ++ fmt ((Points.get? i 1).getD 0) ++ " "
    ++ fmt ((Points.get? i 2).getD 0)

/-- The line `writeOff` writes for row `i` of `bf` (lines 1002-1003). -/
def offFaceLine (bf : Matrix) (i : ℕ) : String :=
  "3 " ++ toString (toUInt64 ((bf.get? i 0).getD 0)) ++ " "
    ++ toString (toUInt64 ((bf.get? i 1).getD 0)) ++ " "
    ++ toString (toUInt64 ((bf.get? i 2).getD 0))

/-- The copy `surface_mesh_s` of `getSimplifiedShape` after the three library
calls of lines 867-870. -/
def simplifiedCopy (lib : CGAL) (m : Mesh) (stop_ratio : ℚ) : Mesh :=
  lib.collect_garbage (lib.remove_isolated_vertices (lib.edge_collapse m stop_ratio))

/-! ### `NewShapeJS` (alpha-shape-3d.cpp, lines 118-240) -/

/-- A JavaScript value as the wrappers test and read it: a number, an array,
or anything else. -/
inductive JsValue where
  | number (q : ℚ)
  | array (elems : List JsValue)
  | other

/-- The JavaScript array `[x, y, z]` of a point. -/
def jsPoint (p : Point) : JsValue :=
  JsValue.array [JsValue.number p.x, JsValue.number p.y, JsValue.number p.z]

/-- The method `resize(r, c)` of `CustomMatrix`: the dimensions are set and
`data.resize(r * c)` keeps the entries that fit and value-initialises new
ones. -/
def CustomMatrix.resize {T : Type} [Inhabited T] (m : CustomMatrix T) (r c : ℕ) :
    CustomMatrix T :=
  ⟨m.data.take (u32 (r * c)) ++ List.replicate (u32 (r * c) - m.data.length) default, r, c⟩

/-- The triangulation object `Dt` as `NewShapeJS` reads it: the data
structure and the range of its finite cells. -/
structure Dt where
  tds : Triangulation
  /-- The cell handles from `finite_cells_begin()` to `finite_cells_end()`. -/
  finite_cells : List ℕ

/-- Embeds `number_of_finite_cells()`. -/
def Dt.number_of_finite_cells (dt : Dt) : ℕ := dt.finite_cells.length

/-- The two CGAL constructors `NewShapeJS` calls; they are parameters like
the algorithms of `CGAL`. -/
structure CGALBuild where
  /-- Embeds `Dt(first, last)` on the range of `Vertices`. -/
  Delaunay_triangulation_3 : List (Point × ℕ) → Dt
  /-- Embeds `As3(dt, As3::GENERAL)`: the alpha shape, and what the constructor
  leaves in `dt`, whose triangulation it takes over. -/
  Alpha_shape_3 : Dt → As3 × Dt

/-- The loop over `j` of lines 152-154 for one point: the coordinates of
`jsPoint` are written to row `i`; a coordinate that is not a number stops it
with the error of the binding layer. -/
def ingestCoordinates (M : Matrix) (i : ℕ) (jsPoint : List JsValue) : Matrix × Option String :=
  [0, 1, 2].foldl
    (fun (st : Matrix × Option String) j =>
      match st.2 with
      | some _ => st
      | none =>
        match jsPoint.getD j JsValue.other with
        | JsValue.number q => (st.1.set i j q, none)
        | _ => (st.1, some "A number was expected"))
    (M, none)

/-- The loop of lines 140-155: every point is checked and copied to
`inputPoints`; the first point that is rejected ends the loop (the function
returns) with the message of the `TypeError` thrown. -/
def ingestPoints (jsPoints : List JsValue) (inputPoints : Matrix) : Matrix × Option String :=
  (List.range jsPoints.length).foldl
    (fun (st : Matrix × Option String) i =>
      match st.2 with
      | some _ => st
      | none =>
        match jsPoints.getD i JsValue.other with
        | JsValue.array jsPoint =>
          if jsPoint.length ≠ 3 then
            (st.1, some "Each point should have exactly 3 coordinates")
          else ingestCoordinates st.1 i jsPoint
        | _ => (st.1, some "Each point should be an array of 3 numbers"))
    (inputPoints, none)

/-- The loop of lines 168-172: a point per row of `inputPoints` is appended
to `Points`, and the pair of `Points.back()` and the row index to
`Vertices`. -/
def buildVertices (inputPoints : Matrix) (Points : List Point) (Vertices : List (Point × ℕ)) :
    Option (List Point × List (Point × ℕ)) :=
  (List.range inputPoints.numRows).foldlM
    (fun (st : List Point × List (Point × ℕ)) i => do
      let x ← inputPoints.get? i 0
      let y ← inputPoints.get? i 1
      let z ← inputPoints.get? i 2
      let Points := st.1 ++ [Point.mk x y z]
      let back ← Points.getLast?
      pure (Points, st.2 ++ [(back, u32 i)]))
    (Points, Vertices)

/-- The loop of lines 196-215: four rows per finite cell, the `info()` of the
vertex triples `(0,1,2)`, `(0,2,3)`, `(1,2,3)`, `(0,1,3)`. -/
def fillTriangulationMatrix (dt : Dt) (M : Matrix) : Matrix :=
  (dt.finite_cells.foldl
    (fun (st : Matrix × ℕ) cit =>
      let v : Fin 4 → ℚ := fun k => ((dt.tds.info ((dt.tds.cell cit).vertex k) : ℕ) : ℚ)
      let M := st.1
      let i_idx := st.2
      let M := ((M.set (u32 i_idx) 0 (v 0)).set (u32 i_idx) 1 (v 1)).set (u32 i_idx) 2 (v 2)
      let i_idx := i_idx + 1
      let M := ((M.set (u32 i_idx) 0 (v 0)).set (u32 i_idx) 1 (v 2)).set (u32 i_idx) 2 (v 3)
      let i_idx := i_idx + 1
      let M := ((M.set (u32 i_idx) 0 (v 1)).set (u32 i_idx) 1 (v 2)).set (u32 i_idx) 2 (v 3)
      let i_idx := i_idx + 1
      let M := ((M.set (u32 i_idx) 0 (v 0)).set (u32 i_idx) 1 (v 1)).set (u32 i_idx) 2 (v 3)
      let i_idx := i_idx + 1
      (M, i_idx))
    (M, 0)).1

/-- Embeds `NewShapeJS(info)`: the result is the error thrown to the caller, if
any; `none` stands for a read outside `inputPoints`.  The function assigns
`inputPoints`, `Points`, `Vertices`, the two pointers, `triangulationMatrix`
and `numAlphaValues`; it has no statement on `surface_mesh`. -/
def AlphaShape3D.NewShapeJS (lib : CGALBuild) (info : List JsValue) :
    StateM AlphaShape3D (Option (Except String Unit)) := do
  match info with
  | JsValue.array jsPoints :: _ =>
    let numPoints := jsPoints.length
    modify (fun self =>
      { self with
        inputPoints := (self.inputPoints.resize 0 0).resize numPoints 3,
        Points := [],
        Vertices := [] })
    let self ← get
    let ingested := ingestPoints jsPoints self.inputPoints
    set { self with inputPoints := ingested.1 }
    match ingested.2 with
    | some e => pure (some (Except.error e))
    | none =>
      let self ← get
      match buildVertices self.inputPoints self.Points self.Vertices with
      | none => pure none
      | some built =>
        let dt := lib.Delaunay_triangulation_3 built.2
        let tm := fillTriangulationMatrix dt
          (self.triangulationMatrix.resize (u32 (dt.number_of_finite_cells * 4)) 3)
        let shape := lib.Alpha_shape_3 dt
        set { self with
          Points := built.1,
          Vertices := built.2,
          delaunayTriangulation := some shape.2.tds,
          triangulationMatrix := tm,
          alphaShape := some shape.1,
          numAlphaValues := shape.1.number_of_alphas }
        pure (some (Except.ok ()))
  | _ => pure (some (Except.error "Array of points expected"))

/-- A triangulation object without cells. -/
def emptyDt : Dt := ⟨⟨[], fun v => v⟩, []⟩

/-- An alpha shape object of a triangulation without finite cells: no alpha
values, no Regular facets, every point outside. -/
def emptyAs3 : As3 :=
  { alpha := 0,
    alpha_spectrum := [],
    find_alpha_solid := 0,
    find_optimal_alpha := fun _ => 0,
    number_of_solid_components := fun _ => 0,
    tr := emptyDt.tds,
    classifyCell := fun _ _ => Classification_type.EXTERIOR,
    classifyPoint := fun _ _ => Classification_type.EXTERIOR,
    regularFacets := fun _ => [] }

/-- The constructors on the inputs of the examples: the triangulations of
`tetraPoints` and `starPoints`, and a triangulation without finite cells for
fewer than four points; the alpha shape starts with alpha 0 and takes the
triangulation over. -/
def exampleBuild : CGALBuild :=
  { Delaunay_triangulation_3 := fun vs =>
      if vs.map Prod.fst = tetraPoints then ⟨tetraTriangulation, [4]⟩
      else if vs.map Prod.fst = starPoints then ⟨starTriangulation, [0, 1, 2, 3]⟩
      else emptyDt,
    Alpha_shape_3 := fun dt =>
      if dt.finite_cells = [4] then ({ tetraAs3 with alpha := 0 }, emptyDt)
      else if dt.finite_cells = [0, 1, 2, 3] then ({ starAs3 with alpha := 0 }, emptyDt)
      else (emptyAs3, emptyDt) }

/-! ### Nearest neighbour: the vertices searched and the library contracts -/

/-- A vertex is referenced by a face when it is one of the three vertices
around some face of the mesh. -/
def Mesh.faceReferenced (m : Mesh) (v : ℕ) : Bool :=
  m.faces.any (fun f =>
    match (m.halfedge f).bind (vertex_around_face m) with
    | some r => r.1 == v || r.2.1 == v || r.2.2 == v
    | none => false)

/-- The Euclidean distance as the search computes it: the inverse transform
(the square root) of the squared distance. -/
def euclideanDistance (lib : CGAL) (q p : Point) : ℚ :=
  lib.inverse_of_transformed_distance (sqDist q p)

/-- Contract of `PMP::remove_isolated_vertices` on a mesh without removed
vertices: the points stay where they are and exactly the vertices no face
refers to are marked removed. -/
def CGAL.removesIsolated (lib : CGAL) (m : Mesh) : Prop :=
  (lib.remove_isolated_vertices m).vpoint = m.vpoint ∧
  ∀ v, v < m.vpoint.length →
    (lib.remove_isolated_vertices m).is_removed v = !m.faceReferenced v

instance (lib : CGAL) (m : Mesh) : Decidable (lib.removesIsolated m) := by
  unfold CGAL.removesIsolated
  infer_instance

/-- Contract of the exact search for one neighbour (`k = 1`, `eps = 0`) over
the keys `0..n-1`: the key found is a key whose point has the smallest squared
distance to the query, and that squared distance is returned with it. -/
def CGAL.exactSearch (lib : CGAL) : Prop :=
  ∀ (n : ℕ) (map : ℕ → Option Point) (q : Point), 0 < n →
    (∀ k, k < n → ∃ p, map k = some p) →
    ∃ k p, k < n ∧ map k = some p ∧
      lib.k_neighbor_search n map q = some (k, sqDist q p) ∧
      ∀ k' p', k' < n → map k' = some p' → sqDist q p ≤ sqDist q p'

/-- A square root to three decimals: monotone, and exact on the squares of
numbers with at most three decimals. -/
def fixedSqrt (d : ℚ) : ℚ := ((Nat.sqrt (Rat.floor (d * 1000000)).toNat : ℕ) : ℚ) / 1000

/-- The library of the examples with `fixedSqrt` as the inverse transform of
the distance. -/
def exampleCGALSqrt : CGAL :=
  { exampleCGAL with inverse_of_transformed_distance := fixedSqrt }

/-! ### A reader of the text `writeOff` writes -/

/-- Modelled from the spec: the value of a token of decimal digits; `none`
for the empty token and for a token with another character. -/
def parseNat (cs : List Char) : Option ℕ :=
  if cs ≠ [] ∧ cs.all Char.isDigit = true then
    some (cs.foldl (fun n c => n * 10 + (c.toNat - '0'.toNat)) 0)
  else none

/-- Modelled from the spec: the tokens of a line, separated by single blanks. -/
def offTokens (line : String) : List (List Char) := line.data.splitOn ' '

/-- Modelled from the spec: the line `<num_points> <num_faces> 0` read as the
pair of the two counts (the third number is read and dropped). -/
def parseOffCounts (line : String) : Option (ℕ × ℕ) :=
  match (offTokens line).map parseNat with
  | [some n, some m, some _] => some (n, m)
  | _ => none

/-- Modelled from the spec: a point line `x y z` holds three non-empty tokens;
the coordinates are not interpreted. -/
def isOffPointLine (line : String) : Bool :=
  match offTokens line with
  | [x, y, z] => !x.isEmpty && !y.isEmpty && !z.isEmpty
  | _ => false

/-- Modelled from the spec: a face line `3 i0 i1 i2` read as its three
indices. -/
def parseOffFace (line : String) : Option (List ℕ) :=
  match (offTokens line).map parseNat with
  | [some 3, some a, some b, some c] => some [a, b, c]
  | _ => none

/-- Modelled from the spec: a reader of the format of `write_off`: the header
token `OFF`, the line of the counts, `num_points` point lines, `num_faces`
face lines and nothing else; it returns the point count, the face count and
the indices of the faces in order. -/
def parseOff (lines : OffFile) : Option (ℕ × ℕ × List (List ℕ)) :=
  match lines with
  | header :: counts :: rest =>
    if header = "OFF" then do
      let nm ← parseOffCounts counts
      if rest.length = nm.1 + nm.2 ∧ (rest.take nm.1).all isOffPointLine = true then do
        let faces ← (rest.drop nm.1).mapM parseOffFace
        pure (nm.1, nm.2, faces)
      else none
    else none
  | _ => none

/-! ### `getTriangulation` (lines 811-817) and the rows of a cell -/

/-- Embeds `getTriangulation()` (lines 811-817). -/
def AlphaShape3D.getTriangulation (self : AlphaShape3D) : Matrix := self.triangulationMatrix

/-- The local vertex indices `NewShapeJS` reads for row `r` of the four rows
of a finite cell (lines 199-213). -/
def cellRowTriple (r : ℕ) : List (Fin 4) :=
  if r = 0 then [0, 1, 2] else if r = 1 then [0, 2, 3] else if r = 2 then [1, 2, 3]
  else [0, 1, 3]

/-- The body of the loop of lines 196-215 for one finite cell `cit`: the four
rows written from row `i_idx` on, and the counter after them. -/
def fillCell (tds : Triangulation) (st : Matrix × ℕ) (cit : ℕ) : Matrix × ℕ :=
  let v : Fin 4 → ℚ := fun k => ((tds.info ((tds.cell cit).vertex k) : ℕ) : ℚ)
  let M := st.1
  let i_idx := st.2
  let M := ((M.set (u32 i_idx) 0 (v 0)).set (u32 i_idx) 1 (v 1)).set (u32 i_idx) 2 (v 2)
  let i_idx := i_idx + 1
  let M := ((M.set (u32 i_idx) 0 (v 0)).set (u32 i_idx) 1 (v 2)).set (u32 i_idx) 2 (v 3)
  let i_idx := i_idx + 1
  let M := ((M.set (u32 i_idx) 0 (v 1)).set (u32 i_idx) 1 (v 2)).set (u32 i_idx) 2 (v 3)
  let i_idx := i_idx + 1
  let M := ((M.set (u32 i_idx) 0 (v 0)).set (u32 i_idx) 1 (v 1)).set (u32 i_idx) 2 (v 3)
  let i_idx := i_idx + 1
  (M, i_idx)

end alpha_shape_3d_ns

namespace native_module_ns

/-! ## Definitions: `NativeModule` (native-module.cpp)

The numeric functions of the class `NativeModule`.  The arguments of a call
are the list `info` of JavaScript values; a call hands back a value or leaves
an exception pending.  A JavaScript array has fewer than `2^32` elements, so
`Length()` is the length of the list.  An Eigen vector is a list; every index
the loops use lies inside it.

The functions compute in `double`.  The type `D` of the `double` values and
the operations on them are parameters (`Double D`): an operation of the code
is one application of the operation of `Double D`, in the order of the code,
and the embedding fixes neither the rounding nor what an operation yields on
an infinity or a not-a-number. -/

/-- The JavaScript exception a call leaves pending: its class and message. -/
inductive JsException where
  | TypeError (message : String)
  | RangeError (message : String)
  | Error (message : String)
deriving DecidableEq, Repr

/-- The arithmetic of `double` as the functions use it: the literals of the
code, the conversion from `uint32_t`, the operations `+`, `-`, `*`, `/`,
unary `-`, `abs`, the comparison `<` and the test `isnan`.  `D` holds every
value of a `double`: finite numbers, infinities and not-a-number. -/
structure Double (D : Type) where
  /-- The literal `0.0`. -/
  zero : D
  /-- The literal `0.5`. -/
  half : D
  /-- The literal `1.0`. -/
  one : D
  /-- The constant `TOLERANCE = 1e-10` of `roots` (line 102). -/
  TOLERANCE : D
  /-- The conversion `static_cast<double>(i)` of a `uint32_t` value. -/
  ofUInt32 : ℕ → D
  /-- The sum `a + b`. -/
  add : D → D → D
  /-- The difference `a - b`. -/
  sub : D → D → D
  /-- The product `a * b`. -/
  mul : D → D → D
  /-- The quotient `a / b`. -/
  div : D → D → D
  /-- The negation `-a`. -/
  neg : D → D
  /-- The absolute value `abs(a)`. -/
  abs : D → D
  /-- The comparison `a < b`. -/
  lt : D → D → Bool
  /-- The test `isnan(a)`. -/
  isnan : D → Bool

/-- A JavaScript value as the functions test and read it: a number with its
`DoubleValue()`, an array, or anything else. -/
inductive NapiValue (D : Type) where
  | number (d : D)
  | array (elems : List (NapiValue D))
  | other

/-- The loops that load a vector from a JavaScript array (lines 204-211,
215-222, 299-306, 310-317): for `i < n` the element `Get(i)` must be a number
and is stored at `i`; the first element that is not a number ends the call
with a `TypeError`. -/
def loadVector {D : Type} (input : List (NapiValue D)) (n : ℕ) (message : String) :
    Except JsException (List D) :=
  (List.range n).mapM (fun i =>
    match input.getD i NapiValue.other with
    | NapiValue.number d => pure d
    | _ => throw (JsException.TypeError message))

/-- Uniform spacing `x = [0, 1, 2, ..., n-1]` (lines 225-227, 320-322):
`x[i] = static_cast<double>(i)`. -/
def uniformSpacing {D : Type} (fp : Double D) (n : ℕ) : List D :=
  (List.range n).map (fun (i : ℕ) => fp.ofUInt32 i)

/-- The part of `trapz` after the arguments are taken (lines 279-333);
`xInput` is `none` when `hasX` is false.  Each pass of the loop of lines
327-331 computes `dx`, `dy` and `total + dx * dy` with the operations of
`fp`. -/
def trapzArrays {D : Type} (fp : Double D) (yInput : List (NapiValue D))
    (xInput : Option (List (NapiValue D))) : Except JsException D :=
  let n := yInput.length
  if (match xInput with
      | some xs => decide (xs.length ≠ n)
      | none => false) = true then
    throw (JsException.RangeError "x and y arrays must have the same length")
  else if n < 2 then
    throw (JsException.RangeError "trapz requires at least two data points")
  else do
    let y ← loadVector yInput n "y array must contain only numbers"
    let x ← match xInput with
      | some xs => loadVector xs n "x array must contain only numbers"
      | none => pure (uniformSpacing fp n)
    pure ((List.range' 1 (n - 1)).foldl
      (fun total i =>
        let dx := fp.sub (x.getD i fp.zero) (x.getD (i - 1) fp.zero)
        let dy := fp.mul fp.half (fp.add (y.getD i fp.zero) (y.getD (i - 1) fp.zero))
        fp.add total (fp.mul dx dy))
      fp.zero)

/-- Embeds `NativeModule::trapz` (lines 251-334). -/
def trapz {D : Type} (fp : Double D) (info : List (NapiValue D)) : Except JsException D :=
  if info.length < 1 then
    throw (JsException.TypeError "trapz expects at least one argument")
  else
    match info.getD 0 NapiValue.other with
    | NapiValue.array yInput =>
      if 1 < info.length then
        match info.getD 1 NapiValue.other with
        | NapiValue.array xInput => trapzArrays fp yInput (some xInput)
        | _ => throw (JsException.TypeError "Second argument must be an array")
      else trapzArrays fp yInput none
    | _ => throw (JsException.TypeError "First argument must be an array")

/-- The part of `cumtrapz` after the arguments are taken (lines 184-246);
`xInput` is `none` when `hasX` is false.  The entries of the new vector
`result` are not initialised; each is assigned before it is read.  Each pass
of the loop of lines 234-238 computes `dx`, `dy` and
`result[i - 1] + dx * dy` with the operations of `fp`. -/
def cumtrapzArrays {D : Type} (fp : Double D) (yInput : List (NapiValue D))
    (xInput : Option (List (NapiValue D))) : Except JsException (List D) :=
  let n := yInput.length
  if (match xInput with
      | some xs => decide (xs.length ≠ n)
      | none => false) = true then
    throw (JsException.RangeError "x and y arrays must have the same length")
  else if n = 0 then
    pure []
  else do
    let y ← loadVector yInput n "y array must contain only numbers"
    let x ← match xInput with
      | some xs => loadVector xs n "x array must contain only numbers"
      | none => pure (uniformSpacing fp n)
    let result := (List.replicate n fp.zero).set 0 fp.zero
    let result := (List.range' 1 (n - 1)).foldl
      (fun (result : List D) i =>
        let dx := fp.sub (x.getD i fp.zero) (x.getD (i - 1) fp.zero)
        let dy := fp.mul fp.half (fp.add (y.getD i fp.zero) (y.getD (i - 1) fp.zero))
        result.set i (fp.add (result.getD (i - 1) fp.zero) (fp.mul dx dy)))
      result
    pure ((List.range n).map (fun i => result.getD i fp.zero))

/-- Embeds `NativeModule::cumtrapz` (lines 156-247). -/
def cumtrapz {D : Type} (fp : Double D) (info : List (NapiValue D)) :
    Except JsException (List D) :=
  if info.length < 1 then
    throw (JsException.TypeError "cumtrapz expects at least one argument")
  else
    match info.getD 0 NapiValue.other with
    | NapiValue.array yInput =>
      if 1 < info.length then
        match info.getD 1 NapiValue.other with
        | NapiValue.array xInput => cumtrapzArrays fp yInput (some xInput)
        | _ => throw (JsException.TypeError "Second argument must be an array")
      else cumtrapzArrays fp yInput none
    | _ => throw (JsException.TypeError "First argument must be an array")

/-- Embeds `Eigen::MatrixXd` as `roots` uses it: the dimensions and the
coefficients. -/
structure MatrixXd (D : Type) where
  rows : ℕ
  cols : ℕ
  coeff : ℕ → ℕ → D

/-- Embeds `MatrixXd::Zero(rows, cols)`. -/
def MatrixXd.Zero {D : Type} (fp : Double D) (rows cols : ℕ) : MatrixXd D :=
  ⟨rows, cols, fun _ _ => fp.zero⟩

/-- Assignment through `operator()(i, j)`. -/
def MatrixXd.set {D : Type} (m : MatrixXd D) (i j : ℕ) (v : D) : MatrixXd D :=
  { m with coeff := fun a b => if a = i ∧ b = j then v else m.coeff a b }

/-- The companion matrix `roots` builds (lines 120-127) from the vector of
the coefficients: `1.0` at `(i, i - 1)`, and at `(i, degree - 1)` the value
of `-coefficients(degree - i) / coefficients(0)`, the negation and then the
division of `fp`. -/
def companionMatrix {D : Type} (fp : Double D) (coefficients : List D) (degree : ℕ) :
    MatrixXd D :=
  let companionMatrix := MatrixXd.Zero fp degree degree
  let companionMatrix := (List.range' 1 (degree - 1)).foldl
    (fun (M : MatrixXd D) i => M.set i (i - 1) fp.one)
    companionMatrix
  (List.range degree).foldl
    (fun (M : MatrixXd D) i =>
      M.set i (degree - 1)
        (fp.div (fp.neg (coefficients.getD (degree - i) fp.zero))
          (coefficients.getD 0 fp.zero)))
    companionMatrix

/-- The loop of lines 116-118: `Get(i).As<Napi::Number>().DoubleValue()` for
`i <= degree`; the read is not guarded, so an element that is not a number
ends the call with the error of the binding layer. -/
def loadCoefficients {D : Type} (coefficientsArray : List (NapiValue D)) (degree : ℕ) :
    Except JsException (List D) :=
  (List.range (degree + 1)).mapM (fun i =>
    match coefficientsArray.getD i NapiValue.other with
    | NapiValue.number d => pure d
    | _ => throw (JsException.Error "A number was expected"))

/-- An entry of the array `roots` returns: a number, or an object with the
fields `real` and `imag`. -/
inductive RootValue (D : Type) where
  | number (real : D)
  | complex (real imag : D)

/-- The entry `roots` stores for an eigenvalue (lines 138-149): the real part
alone when `abs(imagPart) < TOLERANCE || isnan(imagPart)`, the pair
otherwise. -/
def rootEntry {D : Type} (fp : Double D) (root : D × D) : RootValue D :=
  let realPart := root.1
  let imagPart := root.2
  if (fp.lt (fp.abs imagPart) fp.TOLERANCE || fp.isnan imagPart) = true then
    RootValue.number realPart
  else RootValue.complex realPart imagPart

/-- Embeds `NativeModule::roots` (lines 100-152).  `eigenvalues` is
`EigenSolver<MatrixXd>(companionMatrix).eigenvalues()`, entry `i` as the pair
of its real and imaginary part.  For an empty array `degree` is `-1` and
`MatrixXd::Zero(-1, -1)` is undefined: `none`.  For a single coefficient the
solver is called on a `0 x 0` matrix and no entry of its answer is read. -/
def roots {D : Type} (fp : Double D) (eigenvalues : MatrixXd D → ℕ → D × D)
    (info : List (NapiValue D)) : Option (Except JsException (List (RootValue D))) :=
  match info.getD 0 NapiValue.other with
  | NapiValue.array coefficientsArray =>
    if coefficientsArray.length = 0 then none
    else
      let degree := coefficientsArray.length - 1
      match loadCoefficients coefficientsArray degree with
      | Except.error e => some (Except.error e)
      | Except.ok coefficients =>
        let companionMatrix := companionMatrix fp coefficients degree
        let roots := eigenvalues companionMatrix
        some (Except.ok ((List.range degree).map (fun i => rootEntry fp (roots i))))
  | _ => some (Except.error (JsException.TypeError "Expected an array of coefficients"))

/-- The `n x n` matrix of the numbers a `MatrixXd` holds, the doubles read as
rationals by `v`. -/
def MatrixXd.toMatrix {D : Type} (v : D → ℚ) (m : MatrixXd D) (n : ℕ) :
    Matrix (Fin n) (Fin n) ℚ :=
  Matrix.of fun i j => v (m.coeff i.val j.val)

/-- Follows the specification: the matrix with ones on the sub-diagonal, the
entry `-a i` in row `i` of the last column and zeros elsewhere. -/
def lastColumnCompanion (n : ℕ) (a : ℕ → ℚ) : Matrix (Fin n) (Fin n) ℚ :=
  Matrix.of fun i j =>
    if j.val + 1 = n then -a i.val else if i.val = j.val + 1 then 1 else 0

/-- The arguments of a call with the array `y` of numbers and, when it is
given, the array `x` of numbers. -/
def numericArgs {D : Type} (ys : List D) (xs : Option (List D)) : List (NapiValue D) :=
  NapiValue.array (ys.map NapiValue.number) ::
    (match xs with
    | some l => [NapiValue.array (l.map NapiValue.number)]
    | none => [])

/-- The abscissae of the integration: `x` when it is given, `0, 1, ..., n-1`
converted to `double` otherwise. -/
def abscissae {D : Type} (fp : Double D) (n : ℕ) (xs : Option (List D)) : List D :=
  match xs with
  | some l => l
  | none => uniformSpacing fp n

/-- The value `dx * dy` a pass of the integration loops adds for the index
`i` (lines 235-237, 328-330). -/
def trapezoid {D : Type} (fp : Double D) (x y : List D) (i : ℕ) : D :=
  fp.mul (fp.sub (x.getD i fp.zero) (x.getD (i - 1) fp.zero))
    (fp.mul fp.half (fp.add (y.getD i fp.zero) (y.getD (i - 1) fp.zero)))

/-- The running total of the integration loops after the pass for the index
`k`: `0.0`, and then the total before plus `trapezoid fp x y k`. -/
def runningTotal {D : Type} (fp : Double D) (x y : List D) : ℕ → D
  | 0 => fp.zero
  | k + 1 => fp.add (runningTotal fp x y k) (trapezoid fp x y (k + 1))

/-- No operation of the pass for the index `i` of the integration loops
rounds: read as rationals by `v`, the difference, the sum, the half, the
product and the new total are the exact ones. -/
def exactPass {D : Type} (fp : Double D) (v : D → ℚ) (x y : List D) (i : ℕ) : Prop :=
  v (fp.sub (x.getD i fp.zero) (x.getD (i - 1) fp.zero))
    = v (x.getD i fp.zero) - v (x.getD (i - 1) fp.zero) ∧
  v (fp.add (y.getD i fp.zero) (y.getD (i - 1) fp.zero))
    = v (y.getD i fp.zero) + v (y.getD (i - 1) fp.zero) ∧
  v (fp.mul fp.half (fp.add (y.getD i fp.zero) (y.getD (i - 1) fp.zero)))
    = v (fp.add (y.getD i fp.zero) (y.getD (i - 1) fp.zero)) / 2 ∧
  v (trapezoid fp x y i)
    = v (fp.sub (x.getD i fp.zero) (x.getD (i - 1) fp.zero))
      * v (fp.mul fp.half (fp.add (y.getD i fp.zero) (y.getD (i - 1) fp.zero))) ∧
  v (fp.add (runningTotal fp x y (i - 1)) (trapezoid fp x y i))
    = v (runningTotal fp x y (i - 1)) + v (trapezoid fp x y i)

/-- Rounding of a rational to the nearest integer, a tie to the even one. -/
def roundHalfEven (q : ℚ) : ℤ :=
  if q - (Int.floor q : ℚ) < 1 / 2 then Int.floor q
  else if 1 / 2 < q - (Int.floor q : ℚ) then Int.floor q + 1
  else if Int.floor q % 2 = 0 then Int.floor q
  else Int.floor q + 1

/-- The `double` nearest to a rational `q`, a tie to the even significand
(the rounding of IEEE 754 binary64 arithmetic): with `e` the exponent of the
power of two at or below `|q|`, the multiple of `2^(e - 52)` nearest to `q`.
This is the rounding for `2^(-1022) <= |q| < 2^1024`, where a `double` has a
significand of 53 bits. -/
def round53 (q : ℚ) : ℚ :=
  if q = 0 then 0
  else (roundHalfEven (q / (2 : ℚ) ^ (Int.log 2 |q| - 52)) : ℚ)
    * (2 : ℚ) ^ (Int.log 2 |q| - 52)

/-- Double arithmetic on the example inputs: a value is the rational the
`double` holds, and `+`, `-`, `*`, `/` are the exact operation followed by
the rounding to the nearest `double`.  The examples stay inside
`2^(-1022) <= |q| < 2^1024` and divide by no zero, so no infinity and no
not-a-number occurs in them. -/
def exampleDouble : Double ℚ where
  zero := 0
  half := 1 / 2
  one := 1
  TOLERANCE := round53 (1 / 10000000000)
  ofUInt32 := fun i => (i : ℚ)
  add := fun a b => round53 (a + b)
  sub := fun a b => round53 (a - b)
  mul := fun a b => round53 (a * b)
  div := fun a b => round53 (a / b)
  neg := fun a => -a
  abs := fun a => |a|
  lt := fun a b => decide (a < b)
  isnan := fun _ => false

end native_module_ns

namespace alpha_shape_3d_ns

/-! ## Theorems -/

/-- C1: for each opposite-vertex index `s` the sequence `(s, i0, i1, i2)` read
by `setAlpha` is an arrangement of `(0,1,2,3)`, and the permutation that sends
`(0,1,2,3)` to it has the same parity for all four values of `s` (it is odd
for each). -/
theorem setAlpha_facet_winding_parity (s t : Fin 4) :
    (s.val :: facetIndices s.val).Perm [0, 1, 2, 3] ∧
    (∀ k : Fin 4, ((facetPerm s) k).val = (s.val :: facetIndices s.val).getD k.val 0) ∧
    Equiv.Perm.sign (facetPerm s) = Equiv.Perm.sign (facetPerm t) ∧
    Equiv.Perm.sign (facetPerm s) = -1 := by
  revert s t
  decide

/-- The function `Cell::index` finds a position of `n` whenever `n` is a neighbour. -/
theorem Cell.neighbor_index (c : Cell) (n : ℕ) (h : ∃ j : Fin 4, c.neighbor j = n) :
    c.neighbor (c.index n) = n := by
  obtain ⟨j, hj⟩ := h
  unfold Cell.index
  split_ifs with h0 h1 h2
  · exact h0.symm
  · exact h1.symm
  · exact h2.symm
  · have hcases : ∀ k : Fin 4, k = 0 ∨ k = 1 ∨ k = 2 ∨ k = 3 := by decide
    rcases hcases j with rfl | rfl | rfl | rfl
    · exact absurd hj.symm h0
    · exact absurd hj.symm h1
    · exact absurd hj.symm h2
    · exact hj

/-- In a valid triangulation the mirror of a facet has the same three vertex
ids. -/
theorem Triangulation.mem_facetVertices_mirror (t : Triangulation) (hv : t.valid)
    (f : Facet) (hf : f.first < t.cells.length) (v : ℕ) :
    v ∈ t.facetVertices (t.mirror_facet f) ↔ v ∈ t.facetVertices f := by
  obtain ⟨hn, hex, hsh⟩ := hv f.first hf f.second
  have hidx := Cell.neighbor_index _ _ hex
  obtain ⟨-, -, hsh2⟩ := hv _ hn ((t.cell ((t.cell f.first).neighbor f.second)).index f.first)
  rw [hidx] at hsh2
  simp only [Triangulation.facetVertices, Triangulation.mirror_facet, List.mem_map,
    List.mem_filter, List.mem_finRange, true_and, decide_eq_true_eq]
  constructor
  · rintro ⟨k, hk, rfl⟩
    obtain ⟨l, hl, hlv⟩ := hsh2 f.second rfl k hk
    exact ⟨l, hl, by rw [hlv]⟩
  · rintro ⟨k, hk, rfl⟩
    obtain ⟨l, hl, hlv⟩ := hsh _ hidx k hk
    exact ⟨l, hl, by rw [hlv]⟩

/-- The polygon pushed for a facet consists of the three vertex ids of the
facet. -/
theorem mem_facetPolygon (t : Triangulation) (f : Facet) (v : ℕ) :
    v ∈ facetPolygon t f ↔ v ∈ t.facetVertices f := by
  obtain ⟨c, s⟩ := f
  have hcases : ∀ k : Fin 4, k = 0 ∨ k = 1 ∨ k = 2 ∨ k = 3 := by decide
  have hfin : List.finRange 4 = [0, 1, 2, 3] := by decide
  have h0 : facetIndices (0 : Fin 4).val = [2, 1, 3] := by decide
  have h1 : facetIndices (1 : Fin 4).val = [2, 3, 0] := by decide
  have h2 : facetIndices (2 : Fin 4).val = [0, 3, 1] := by decide
  have h3 : facetIndices (3 : Fin 4).val = [0, 1, 2] := by decide
  have v0 : ∀ c : Cell, c.vertexAt 0 = c.vertex 0 := fun _ => rfl
  have v1 : ∀ c : Cell, c.vertexAt 1 = c.vertex 1 := fun _ => rfl
  have v2 : ∀ c : Cell, c.vertexAt 2 = c.vertex 2 := fun _ => rfl
  have v3 : ∀ c : Cell, c.vertexAt 3 = c.vertex 3 := fun _ => rfl
  rcases hcases s with rfl | rfl | rfl | rfl
  · simp only [facetPolygon, Triangulation.facetVertices, h0, hfin, List.map, v1, v2, v3]
    simp [List.filter]
    tauto
  · simp only [facetPolygon, Triangulation.facetVertices, h1, hfin, List.map, v0, v2, v3]
    simp [List.filter]
    tauto
  · simp only [facetPolygon, Triangulation.facetVertices, h2, hfin, List.map, v0, v1, v3]
    simp [List.filter]
    tauto
  · simp only [facetPolygon, Triangulation.facetVertices, h3, hfin, List.map, v0, v1, v2]
    simp [List.filter]

/-- C2: in a valid triangulation, for a facet that is Regular (exactly one of
its two incident cells is `EXTERIOR`), after the orientation step of
`setAlpha` the cell the facet is referenced from is `EXTERIOR` and the facet
has the same three vertex ids as before; they are the ids of the polygon
pushed for it. -/
theorem setAlpha_orientFacet_exterior (t : Triangulation)
    (classify : ℕ → Classification_type) (f : Facet)
    (hv : t.valid) (hf : f.first < t.cells.length) (hreg : t.isRegular classify f) :
    classify (orientFacet t classify f).first = Classification_type.EXTERIOR ∧
    (∀ v, v ∈ t.facetVertices (orientFacet t classify f) ↔ v ∈ t.facetVertices f) ∧
    ∀ v, v ∈ facetPolygon t (orientFacet t classify f) ↔ v ∈ t.facetVertices f := by
  have key : classify (orientFacet t classify f).first = Classification_type.EXTERIOR ∧
      ∀ v, v ∈ t.facetVertices (orientFacet t classify f) ↔ v ∈ t.facetVertices f := by
    unfold orientFacet
    rcases hreg with ⟨hc, _⟩ | ⟨hc, hn⟩
    · rw [if_neg (by simpa using hc)]
      exact ⟨hc, fun _ => Iff.rfl⟩
    · rw [if_pos hc]
      exact ⟨hn, fun v => t.mem_facetVertices_mirror hv f hf v⟩
  exact ⟨key.1, key.2, fun v => (mem_facetPolygon t _ v).trans (key.2 v)⟩

/-- Witness for C2: the facets of the single finite cell of the triangulation
of four points, which is `INTERIOR` while its four neighbours are infinite. -/
theorem setAlpha_orientFacet_exterior_witness :
    tetraTriangulation.valid ∧
    tetraTriangulation.isRegular tetraClassify ⟨4, 2⟩ ∧
    orientFacet tetraTriangulation tetraClassify ⟨4, 2⟩ = ⟨2, 3⟩ ∧
    tetraClassify (orientFacet tetraTriangulation tetraClassify ⟨4, 2⟩).first
      = Classification_type.EXTERIOR ∧
    ∀ v, v ∈ tetraTriangulation.facetVertices
        (orientFacet tetraTriangulation tetraClassify ⟨4, 2⟩) ↔
      v ∈ tetraTriangulation.facetVertices ⟨4, 2⟩ :=
  have h := setAlpha_orientFacet_exterior tetraTriangulation tetraClassify ⟨4, 2⟩
    (by decide) (by decide) (by decide)
  ⟨by decide, by decide, by decide, h.1, h.2.1⟩

/-! ### Reading and writing a `CustomMatrix` -/

namespace CustomMatrix

variable {T : Type}

theorem new_WF [Inhabited T] (r c : ℕ) (h : r * c < 4294967296) :
    (CustomMatrix.new r c : CustomMatrix T).WF := by
  simp [CustomMatrix.new, WF, u32, Nat.mod_eq_of_lt h, h]

theorem set_WF (m : CustomMatrix T) (i j : ℕ) (v : T) (h : m.WF) : (m.set i j v).WF := by
  simpa [CustomMatrix.set, WF] using h

theorem set_rows (m : CustomMatrix T) (i j : ℕ) (v : T) :
    (m.set i j v).rows = m.rows := rfl

theorem set_cols (m : CustomMatrix T) (i j : ℕ) (v : T) :
    (m.set i j v).cols = m.cols := rfl

theorem index_lt {r c i j : ℕ} (hi : i < r) (hj : j < c) : i * c + j < r * c := by
  calc i * c + j < i * c + c := by omega
    _ = (i + 1) * c := by ring
    _ ≤ r * c := Nat.mul_le_mul_right c hi

theorem offset_eq (m : CustomMatrix T) (h : m.WF) {i j : ℕ} (hi : i < m.rows)
    (hj : j < m.cols) : m.offset i j = i * m.cols + j := by
  have hlt := index_lt hi hj
  unfold offset u32
  exact Nat.mod_eq_of_lt (lt_trans hlt h.2)

theorem index_inj {c i j i' j' : ℕ} (hj : j < c) (hj' : j' < c)
    (h : i * c + j = i' * c + j') : i = i' ∧ j = j' := by
  have hc : 0 < c := by omega
  have h1 : (i * c + j) / c = i := by
    rw [Nat.mul_comm, Nat.mul_add_div hc, Nat.div_eq_of_lt hj, Nat.add_zero]
  have h2 : (i' * c + j') / c = i' := by
    rw [Nat.mul_comm, Nat.mul_add_div hc, Nat.div_eq_of_lt hj', Nat.add_zero]
  have hii : i = i' := by rw [← h1, ← h2, h]
  subst hii
  exact ⟨rfl, by omega⟩

theorem get?_set_self (m : CustomMatrix T) (h : m.WF) {i j : ℕ} (hi : i < m.rows)
    (hj : j < m.cols) (v : T) : (m.set i j v).get? i j = some v := by
  have ho := m.offset_eq h hi hj
  have hlt : i * m.cols + j < m.data.length := by
    rw [h.1]; exact index_lt hi hj
  simp only [get?, set, offset] at ho ⊢
  rw [ho]
  exact List.getElem?_set_self hlt

theorem get?_set_other (m : CustomMatrix T) (h : m.WF) {i j i' j' : ℕ}
    (hi : i < m.rows) (hj : j < m.cols) (hi' : i' < m.rows) (hj' : j' < m.cols)
    (hne : ¬ (i = i' ∧ j = j')) (v : T) : (m.set i j v).get? i' j' = m.get? i' j' := by
  have ho := m.offset_eq h hi hj
  have ho' := m.offset_eq h hi' hj'
  simp only [get?, set, offset] at ho ho' ⊢
  rw [ho, ho']
  exact List.getElem?_set_ne (fun heq => hne (index_inj hj hj' heq))

end CustomMatrix

/-- A `mapM` over `0..n-1` of reads that all succeed is the list of the
values read. -/
theorem mapM_range_some {β : Type} (f : ℕ → Option β) (g : ℕ → β) (n : ℕ)
    (h : ∀ i, i < n → f i = some (g i)) :
    (List.range n).mapM f = some ((List.range n).map g) := by
  induction n with
  | zero => rfl
  | succ k ih =>
    rw [List.range_succ, List.mapM_append, ih (fun i hi => h i (by omega)),
      List.mapM_cons, List.mapM_nil, h k (by omega)]
    simp

/-- A loop over `0..n-1` whose step `i` writes `val i` at entry
`(ri i, ci i)`, the entries being in range and pairwise different: it ends, and
afterwards every entry written holds its value. -/
theorem foldlM_set_range {T : Type} (init : CustomMatrix T) (hWF : init.WF) (n : ℕ)
    (ri ci : ℕ → ℕ) (val : ℕ → T) (step : CustomMatrix T → ℕ → Option (CustomMatrix T))
    (hstep : ∀ M i, i < n → step M i = some (M.set (ri i) (ci i) (val i)))
    (hr : ∀ i, i < n → ri i < init.rows) (hc : ∀ i, i < n → ci i < init.cols)
    (hinj : ∀ i j, i < n → j < n → ri i = ri j → ci i = ci j → i = j) :
    ∃ M, (List.range n).foldlM step init = some M ∧ M.WF ∧ M.rows = init.rows ∧
      M.cols = init.cols ∧ ∀ i, i < n → M.get? (ri i) (ci i) = some (val i) := by
  have key : ∀ k, k ≤ n → ∃ M, (List.range k).foldlM step init = some M ∧ M.WF ∧
      M.rows = init.rows ∧ M.cols = init.cols ∧
      ∀ i, i < k → M.get? (ri i) (ci i) = some (val i) := by
    intro k
    induction k with
    | zero =>
      intro _
      exact ⟨init, rfl, hWF, rfl, rfl, fun i hi => absurd hi (Nat.not_lt_zero i)⟩
    | succ k ih =>
      intro hk
      obtain ⟨M, hM, hMwf, hMr, hMc, hMget⟩ := ih (by omega)
      have hkn : k < n := by omega
      refine ⟨M.set (ri k) (ci k) (val k), ?_, M.set_WF _ _ _ hMwf, ?_, ?_, ?_⟩
      · rw [List.range_succ, List.foldlM_append, hM]
        simp [List.foldlM_cons, List.foldlM_nil, hstep M k hkn]
      · rw [CustomMatrix.set_rows, hMr]
      · rw [CustomMatrix.set_cols, hMc]
      · intro i hi
        have hrk : ri k < M.rows := by rw [hMr]; exact hr k hkn
        have hck : ci k < M.cols := by rw [hMc]; exact hc k hkn
        by_cases hik : i = k
        · subst hik
          exact M.get?_set_self hMwf hrk hck _
        · have hin : i < n := by omega
          have hri : ri i < M.rows := by rw [hMr]; exact hr i hin
          have hci : ci i < M.cols := by rw [hMc]; exact hc i hin
          rw [M.get?_set_other hMwf hrk hck hri hci
            (fun h => hik (hinj k i hkn hin h.1 h.2).symm)]
          exact hMget i (by omega)
  exact key n (le_refl n)

/-! ### Queries -/

/-- C7: every overload of `getSimplifiedShape`, `getNearestNeighbor` and
`removeUnusedPoints` return the state of the shape they were called on, all
data members unchanged, so `getBoundaryFacets()` gives the same matrix after
the call as before. -/
theorem queries_leave_shape_unchanged (lib : CGAL) (fmt : ℚ → String) (stop_ratio : ℚ)
    (QP Pi bfi : Matrix) (self : AlphaShape3D) :
    ((AlphaShape3D.getSimplifiedShape lib stop_ratio).run self).2 = self ∧
    ((AlphaShape3D.getSimplifiedShape_default lib).run self).2 = self ∧
    ((AlphaShape3D.getSimplifiedShape_filename lib fmt).run self).2 = self ∧
    ((AlphaShape3D.getSimplifiedShape_ratio_filename lib fmt stop_ratio).run self).2 = self ∧
    ((AlphaShape3D.getNearestNeighbor lib QP).run self).2 = self ∧
    ((AlphaShape3D.removeUnusedPoints lib Pi bfi).run self).2 = self ∧
    ((AlphaShape3D.getSimplifiedShape lib stop_ratio).run self).2.getBoundaryFacets
      = self.getBoundaryFacets ∧
    ((AlphaShape3D.getSimplifiedShape_default lib).run self).2.getBoundaryFacets
      = self.getBoundaryFacets ∧
    ((AlphaShape3D.getSimplifiedShape_filename lib fmt).run self).2.getBoundaryFacets
      = self.getBoundaryFacets ∧
    ((AlphaShape3D.getSimplifiedShape_ratio_filename lib fmt stop_ratio).run
      self).2.getBoundaryFacets = self.getBoundaryFacets ∧
    ((AlphaShape3D.getNearestNeighbor lib QP).run self).2.getBoundaryFacets
      = self.getBoundaryFacets ∧
    ((AlphaShape3D.removeUnusedPoints lib Pi bfi).run self).2.getBoundaryFacets
      = self.getBoundaryFacets :=
  ⟨rfl, rfl, rfl, rfl, rfl, rfl, rfl, rfl, rfl, rfl, rfl, rfl⟩

/-- C8: `getCriticalAlpha(type)` returns not-a-number, whatever the state of
the shape, for every string other than `"all-points"` and `"one-region"`; on a
built shape it returns `find_alpha_solid()` for `"all-points"` and
`*find_optimal_alpha(1)` for `"one-region"`. -/
theorem getCriticalAlpha_spec (self : AlphaShape3D) (type : String) :
    (type ≠ "all-points" → type ≠ "one-region" →
      self.getCriticalAlpha type = some F64.nan) ∧
    (∀ as3, self.alphaShape = some as3 →
      self.getCriticalAlpha "all-points" = some (F64.num as3.find_alpha_solid) ∧
      self.getCriticalAlpha "one-region" = some (F64.num (as3.find_optimal_alpha 1))) := by
  refine ⟨fun h1 h2 => ?_, fun as3 h => ?_⟩
  · simp [AlphaShape3D.getCriticalAlpha, h1, h2]
  · have hne : ("one-region" : String) ≠ "all-points" := by decide
    simp [AlphaShape3D.getCriticalAlpha, h, hne]

/-- The loop of `getAlphaSpectrum` copies the spectrum: on a built shape,
where `numAlphaValues` is `number_of_alphas()`, entry `(0, i)` of the result
is entry `i` of the spectrum of the alpha shape. -/
theorem getAlphaSpectrum_entries (self : AlphaShape3D) (as3 : As3)
    (hbuilt : self.alphaShape = some as3)
    (hnum : self.numAlphaValues = as3.number_of_alphas)
    (hsize : self.numAlphaValues < 4294967296) :
    ∃ a, self.getAlphaSpectrum = some a ∧ a.numRows = 1 ∧
      a.numCols = self.numAlphaValues ∧
      ∀ i, i < self.numAlphaValues → a.get? 0 i = as3.alpha_spectrum[i]? := by
  have hu : u32 self.numAlphaValues = self.numAlphaValues := Nat.mod_eq_of_lt hsize
  have hinit : (CustomMatrix.new 1 (u32 self.numAlphaValues) : Matrix).WF :=
    CustomMatrix.new_WF _ _ (by rw [hu]; omega)
  obtain ⟨M, hM, -, hMr, hMc, hMget⟩ := foldlM_set_range
    (CustomMatrix.new 1 (u32 self.numAlphaValues) : Matrix) hinit self.numAlphaValues
    (fun _ => 0) (fun i => i) (fun i => as3.alpha_spectrum.getD i 0)
    (fun (a : Matrix) i => do
      let v ← as3.get_nth_alpha (i + 1)
      pure (a.set 0 i v))
    (by
      intro M i hi
      have hlt : i < as3.alpha_spectrum.length := by
        rw [hnum] at hi; exact hi
      simp [As3.get_nth_alpha, List.getElem?_eq_getElem hlt, List.getD_eq_getElem _ _ hlt])
    (by intro i _; simp [CustomMatrix.new])
    (by intro i hi; simpa [CustomMatrix.new, hu] using hi)
    (by intro i j _ _ _ h; exact h)
  refine ⟨M, ?_, ?_, ?_, ?_⟩
  · simp only [AlphaShape3D.getAlphaSpectrum, hbuilt]
    exact hM
  · simp [CustomMatrix.numRows, hMr, CustomMatrix.new]
  · simp [CustomMatrix.numCols, hMc, CustomMatrix.new, hu]
  · intro i hi
    have hlt : i < as3.alpha_spectrum.length := by
      rw [hnum] at hi; exact hi
    rw [hMget i hi, List.getElem?_eq_getElem hlt, List.getD_eq_getElem _ _ hlt]

/-- C9: on a built shape (`numAlphaValues` is `number_of_alphas()` of the
alpha shape, whose spectrum CGAL keeps strictly ascending)
`getAlphaSpectrum()` returns a row that is strictly ascending: entry `(0, i)`
is smaller than entry `(0, j)` for all columns `i < j`. -/
theorem getAlphaSpectrum_strictly_ascending (self : AlphaShape3D) (as3 : As3)
    (hbuilt : self.alphaShape = some as3)
    (hnum : self.numAlphaValues = as3.number_of_alphas)
    (hsize : self.numAlphaValues < 4294967296)
    (hspec : as3.alpha_spectrum.Pairwise (fun x y => x < y)) :
    ∃ a, self.getAlphaSpectrum = some a ∧ a.numRows = 1 ∧
      a.numCols = self.numAlphaValues ∧
      ∀ i j, i < j → j < a.numCols →
        ∃ x y, a.get? 0 i = some x ∧ a.get? 0 j = some y ∧ x < y := by
  obtain ⟨a, ha, hr, hc, hget⟩ := getAlphaSpectrum_entries self as3 hbuilt hnum hsize
  refine ⟨a, ha, hr, hc, ?_⟩
  intro i j hij hj
  rw [hc] at hj
  have hjl : j < as3.alpha_spectrum.length := by
    rw [hnum] at hj; exact hj
  have hil : i < as3.alpha_spectrum.length := by omega
  refine ⟨as3.alpha_spectrum[i], as3.alpha_spectrum[j], ?_, ?_, ?_⟩
  · rw [hget i (by omega), List.getElem?_eq_getElem hil]
  · rw [hget j hj, List.getElem?_eq_getElem hjl]
  · exact List.pairwise_iff_getElem.mp hspec i j hil hjl hij

/-- Every entry of a well-formed matrix can be read. -/
theorem CustomMatrix.get?_in_range {T : Type} (m : CustomMatrix T) (h : m.WF) {i j : ℕ}
    (hi : i < m.rows) (hj : j < m.cols) : ∃ v, m.get? i j = some v := by
  have hlt : i * m.cols + j < m.data.length := by
    rw [h.1]; exact CustomMatrix.index_lt hi hj
  refine ⟨m.data[i * m.cols + j], ?_⟩
  have ho := m.offset_eq h hi hj
  simp only [CustomMatrix.get?, CustomMatrix.offset] at ho ⊢
  rw [ho]
  exact List.getElem?_eq_getElem hlt

/-- The matrix a JavaScript wrapper builds from an array of points holds the
coordinates of point `i` in row `i`. -/
theorem matrixOfPoints_spec (qs : List Point) (hsize : qs.length * 3 < 4294967296) :
    (AlphaShape3D.matrixOfPoints qs).WF ∧
    (AlphaShape3D.matrixOfPoints qs).rows = qs.length ∧
    (AlphaShape3D.matrixOfPoints qs).cols = 3 ∧
    ∀ i (hi : i < qs.length),
      (AlphaShape3D.matrixOfPoints qs).get? i 0 = some qs[i].x ∧
      (AlphaShape3D.matrixOfPoints qs).get? i 1 = some qs[i].y ∧
      (AlphaShape3D.matrixOfPoints qs).get? i 2 = some qs[i].z := by
  let g : Matrix → ℕ → Matrix := fun QP i =>
    ((QP.set i 0 ((qs.getD i ⟨0, 0, 0⟩).coord 0)).set i 1
      ((qs.getD i ⟨0, 0, 0⟩).coord 1)).set i 2 ((qs.getD i ⟨0, 0, 0⟩).coord 2)
  have key : ∀ k, k ≤ qs.length →
      ((List.range k).foldl g (CustomMatrix.new qs.length 3)).WF ∧
      ((List.range k).foldl g (CustomMatrix.new qs.length 3)).rows = qs.length ∧
      ((List.range k).foldl g (CustomMatrix.new qs.length 3)).cols = 3 ∧
      ∀ i (hi : i < qs.length), i < k →
        ((List.range k).foldl g (CustomMatrix.new qs.length 3)).get? i 0 = some qs[i].x ∧
        ((List.range k).foldl g (CustomMatrix.new qs.length 3)).get? i 1 = some qs[i].y ∧
        ((List.range k).foldl g (CustomMatrix.new qs.length 3)).get? i 2 = some qs[i].z := by
    intro k
    induction k with
    | zero =>
      intro _
      exact ⟨CustomMatrix.new_WF _ _ hsize, rfl, rfl, fun i _ hi => absurd hi (Nat.not_lt_zero i)⟩
    | succ k ih =>
      intro hk
      obtain ⟨hwf, hr, hc, hget⟩ := ih (by omega)
      rw [List.range_succ, List.foldl_append]
      generalize (List.range k).foldl g (CustomMatrix.new qs.length 3) = M at hwf hr hc hget
      have hk' : k < qs.length := by omega
      have hkr : k < M.rows := by omega
      have h0 : 0 < M.cols := by omega
      have h1 : 1 < M.cols := by omega
      have h2 : 2 < M.cols := by omega
      have hwf1 := M.set_WF k 0 ((qs.getD k ⟨0, 0, 0⟩).coord 0) hwf
      have hwf2 := (M.set k 0 ((qs.getD k ⟨0, 0, 0⟩).coord 0)).set_WF k 1
        ((qs.getD k ⟨0, 0, 0⟩).coord 1) hwf1
      have hwf3 := ((M.set k 0 ((qs.getD k ⟨0, 0, 0⟩).coord 0)).set k 1
        ((qs.getD k ⟨0, 0, 0⟩).coord 1)).set_WF k 2 ((qs.getD k ⟨0, 0, 0⟩).coord 2) hwf2
      refine ⟨hwf3, hr, hc, ?_⟩
      intro i hi hik
      simp only [List.foldl_cons, List.foldl_nil, g]
      by_cases hik' : i = k
      · subst hik'
        have hq : qs.getD i ⟨0, 0, 0⟩ = qs[i] := List.getD_eq_getElem _ _ hi
        rw [hq] at hwf1 hwf2 ⊢
        refine ⟨?_, ?_, ?_⟩
        · rw [CustomMatrix.get?_set_other _ hwf2 hkr h2 hkr h0 (by omega),
            CustomMatrix.get?_set_other _ hwf1 hkr h1 hkr h0 (by omega),
            CustomMatrix.get?_set_self _ hwf hkr h0]
          rfl
        · rw [CustomMatrix.get?_set_other _ hwf2 hkr h2 hkr h1 (by omega),
            CustomMatrix.get?_set_self _ hwf1 hkr h1]
          rfl
        · rw [CustomMatrix.get?_set_self _ hwf2 hkr h2]
          rfl
      · have hir : i < M.rows := by omega
        obtain ⟨g0, g1, g2⟩ := hget i hi (by omega)
        refine ⟨?_, ?_, ?_⟩
        · rw [CustomMatrix.get?_set_other _ hwf2 hkr h2 hir h0 (by omega),
            CustomMatrix.get?_set_other _ hwf1 hkr h1 hir h0 (by omega),
            CustomMatrix.get?_set_other _ hwf hkr h0 hir h0 (by omega), g0]
        · rw [CustomMatrix.get?_set_other _ hwf2 hkr h2 hir h1 (by omega),
            CustomMatrix.get?_set_other _ hwf1 hkr h1 hir h1 (by omega),
            CustomMatrix.get?_set_other _ hwf hkr h0 hir h1 (by omega), g1]
        · rw [CustomMatrix.get?_set_other _ hwf2 hkr h2 hir h2 (by omega),
            CustomMatrix.get?_set_other _ hwf1 hkr h1 hir h2 (by omega),
            CustomMatrix.get?_set_other _ hwf hkr h0 hir h2 (by omega), g2]
  obtain ⟨hwf, hr, hc, hget⟩ := key qs.length (le_refl _)
  exact ⟨hwf, hr, hc, fun i hi => hget i hi hi⟩

/-- The function `checkInShape` on a built shape and a matrix of three-column rows: it
returns a one-column matrix with a row per query point, row `i` holding the
value of the enumerator `classify` gives for point `i`. -/
theorem checkInShape_spec (self : AlphaShape3D) (as3 : As3) (QP : Matrix)
    (hbuilt : self.alphaShape = some as3) (hQ : QP.WF) (hc : QP.cols = 3) :
    ∃ tf, self.checkInShape QP = some tf ∧ tf.WF ∧ tf.rows = QP.rows ∧ tf.cols = 1 ∧
      ∀ i, i < QP.rows → ∀ x y z, QP.get? i 0 = some x → QP.get? i 1 = some y →
        QP.get? i 2 = some z →
        tf.get? i 0 = some (((as3.classify ⟨x, y, z⟩).toNat : ℕ) : ℚ) := by
  have hsz : QP.rows * 3 < 4294967296 := by
    have := hQ.2; rwa [hc] at this
  have hinit : (CustomMatrix.new QP.numRows 1 : Matrix).WF :=
    CustomMatrix.new_WF _ _ (by simp only [CustomMatrix.numRows]; omega)
  obtain ⟨M, hM, hMwf, hMr, hMc, hMget⟩ := foldlM_set_range
    (CustomMatrix.new QP.numRows 1 : Matrix) hinit QP.numRows
    (fun i => i) (fun _ => 0)
    (fun i => (((as3.classify ⟨(QP.get? i 0).getD 0, (QP.get? i 1).getD 0,
      (QP.get? i 2).getD 0⟩).toNat : ℕ) : ℚ))
    (fun (tf : Matrix) i => do
      let x ← QP.get? i 0
      let y ← QP.get? i 1
      let z ← QP.get? i 2
      pure (tf.set i 0 (((as3.classify ⟨x, y, z⟩).toNat : ℕ) : ℚ)))
    (by
      intro M i hi
      have hi' : i < QP.rows := hi
      obtain ⟨x, hx⟩ := QP.get?_in_range hQ hi' (by omega : 0 < QP.cols)
      obtain ⟨y, hy⟩ := QP.get?_in_range hQ hi' (by omega : 1 < QP.cols)
      obtain ⟨z, hz⟩ := QP.get?_in_range hQ hi' (by omega : 2 < QP.cols)
      simp [hx, hy, hz])
    (by intro i hi; simpa [CustomMatrix.new, CustomMatrix.numRows] using hi)
    (by intro i _; simp [CustomMatrix.new])
    (by intro i j _ _ h _; exact h)
  refine ⟨M, ?_, hMwf, ?_, ?_, ?_⟩
  · simp only [AlphaShape3D.checkInShape, hbuilt]
    exact hM
  · rw [hMr]; rfl
  · rw [hMc]; rfl
  · intro i hi x y z hx hy hz
    rw [hMget i hi, hx, hy, hz]
    rfl

/-- The value stored for a classification is zero exactly for `EXTERIOR`. -/
theorem Classification_type.toNat_cast_ne_zero (c : Classification_type) :
    (((c.toNat : ℕ) : ℚ) ≠ 0) ↔ c ≠ Classification_type.EXTERIOR := by
  cases c <;> simp [Classification_type.toNat]

/-- C10: on a built shape, for every array of query points (small enough
for its matrix to fit the `uint32_t` storage), `checkInShape` returns one row
per query point, and the boolean handed to the caller for query `i` is
`false` exactly when point `i` is classified `EXTERIOR`; a point classified
`INTERIOR`, `REGULAR` or `SINGULAR` gives `true`. -/
theorem CheckInShapeJS_false_iff_exterior (self : AlphaShape3D) (as3 : As3)
    (qs : List Point) (hbuilt : self.alphaShape = some as3)
    (hsize : qs.length * 3 < 4294967296) :
    (∃ tf, self.checkInShape (AlphaShape3D.matrixOfPoints qs) = some tf ∧
      tf.numRows = qs.length ∧ tf.numCols = 1) ∧
    ∃ bs, self.CheckInShapeJS qs = some bs ∧ bs.length = qs.length ∧
      ∀ i (hi : i < qs.length), ∃ b, bs[i]? = some b ∧
        (b = false ↔ as3.classify qs[i] = Classification_type.EXTERIOR) ∧
        (as3.classify qs[i] = Classification_type.INTERIOR ∨
          as3.classify qs[i] = Classification_type.REGULAR ∨
          as3.classify qs[i] = Classification_type.SINGULAR → b = true) := by
  obtain ⟨hQwf, hQr, hQc, hQget⟩ := matrixOfPoints_spec qs hsize
  obtain ⟨tf, htf, -, htfr, htfc, htfget⟩ :=
    checkInShape_spec self as3 (AlphaShape3D.matrixOfPoints qs) hbuilt hQwf hQc
  refine ⟨⟨tf, htf, by rw [CustomMatrix.numRows, htfr, hQr], htfc⟩, ?_⟩
  let g : ℕ → Bool := fun i =>
    decide ((((as3.classify (qs.getD i ⟨0, 0, 0⟩)).toNat : ℕ) : ℚ) ≠ 0)
  have hmap : (List.range tf.numRows).mapM (fun i => do
      let r ← tf.get? i 0
      pure (decide (r ≠ 0))) = some ((List.range tf.numRows).map g) := by
    apply mapM_range_some
    intro i hi
    have hi' : i < qs.length := by
      rw [CustomMatrix.numRows, htfr, hQr] at hi; exact hi
    obtain ⟨hx, hy, hz⟩ := hQget i hi'
    have hir : i < (AlphaShape3D.matrixOfPoints qs).rows := by rw [hQr]; exact hi'
    rw [htfget i hir _ _ _ hx hy hz]
    simp only [g, List.getD_eq_getElem _ _ hi']
    rfl
  refine ⟨(List.range tf.numRows).map g, ?_, ?_, ?_⟩
  · simp only [AlphaShape3D.CheckInShapeJS, htf]
    exact hmap
  · rw [List.length_map, List.length_range, CustomMatrix.numRows, htfr, hQr]
  · intro i hi
    have hin : i < tf.numRows := by
      rw [CustomMatrix.numRows, htfr, hQr]; exact hi
    have hclass := Classification_type.toNat_cast_ne_zero (as3.classify qs[i])
    refine ⟨g i, ?_, ?_, ?_⟩
    · rw [List.getElem?_map, List.getElem?_range hin]
      rfl
    · simp only [g, List.getD_eq_getElem _ _ hi, decide_eq_false_iff_not, not_not]
      constructor
      · intro h
        by_contra hne
        exact (hclass.mpr hne) h
      · intro h
        by_contra hne
        exact (hclass.mp hne) h
    · intro h
      simp only [g, List.getD_eq_getElem _ _ hi, decide_eq_true_eq]
      apply hclass.mpr
      rcases h with h | h | h <;> rw [h] <;> decide

/-- Witness for C8: the shape of the tetrahedron example. -/
theorem getCriticalAlpha_spec_witness :
    tetraShape.getCriticalAlpha "volume" = some F64.nan ∧
    tetraShape.getCriticalAlpha "all-points" = some (F64.num (3 / 4)) ∧
    tetraShape.getCriticalAlpha "one-region" = some (F64.num (3 / 4)) :=
  ⟨(getCriticalAlpha_spec tetraShape "volume").1 (by decide) (by decide),
   ((getCriticalAlpha_spec tetraShape "volume").2 tetraAs3 rfl).1,
   ((getCriticalAlpha_spec tetraShape "volume").2 tetraAs3 rfl).2⟩

/-- Witness for C9: the spectrum of the tetrahedron example. -/
theorem getAlphaSpectrum_strictly_ascending_witness :
    tetraShape.alphaShape = some tetraAs3 ∧
    tetraShape.numAlphaValues = tetraAs3.number_of_alphas ∧
    tetraAs3.alpha_spectrum.Pairwise (fun x y => x < y) ∧
    ∃ a, tetraShape.getAlphaSpectrum = some a ∧ a.numRows = 1 ∧
      a.numCols = tetraShape.numAlphaValues ∧
      ∀ i j, i < j → j < a.numCols →
        ∃ x y, a.get? 0 i = some x ∧ a.get? 0 j = some y ∧ x < y :=
  have hspec : tetraAs3.alpha_spectrum.Pairwise (fun x y => x < y) := by
    simp [tetraAs3]; norm_num
  ⟨rfl, rfl, hspec,
    getAlphaSpectrum_strictly_ascending tetraShape tetraAs3 rfl rfl (by decide) hspec⟩

/-- Witness for C10: a point inside the tetrahedron and a point far away. -/
theorem CheckInShapeJS_false_iff_exterior_witness :
    tetraShape.alphaShape = some tetraAs3 ∧
    (∃ tf, tetraShape.checkInShape (AlphaShape3D.matrixOfPoints
        [⟨1 / 4, 1 / 4, 1 / 4⟩, ⟨10, 10, 10⟩]) = some tf ∧
      tf.numRows = 2 ∧ tf.numCols = 1) ∧
    ∃ bs, tetraShape.CheckInShapeJS [⟨1 / 4, 1 / 4, 1 / 4⟩, ⟨10, 10, 10⟩] = some bs ∧
      bs.length = 2 :=
  have h := CheckInShapeJS_false_iff_exterior tetraShape tetraAs3
    [⟨1 / 4, 1 / 4, 1 / 4⟩, ⟨10, 10, 10⟩] rfl (by decide)
  ⟨rfl, h.1, h.2.imp (fun _ hb => ⟨hb.1, hb.2.1⟩)⟩

/-! ### `removeUnusedPoints` and `getSimplifiedShape` on the examples

Both functions build a mesh `surface_mesh_s` of their own and then read its
faces with a circulator `vcirc(surface_mesh_s.halfedge(face), this->surface_mesh)`
(lines 889-890 and 975-976): the halfedge index comes from the new mesh, the
connectivity that is walked is the canonical mesh of the shape.
`getBoundaryFacets` (lines 768-769) takes both from the same mesh. -/

/-- The canonical meshes of the two example shapes are the meshes `setAlpha`
builds, and `getBoundaryFacets()` returns the polygons of `setAlpha`. -/
theorem example_shapes_canonical :
    ((AlphaShape3D.setAlpha exampleCGAL 1).run tetraShape).2.surface_mesh = tetraMesh ∧
    ((AlphaShape3D.setAlpha exampleCGAL 100).run starShape).2.surface_mesh = starMesh ∧
    tetraShape.getBoundaryFacets = some ⟨[1, 2, 3, 2, 0, 3, 0, 1, 3, 1, 0, 2], 4, 3⟩ ∧
    starShape.getBoundaryFacets = some ⟨[2, 3, 4, 4, 3, 1, 2, 4, 1, 2, 1, 3], 4, 3⟩ := by
  refine ⟨by decide, by decide, by decide, by decide⟩

/-- Whatever halfedge index a rebuilt mesh hands to the circulator, the walk
over the canonical mesh of the second example gives a row with an entry of at
least `3`, and no row with entry `0`. -/
theorem starMesh_rows (h : Fin 12) :
    ∃ r, vertex_around_face starMesh h.val = some r ∧
      (3 ≤ r.1 ∨ 3 ≤ r.2.1 ∨ 3 ≤ r.2.2) ∧ r.1 ≠ 0 ∧ r.2.1 ≠ 0 ∧ r.2.2 ≠ 0 := by
  fin_cases h <;> exact ⟨_, rfl, by decide⟩

/-- No walk over the canonical mesh of the tetrahedron gives the same row as
a walk over the canonical mesh of the second example. -/
theorem tetraMesh_starMesh_rows (h k : Fin 12) :
    vertex_around_face tetraMesh h.val ≠ vertex_around_face starMesh k.val := by
  revert h k
  decide

/-- C3 on the code: `removeUnusedPoints` called on the shape of the
tetrahedron with six points and the two triangles `(0,1,2)`, `(3,4,5)`
returns the six points with the facets `(1,2,3)`, `(1,3,0)`, two faces of the
canonical mesh; called again on this output it returns four points and the
facets `(1,2,3)`, `(3,2,0)`.  The second result is not the first. -/
theorem removeUnusedPoints_twice_differs :
    ((AlphaShape3D.removeUnusedPoints exampleCGAL twoTrianglesPoints
        twoTrianglesFacets).run tetraShape).1
      = some (twoTrianglesPoints, ⟨[1, 2, 3, 1, 3, 0], 2, 3⟩) ∧
    ((AlphaShape3D.removeUnusedPoints exampleCGAL twoTrianglesPoints
        ⟨[1, 2, 3, 1, 3, 0], 2, 3⟩).run tetraShape).1
      = some (⟨[5, 0, 0, 6, 0, 0, 5, 1, 0, 8, 0, 0], 4, 3⟩, ⟨[1, 2, 3, 3, 2, 0], 2, 3⟩) ∧
    ((AlphaShape3D.removeUnusedPoints exampleCGAL twoTrianglesPoints
        ⟨[1, 2, 3, 1, 3, 0], 2, 3⟩).run tetraShape).1
      ≠ ((AlphaShape3D.removeUnusedPoints exampleCGAL twoTrianglesPoints
        twoTrianglesFacets).run tetraShape).1 := by
  refine ⟨by decide, by decide, by decide⟩

/-- C4 on the code: `removeUnusedPoints` called on the shape of the second
example with three points and the triangle `(0,1,2)` returns the three points
and the facet `(2,3,4)`, a face of the canonical mesh: entries `3` and `4`
are no rows of the point matrix, and row `0` of the point matrix occurs in no
facet. -/
theorem removeUnusedPoints_dangling_index :
    ((AlphaShape3D.removeUnusedPoints exampleCGAL trianglePoints triangleFacets).run
        starShape).1
      = some (⟨[5, 0, 0, 6, 0, 0, 5, 1, 0], 3, 3⟩, ⟨[2, 3, 4], 1, 3⟩) := by
  decide

/-- C5 on the code: the same points and facets given to `removeUnusedPoints`
on three shapes give three results: facet `(1,2,3)` on the shape of the
tetrahedron, facet `(2,3,4)` on the shape of the second example, and a read
outside the halfedge storage on a shape on which nothing was built. -/
theorem removeUnusedPoints_depends_on_shape :
    ((AlphaShape3D.removeUnusedPoints exampleCGAL trianglePoints triangleFacets).run
        tetraShape).1
      = some (trianglePoints, ⟨[1, 2, 3], 1, 3⟩) ∧
    ((AlphaShape3D.removeUnusedPoints exampleCGAL trianglePoints triangleFacets).run
        starShape).1
      = some (trianglePoints, ⟨[2, 3, 4], 1, 3⟩) ∧
    ((AlphaShape3D.removeUnusedPoints exampleCGAL trianglePoints triangleFacets).run
        AlphaShape3D.init).1 = none ∧
    ((AlphaShape3D.removeUnusedPoints exampleCGAL trianglePoints triangleFacets).run
        tetraShape).1
      ≠ ((AlphaShape3D.removeUnusedPoints exampleCGAL trianglePoints triangleFacets).run
        starShape).1 := by
  refine ⟨by decide, by decide, by decide, by decide⟩

/-- C6 on the code: on the shape of the second example, whose canonical mesh
has five vertices, the simplified copy has the four vertices that are left
after the isolated one is dropped, and its faces are `(2,3,0)`, `(0,3,1)`,
`(2,0,1)`, `(2,1,3)`; `getSimplifiedShape` returns the four points with the
facets `(2,3,4)`, `(4,3,1)`, `(2,4,1)`, `(2,1,3)` of the canonical mesh, where
entry `4` is not a row of the point matrix. -/
theorem getSimplifiedShape_reads_canonical_mesh :
    ((AlphaShape3D.getSimplifiedShape exampleCGAL (1 / 2)).run starShape).1
      = some (⟨[0, 0, 4, 0, 0, 0, 4, 0, 0, 0, 4, 0], 4, 3⟩,
          ⟨[2, 3, 4, 4, 3, 1, 2, 4, 1, 2, 1, 3], 4, 3⟩) ∧
    facetsOfMesh starMeshCompact starMeshCompact
      = some ⟨[2, 3, 0, 0, 3, 1, 2, 0, 1, 2, 1, 3], 4, 3⟩ := by
  refine ⟨by decide, by decide⟩

/-! ### `writeOff` -/

/-- The cast to `uint64_t` of a `double` that holds an index is the index. -/
theorem toUInt64_natCast (k : ℕ) (hk : k < 18446744073709551616) :
    toUInt64 (k : ℚ) = k := by
  have hfloor : Rat.floor (k : ℚ) = (k : ℤ) := by
    rw [show Rat.floor (k : ℚ) = ⌊(k : ℚ)⌋ from rfl]
    exact Int.floor_natCast k
  simp [toUInt64, hfloor, Nat.mod_eq_of_lt hk]

/-- On matrices of three columns `writeOff` returns: the file is the header
line, the line of the two counts, a line per point and a line per face. -/
theorem writeOff_eq (fmt : ℚ → String) (Points bf : Matrix)
    (hP : Points.WF) (hPc : Points.cols = 3) (hF : bf.WF) (hFc : bf.cols = 3) :
    writeOff fmt Points bf = some
      (["OFF", toString Points.numRows ++ " " ++ toString bf.numRows ++ " 0"]
        ++ (List.range Points.numRows).map (offPointLine fmt Points)
        ++ (List.range bf.numRows).map (offFaceLine bf)) := by
  have hpts := mapM_range_some
    (fun i => do
      let x ← Points.get? i 0
      let y ← Points.get? i 1
      let z ← Points.get? i 2
      pure (fmt x ++ " " ++ fmt y ++ " " ++ fmt z))
    (offPointLine fmt Points) Points.numRows
    (by
      intro i hi
      have hi' : i < Points.rows := hi
      obtain ⟨x, hx⟩ := Points.get?_in_range hP hi' (by omega : 0 < Points.cols)
      obtain ⟨y, hy⟩ := Points.get?_in_range hP hi' (by omega : 1 < Points.cols)
      obtain ⟨z, hz⟩ := Points.get?_in_range hP hi' (by omega : 2 < Points.cols)
      simp [offPointLine, hx, hy, hz])
  have hind := mapM_range_some
    (fun i => do
      let a ← bf.get? i 0
      let b ← bf.get? i 1
      let c ← bf.get? i 2
      pure ("3 " ++ toString (toUInt64 a) ++ " " ++ toString (toUInt64 b) ++ " "
        ++ toString (toUInt64 c)))
    (offFaceLine bf) bf.numRows
    (by
      intro i hi
      have hi' : i < bf.rows := hi
      obtain ⟨x, hx⟩ := bf.get?_in_range hF hi' (by omega : 0 < bf.cols)
      obtain ⟨y, hy⟩ := bf.get?_in_range hF hi' (by omega : 1 < bf.cols)
      obtain ⟨z, hz⟩ := bf.get?_in_range hF hi' (by omega : 2 < bf.cols)
      simp [offFaceLine, hx, hy, hz])
  unfold writeOff
  simp only [hpts, hind]
  rfl

/-- C11: for a points matrix of `n` rows and a faces matrix of `m` rows (three
columns each) `writeOff` writes exactly `2 + n + m` lines: `OFF`, then
`<n> <m> 0`, then for each point in order the line `x y z`, then for each face
in order the line `3 i0 i1 i2` with the three entries of the face cast to
`uint64_t`, which for an entry holding an index is the index. -/
theorem writeOff_lines (fmt : ℚ → String) (Points bf : Matrix)
    (hP : Points.WF) (hPc : Points.cols = 3) (hF : bf.WF) (hFc : bf.cols = 3) :
    ∃ lines, writeOff fmt Points bf = some lines ∧
      lines.length = 2 + Points.numRows + bf.numRows ∧
      lines[0]? = some "OFF" ∧
      lines[1]? = some (toString Points.numRows ++ " " ++ toString bf.numRows ++ " 0") ∧
      (∀ i, i < Points.numRows → ∃ x y z, Points.get? i 0 = some x ∧
        Points.get? i 1 = some y ∧ Points.get? i 2 = some z ∧
        lines[2 + i]? = some (fmt x ++ " " ++ fmt y ++ " " ++ fmt z)) ∧
      (∀ i, i < bf.numRows → ∃ a b c, bf.get? i 0 = some a ∧
        bf.get? i 1 = some b ∧ bf.get? i 2 = some c ∧
        lines[2 + Points.numRows + i]? = some ("3 " ++ toString (toUInt64 a) ++ " "
          ++ toString (toUInt64 b) ++ " " ++ toString (toUInt64 c)) ∧
        ∀ i0 i1 i2 : ℕ, a = i0 → b = i1 → c = i2 → i0 < 18446744073709551616 →
          i1 < 18446744073709551616 → i2 < 18446744073709551616 →
          lines[2 + Points.numRows + i]? = some ("3 " ++ toString i0 ++ " "
            ++ toString i1 ++ " " ++ toString i2)) := by
  refine ⟨_, writeOff_eq fmt Points bf hP hPc hF hFc, ?_, by simp, by simp, ?_, ?_⟩
  · simp; omega
  · intro i hi
    have hi' : i < Points.rows := hi
    obtain ⟨x, hx⟩ := Points.get?_in_range hP hi' (by omega : 0 < Points.cols)
    obtain ⟨y, hy⟩ := Points.get?_in_range hP hi' (by omega : 1 < Points.cols)
    obtain ⟨z, hz⟩ := Points.get?_in_range hP hi' (by omega : 2 < Points.cols)
    refine ⟨x, y, z, hx, hy, hz, ?_⟩
    have h2 : 2 + i = i + 2 := by omega
    rw [h2]
    simp [List.getElem?_append_left, hi, offPointLine, hx, hy, hz]
  · intro i hi
    have hi' : i < bf.rows := hi
    obtain ⟨a, ha⟩ := bf.get?_in_range hF hi' (by omega : 0 < bf.cols)
    obtain ⟨b, hb⟩ := bf.get?_in_range hF hi' (by omega : 1 < bf.cols)
    obtain ⟨c, hc⟩ := bf.get?_in_range hF hi' (by omega : 2 < bf.cols)
    have hline : (["OFF", toString Points.numRows ++ " " ++ toString bf.numRows ++ " 0"]
        ++ (List.range Points.numRows).map (offPointLine fmt Points)
        ++ (List.range bf.numRows).map (offFaceLine bf))[2 + Points.numRows + i]?
        = some ("3 " ++ toString (toUInt64 a) ++ " " ++ toString (toUInt64 b) ++ " "
          ++ toString (toUInt64 c)) := by
      have hlen : (["OFF", toString Points.numRows ++ " " ++ toString bf.numRows ++ " 0"]
          ++ (List.range Points.numRows).map (offPointLine fmt Points)).length
          = 2 + Points.numRows := by
        simp; omega
      rw [List.getElem?_append_right (by rw [hlen]; omega), hlen,
        show 2 + Points.numRows + i - (2 + Points.numRows) = i by omega,
        List.getElem?_map, List.getElem?_range hi]
      simp [offFaceLine, ha, hb, hc]
    refine ⟨a, b, c, ha, hb, hc, hline, ?_⟩
    intro i0 i1 i2 h0 h1 h2 l0 l1 l2
    rw [hline, h0, h1, h2, toUInt64_natCast i0 l0, toUInt64_natCast i1 l1,
      toUInt64_natCast i2 l2]

/-- Witness for C11: the triangle of three points and its single facet. -/
theorem writeOff_lines_witness :
    trianglePoints.WF ∧ trianglePoints.cols = 3 ∧ triangleFacets.WF ∧
    triangleFacets.cols = 3 ∧
    ∃ lines, writeOff (fun q => toString (toUInt64 q)) trianglePoints triangleFacets
        = some lines ∧
      lines.length = 2 + trianglePoints.numRows + triangleFacets.numRows ∧
      lines[0]? = some "OFF" ∧
      lines[1]? = some (toString trianglePoints.numRows ++ " "
        ++ toString triangleFacets.numRows ++ " 0") :=
  ⟨⟨rfl, by decide⟩, rfl, ⟨rfl, by decide⟩, rfl,
    (writeOff_lines (fun q => toString (toUInt64 q)) trianglePoints triangleFacets
      ⟨rfl, by decide⟩ rfl ⟨rfl, by decide⟩ rfl).imp
      (fun _ h => ⟨h.1, h.2.1, h.2.2.1, h.2.2.2.1⟩)⟩

/-- The text `writeOff` writes for the triangle. -/
theorem writeOff_triangle :
    writeOff (fun q => toString (toUInt64 q)) trianglePoints triangleFacets
      = some ["OFF", "3 1 0", "5 0 0", "6 0 0", "5 1 0", "3 0 1 2"] := by
  decide

/-! ### `setAlpha` -/

/-- A loop whose steps keep a property of the accumulator keeps it to the
end. -/
theorem foldlM_invariant {α β : Type} (P : β → Prop) (step : β → α → Option β)
    (hstep : ∀ b x b', P b → step b x = some b' → P b') :
    ∀ (l : List α) (init res : β), P init → l.foldlM step init = some res → P res := by
  intro l
  induction l with
  | nil =>
    intro init res hinit h
    simp only [List.foldlM_nil, Option.pure_def, Option.some.injEq] at h
    exact h ▸ hinit
  | cons x xs ih =>
    intro init res hinit h
    rw [List.foldlM_cons] at h
    cases hs : step init x with
    | none => simp [hs] at h
    | some b' =>
      rw [hs] at h
      exact ih b' res (hstep init x b' hinit hs) h

/-- The matrix `pointsOfMesh` returns is a well-formed matrix of three
columns when the vertices fit the storage. -/
theorem pointsOfMesh_WF (m : Mesh) (hv : m.number_of_vertices * 3 < 4294967296)
    (P : Matrix) (h : pointsOfMesh m = some P) : P.WF ∧ P.cols = 3 := by
  have hu : u32 m.number_of_vertices = m.number_of_vertices :=
    Nat.mod_eq_of_lt (by omega)
  refine foldlM_invariant (fun M : Matrix => M.WF ∧ M.cols = 3) _ ?_ _ _ _ ?_ h
  · intro b v b' hb hstep
    cases hp : m.point v with
    | none => simp [hp] at hstep
    | some p =>
      simp only [hp, Option.bind_eq_bind, Option.some_bind, Option.pure_def,
        Option.some.injEq] at hstep
      subst hstep
      exact ⟨CustomMatrix.set_WF _ _ _ _ (CustomMatrix.set_WF _ _ _ _
        (CustomMatrix.set_WF _ _ _ _ hb.1)), hb.2⟩
  · exact ⟨CustomMatrix.new_WF _ _ (by rw [hu]; exact hv), rfl⟩

/-- The matrix `facetsOfMesh` returns is a well-formed matrix of three
columns when the faces fit the storage. -/
theorem facetsOfMesh_WF (m g : Mesh) (hf : m.number_of_faces * 3 < 4294967296)
    (F : Matrix) (h : facetsOfMesh m g = some F) : F.WF ∧ F.cols = 3 := by
  have hu : u32 m.number_of_faces = m.number_of_faces :=
    Nat.mod_eq_of_lt (by omega)
  refine foldlM_invariant (fun M : Matrix => M.WF ∧ M.cols = 3) _ ?_ _ _ _ ?_ h
  · intro b f b' hb hstep
    cases hh : m.halfedge f with
    | none => simp [hh] at hstep
    | some h0 =>
      cases hr : vertex_around_face g h0 with
      | none => simp [hh, hr] at hstep
      | some r =>
        obtain ⟨v0, v1, v2⟩ := r
        simp only [hh, hr, Option.bind_eq_bind, Option.some_bind, Option.pure_def,
          Option.some.injEq] at hstep
        subst hstep
        exact ⟨CustomMatrix.set_WF _ _ _ _ (CustomMatrix.set_WF _ _ _ _
          (CustomMatrix.set_WF _ _ _ _ hb.1)), hb.2⟩
  · exact ⟨CustomMatrix.new_WF _ _ (by rw [hu]; exact hf), rfl⟩

/-- The overload of `getSimplifiedShape` with a ratio and a filename returns
the pair of the overload with the ratio alone, together with the file. -/
theorem getSimplifiedShape_ratio_filename_fst (lib : CGAL) (fmt : ℚ → String)
    (self : AlphaShape3D) (r : ℚ)
    (hv : (simplifiedCopy lib self.surface_mesh r).number_of_vertices * 3 < 4294967296)
    (hf : (simplifiedCopy lib self.surface_mesh r).number_of_faces * 3 < 4294967296) :
    ((AlphaShape3D.getSimplifiedShape_ratio_filename lib fmt r).run self).1.map Prod.fst
      = ((AlphaShape3D.getSimplifiedShape lib r).run self).1 := by
  have hrun : ((AlphaShape3D.getSimplifiedShape_ratio_filename lib fmt r).run self).1
      = (((AlphaShape3D.getSimplifiedShape lib r).run self).1).bind
          (fun p => (writeOff fmt p.1 p.2).map (fun file => (p, file))) := rfl
  have hplain : ((AlphaShape3D.getSimplifiedShape lib r).run self).1
      = (pointsOfMesh (simplifiedCopy lib self.surface_mesh r)).bind (fun Points =>
          (facetsOfMesh (simplifiedCopy lib self.surface_mesh r) self.surface_mesh).bind
            (fun bf => some (Points, bf))) := rfl
  rw [hrun]
  cases hres : ((AlphaShape3D.getSimplifiedShape lib r).run self).1 with
  | none => rfl
  | some p =>
    obtain ⟨P, F⟩ := p
    rw [hplain] at hres
    cases hP : pointsOfMesh (simplifiedCopy lib self.surface_mesh r) with
    | none => simp [hP] at hres
    | some P' =>
      cases hF : facetsOfMesh (simplifiedCopy lib self.surface_mesh r) self.surface_mesh with
      | none => simp [hP, hF] at hres
      | some F' =>
        simp only [hP, hF, Option.some_bind, Option.some.injEq, Prod.mk.injEq] at hres
        obtain ⟨rfl, rfl⟩ := hres
        obtain ⟨hPwf, hPc⟩ := pointsOfMesh_WF _ hv _ hP
        obtain ⟨hFwf, hFc⟩ := facetsOfMesh_WF _ _ hf _ hF
        simp [writeOff_eq fmt P' F' hPwf hPc hFwf hFc]

/-- C20: `getSimplifiedShape()` is `getSimplifiedShape(0.05)`, and each
overload with a filename returns the points and faces of the overload without
it (for meshes whose vertices and faces fit the matrix storage). -/
theorem getSimplifiedShape_overloads (lib : CGAL) (fmt : ℚ → String)
    (self : AlphaShape3D) (r : ℚ)
    (hv : (simplifiedCopy lib self.surface_mesh r).number_of_vertices * 3 < 4294967296)
    (hf : (simplifiedCopy lib self.surface_mesh r).number_of_faces * 3 < 4294967296)
    (hv0 : (simplifiedCopy lib self.surface_mesh (5 / 100)).number_of_vertices * 3
      < 4294967296)
    (hf0 : (simplifiedCopy lib self.surface_mesh (5 / 100)).number_of_faces * 3
      < 4294967296) :
    (AlphaShape3D.getSimplifiedShape_default lib).run self
      = (AlphaShape3D.getSimplifiedShape lib (5 / 100)).run self ∧
    ((AlphaShape3D.getSimplifiedShape_filename lib fmt).run self).1.map Prod.fst
      = ((AlphaShape3D.getSimplifiedShape_default lib).run self).1 ∧
    ((AlphaShape3D.getSimplifiedShape_ratio_filename lib fmt r).run self).1.map Prod.fst
      = ((AlphaShape3D.getSimplifiedShape lib r).run self).1 :=
  ⟨rfl, getSimplifiedShape_ratio_filename_fst lib fmt self (5 / 100) hv0 hf0,
    getSimplifiedShape_ratio_filename_fst lib fmt self r hv hf⟩

/-- Witness for C20: the shape of the second example and the ratio 1/2. -/
theorem getSimplifiedShape_overloads_witness :
    (simplifiedCopy exampleCGAL starShape.surface_mesh (1 / 2)).number_of_vertices * 3
      < 4294967296 ∧
    ((AlphaShape3D.getSimplifiedShape_filename exampleCGAL
        (fun q => toString (toUInt64 q))).run starShape).1.map Prod.fst
      = ((AlphaShape3D.getSimplifiedShape_default exampleCGAL).run starShape).1 ∧
    ((AlphaShape3D.getSimplifiedShape_ratio_filename exampleCGAL
        (fun q => toString (toUInt64 q)) (1 / 2)).run starShape).1.map Prod.fst
      = ((AlphaShape3D.getSimplifiedShape exampleCGAL (1 / 2)).run starShape).1 :=
  have h := getSimplifiedShape_overloads exampleCGAL (fun q => toString (toUInt64 q))
    starShape (1 / 2) (by decide) (by decide) (by decide) (by decide)
  ⟨by decide, h.2.1, h.2.2⟩

/-! ### `NewShapeJS` -/

/-- The pairs `Vertices` holds after the ingestion of `pts`: every point with
its position in the input. -/
theorem map_getD_range (pts : List Point) :
    (List.range pts.length).map (fun i => pts.getD i ⟨0, 0, 0⟩) = pts := by
  apply List.ext_getElem?
  intro i
  by_cases hi : i < pts.length
  · rw [List.getElem?_map, List.getElem?_range hi, List.getElem?_eq_getElem hi]
    simp [List.getElem?_eq_getElem hi]
  · rw [List.getElem?_eq_none (by simpa using hi), List.getElem?_eq_none (by simpa using hi)]

/-- A loop with an error flag that is never raised is the loop without the
flag. -/
theorem foldl_no_error {α : Type} (f : Matrix × Option String → α → Matrix × Option String)
    (g : Matrix → α → Matrix) (l : List α)
    (h : ∀ M x, x ∈ l → f (M, none) x = (g M x, none)) :
    ∀ M, l.foldl f (M, none) = (l.foldl g M, none) := by
  induction l with
  | nil => intro M; rfl
  | cons x xs ih =>
    intro M
    rw [List.foldl_cons, List.foldl_cons, h M x (List.mem_cons_self _ _)]
    exact ih (fun M y hy => h M y (List.mem_cons_of_mem _ hy)) _

/-- On an array of well-formed points the ingestion loop raises no error and
fills `inputPoints` as `matrixOfPoints` does. -/
theorem ingestPoints_wellformed (pts : List Point) :
    ingestPoints (pts.map jsPoint) (CustomMatrix.new pts.length 3)
      = (AlphaShape3D.matrixOfPoints pts, none) := by
  unfold ingestPoints AlphaShape3D.matrixOfPoints
  rw [List.length_map]
  apply foldl_no_error
  intro M i hi
  have hi' : i < pts.length := List.mem_range.mp hi
  have hget : (pts.map jsPoint).getD i JsValue.other = jsPoint (pts.getD i ⟨0, 0, 0⟩) := by
    rw [List.getD_eq_getElem _ _ (by simpa using hi'), List.getD_eq_getElem _ _ hi']
    simp
  simp only [hget, jsPoint]
  rfl

/-- On the matrix of `pts` the loop that fills `Points` and `Vertices` appends
the points in order, each paired with its row index. -/
theorem buildVertices_wellformed (pts : List Point) (hsize : pts.length * 3 < 4294967296) :
    buildVertices (AlphaShape3D.matrixOfPoints pts) [] []
      = some (pts, (List.range pts.length).map (fun i => (pts.getD i ⟨0, 0, 0⟩, i))) := by
  obtain ⟨-, hr, -, hget⟩ := matrixOfPoints_spec pts hsize
  have key : ∀ k, k ≤ pts.length →
      (List.range k).foldlM
        (fun (st : List Point × List (Point × ℕ)) i => do
          let x ← (AlphaShape3D.matrixOfPoints pts).get? i 0
          let y ← (AlphaShape3D.matrixOfPoints pts).get? i 1
          let z ← (AlphaShape3D.matrixOfPoints pts).get? i 2
          let Points := st.1 ++ [Point.mk x y z]
          let back ← Points.getLast?
          pure (Points, st.2 ++ [(back, u32 i)]))
        (([] : List Point), ([] : List (Point × ℕ)))
      = some ((List.range k).map (fun i => pts.getD i ⟨0, 0, 0⟩),
          (List.range k).map (fun i => (pts.getD i ⟨0, 0, 0⟩, i))) := by
    intro k
    induction k with
    | zero => intro _; rfl
    | succ k ih =>
      intro hk
      have hk' : k < pts.length := by omega
      obtain ⟨hx, hy, hz⟩ := hget k hk'
      have hu : u32 k = k := Nat.mod_eq_of_lt (by omega)
      rw [List.range_succ, List.foldlM_append, ih (by omega)]
      simp [List.foldlM_cons, List.foldlM_nil, hx, hy, hz, hu, List.getElem?_eq_getElem hk']
  unfold buildVertices
  rw [CustomMatrix.numRows, hr, key pts.length (le_refl _), map_getD_range]

/-- The state `NewShapeJS` leaves on an array of well-formed points, whatever
the state before: the points are stored, `Vertices` pairs each point with its
position, the triangulation and the alpha shape are the ones the constructors
return for these vertices; no error is reported. -/
theorem NewShapeJS_wellformed (lib : CGALBuild) (self : AlphaShape3D) (pts : List Point)
    (hsize : pts.length * 3 < 4294967296) :
    (AlphaShape3D.NewShapeJS lib [JsValue.array (pts.map jsPoint)]).run self
      = (some (Except.ok ()),
          { self with
            inputPoints := AlphaShape3D.matrixOfPoints pts,
            Points := pts,
            Vertices := (List.range pts.length).map (fun i => (pts.getD i ⟨0, 0, 0⟩, i)),
            delaunayTriangulation := some (lib.Alpha_shape_3 (lib.Delaunay_triangulation_3
              ((List.range pts.length).map (fun i => (pts.getD i ⟨0, 0, 0⟩, i))))).2.tds,
            triangulationMatrix := fillTriangulationMatrix
              (lib.Delaunay_triangulation_3
                ((List.range pts.length).map (fun i => (pts.getD i ⟨0, 0, 0⟩, i))))
              (self.triangulationMatrix.resize
                (u32 ((lib.Delaunay_triangulation_3 ((List.range pts.length).map
                  (fun i => (pts.getD i ⟨0, 0, 0⟩, i)))).number_of_finite_cells * 4)) 3),
            alphaShape := some (lib.Alpha_shape_3 (lib.Delaunay_triangulation_3
              ((List.range pts.length).map (fun i => (pts.getD i ⟨0, 0, 0⟩, i))))).1,
            numAlphaValues := (lib.Alpha_shape_3 (lib.Delaunay_triangulation_3
              ((List.range pts.length).map
                (fun i => (pts.getD i ⟨0, 0, 0⟩, i))))).1.number_of_alphas }) := by
  have hresize : ((self.inputPoints.resize 0 0).resize (pts.map jsPoint).length 3 : Matrix)
      = CustomMatrix.new pts.length 3 := by
    simp [CustomMatrix.resize, CustomMatrix.new, u32]
  have hing := ingestPoints_wellformed pts
  have hbuild := buildVertices_wellformed pts hsize
  simp only [AlphaShape3D.NewShapeJS, StateT.run, bind, StateT.bind, modify, modifyGet,
    MonadStateOf.modifyGet, StateT.modifyGet, get, getThe, MonadStateOf.get, StateT.get,
    set, StateT.set, pure, StateT.pure, hresize, hing, hbuild]

/-- C13: after `newShape` on `n` well-formed points, whatever the state
before, no error is reported, `Points` and `Vertices` have `n` entries and
entry `i` of `Vertices` is the point of input row `i` paired with the id `i`;
a call after an earlier ingestion gives the same `Points` and `Vertices`, the
earlier entries are gone. -/
theorem NewShapeJS_vertices (lib : CGALBuild) (self : AlphaShape3D) (pts : List Point)
    (hsize : pts.length * 3 < 4294967296) :
    ((AlphaShape3D.NewShapeJS lib [JsValue.array (pts.map jsPoint)]).run self).1
      = some (Except.ok ()) ∧
    ((AlphaShape3D.NewShapeJS lib [JsValue.array (pts.map jsPoint)]).run self).2.Points
      = pts ∧
    ((AlphaShape3D.NewShapeJS lib
      [JsValue.array (pts.map jsPoint)]).run self).2.Points.length = pts.length ∧
    ((AlphaShape3D.NewShapeJS lib
      [JsValue.array (pts.map jsPoint)]).run self).2.Vertices.length = pts.length ∧
    (∀ i (hi : i < pts.length),
      ((AlphaShape3D.NewShapeJS lib
        [JsValue.array (pts.map jsPoint)]).run self).2.Vertices[i]? = some (pts[i], i)) ∧
    ∀ pts0 : List Point,
      ((AlphaShape3D.NewShapeJS lib [JsValue.array (pts.map jsPoint)]).run
        ((AlphaShape3D.NewShapeJS lib [JsValue.array (pts0.map jsPoint)]).run self).2).2.Vertices
      = ((AlphaShape3D.NewShapeJS lib
        [JsValue.array (pts.map jsPoint)]).run self).2.Vertices ∧
      ((AlphaShape3D.NewShapeJS lib [JsValue.array (pts.map jsPoint)]).run
        ((AlphaShape3D.NewShapeJS lib [JsValue.array (pts0.map jsPoint)]).run self).2).2.Points
      = ((AlphaShape3D.NewShapeJS lib
        [JsValue.array (pts.map jsPoint)]).run self).2.Points := by
  have h := NewShapeJS_wellformed lib self pts hsize
  refine ⟨by rw [h], by rw [h], by rw [h], by rw [h]; simp, ?_, ?_⟩
  · intro i hi
    rw [h]
    simp only [List.getElem?_map, List.getElem?_range hi, Option.map_some',
      List.getD_eq_getElem _ _ hi]
  · intro pts0
    rw [h, NewShapeJS_wellformed lib _ pts hsize]
    exact ⟨rfl, rfl⟩

/-- Witness for C13: the four points of the tetrahedron, ingested on the shape
of the second example. -/
theorem NewShapeJS_vertices_witness :
    tetraPoints.length * 3 < 4294967296 ∧
    ((AlphaShape3D.NewShapeJS exampleBuild
      [JsValue.array (tetraPoints.map jsPoint)]).run starShape).2.Vertices.length = 4 ∧
    ((AlphaShape3D.NewShapeJS exampleBuild
      [JsValue.array (tetraPoints.map jsPoint)]).run starShape).2.Points = tetraPoints :=
  have h := NewShapeJS_vertices exampleBuild starShape tetraPoints (by decide)
  ⟨by decide, h.2.2.2.1, h.2.1⟩

/-- C14 on the code: `newShape` on three well-formed points, on a new shape,
reports no error and constructs the triangulation and the alpha shape. -/
theorem NewShapeJS_three_points_accepted :
    ((AlphaShape3D.NewShapeJS exampleBuild
        [JsValue.array [jsPoint ⟨7, 0, 0⟩, jsPoint ⟨8, 0, 0⟩, jsPoint ⟨7, 1, 0⟩]]).run
      AlphaShape3D.init).1 = some (Except.ok ()) ∧
    ((AlphaShape3D.NewShapeJS exampleBuild
        [JsValue.array [jsPoint ⟨7, 0, 0⟩, jsPoint ⟨8, 0, 0⟩, jsPoint ⟨7, 1, 0⟩]]).run
      AlphaShape3D.init).2.alphaShape.isSome = true ∧
    ((AlphaShape3D.NewShapeJS exampleBuild
        [JsValue.array [jsPoint ⟨7, 0, 0⟩, jsPoint ⟨8, 0, 0⟩, jsPoint ⟨7, 1, 0⟩]]).run
      AlphaShape3D.init).2.delaunayTriangulation.isSome = true ∧
    ((AlphaShape3D.NewShapeJS exampleBuild
        [JsValue.array [jsPoint ⟨7, 0, 0⟩, jsPoint ⟨8, 0, 0⟩, jsPoint ⟨7, 1, 0⟩]]).run
      AlphaShape3D.init).2.Points.length = 3 :=
  ⟨rfl, rfl, rfl, rfl⟩

/-- C14 as amended: for every array of fewer than 4 well-formed points
`newShape` reports no error, stores the points, and the triangulation and the
alpha shape are the objects the CGAL constructors return for these points;
there is no check of the number of points. -/
theorem NewShapeJS_few_points (lib : CGALBuild) (self : AlphaShape3D) (pts : List Point)
    (hN : pts.length < 4) :
    ((AlphaShape3D.NewShapeJS lib [JsValue.array (pts.map jsPoint)]).run self).1
      = some (Except.ok ()) ∧
    ((AlphaShape3D.NewShapeJS lib [JsValue.array (pts.map jsPoint)]).run self).2.Points
      = pts ∧
    ((AlphaShape3D.NewShapeJS lib [JsValue.array (pts.map jsPoint)]).run self).2.alphaShape
      = some (lib.Alpha_shape_3 (lib.Delaunay_triangulation_3
          ((AlphaShape3D.NewShapeJS lib
            [JsValue.array (pts.map jsPoint)]).run self).2.Vertices)).1 ∧
    ((AlphaShape3D.NewShapeJS lib
      [JsValue.array (pts.map jsPoint)]).run self).2.delaunayTriangulation
      = some (lib.Alpha_shape_3 (lib.Delaunay_triangulation_3
          ((AlphaShape3D.NewShapeJS lib
            [JsValue.array (pts.map jsPoint)]).run self).2.Vertices)).2.tds := by
  have h := NewShapeJS_wellformed lib self pts (by omega)
  refine ⟨by rw [h], by rw [h], by rw [h], by rw [h]⟩

/-- Witness for C14 as amended: three points on a new shape. -/
theorem NewShapeJS_few_points_witness :
    [(⟨7, 0, 0⟩ : Point), ⟨8, 0, 0⟩, ⟨7, 1, 0⟩].length < 4 ∧
    ((AlphaShape3D.NewShapeJS exampleBuild
        [JsValue.array ([(⟨7, 0, 0⟩ : Point), ⟨8, 0, 0⟩, ⟨7, 1, 0⟩].map jsPoint)]).run
      AlphaShape3D.init).1 = some (Except.ok ()) :=
  ⟨by decide,
    (NewShapeJS_few_points exampleBuild AlphaShape3D.init
      [⟨7, 0, 0⟩, ⟨8, 0, 0⟩, ⟨7, 1, 0⟩] (by decide)).1⟩

/-- An argument list that does not start with an array is rejected with the
state of the shape as it was. -/
theorem NewShapeJS_not_array (lib : CGALBuild) (self : AlphaShape3D) :
    (AlphaShape3D.NewShapeJS lib []).run self
      = (some (Except.error "Array of points expected"), self) ∧
    (AlphaShape3D.NewShapeJS lib [JsValue.other]).run self
      = (some (Except.error "Array of points expected"), self) ∧
    ∀ q, (AlphaShape3D.NewShapeJS lib [JsValue.number q]).run self
      = (some (Except.error "Array of points expected"), self) :=
  ⟨rfl, rfl, fun _ => rfl⟩

/-- C15 on the code: `newShape` called on the shape of the tetrahedron with an
array whose third point is not an array throws the `TypeError`, and the state
after the call is not the state before it: `Points` and `Vertices` are empty
and `inputPoints` is a 3 x 3 matrix holding the two points read so far, while
the alpha shape and the canonical mesh are still those of the tetrahedron. -/
theorem NewShapeJS_rejected_after_clearing :
    ((AlphaShape3D.NewShapeJS exampleBuild
        [JsValue.array [jsPoint ⟨7, 0, 0⟩, jsPoint ⟨8, 0, 0⟩, JsValue.other]]).run
      tetraShape).1 = some (Except.error "Each point should be an array of 3 numbers") ∧
    ((AlphaShape3D.NewShapeJS exampleBuild
        [JsValue.array [jsPoint ⟨7, 0, 0⟩, jsPoint ⟨8, 0, 0⟩, JsValue.other]]).run
      tetraShape).2.Points = [] ∧
    ((AlphaShape3D.NewShapeJS exampleBuild
        [JsValue.array [jsPoint ⟨7, 0, 0⟩, jsPoint ⟨8, 0, 0⟩, JsValue.other]]).run
      tetraShape).2.Vertices = [] ∧
    ((AlphaShape3D.NewShapeJS exampleBuild
        [JsValue.array [jsPoint ⟨7, 0, 0⟩, jsPoint ⟨8, 0, 0⟩, JsValue.other]]).run
      tetraShape).2.inputPoints = ⟨[7, 0, 0, 8, 0, 0, 0, 0, 0], 3, 3⟩ ∧
    tetraShape.Points = tetraPoints ∧
    tetraShape.inputPoints = ⟨[0, 0, 0, 1, 0, 0, 0, 1, 0, 0, 0, 1], 4, 3⟩ ∧
    ((AlphaShape3D.NewShapeJS exampleBuild
        [JsValue.array [jsPoint ⟨7, 0, 0⟩, jsPoint ⟨8, 0, 0⟩, JsValue.other]]).run
      tetraShape).2.surface_mesh = tetraMesh ∧
    ((AlphaShape3D.NewShapeJS exampleBuild
        [JsValue.array [jsPoint ⟨7, 0, 0⟩, jsPoint ⟨8, 0, 0⟩, JsValue.other]]).run
      tetraShape).2.numAlphaValues = 3 := by
  refine ⟨rfl, by decide, by decide, by decide, rfl, rfl, by decide, by decide⟩

/-- C16 on the code: `newShape` with the points of the second example, called
on the shape of the tetrahedron, succeeds and stores the five new points, and
the canonical mesh is still the mesh of the tetrahedron: `getBoundaryFacets()`
returns the four facets built from the previous point set. -/
theorem NewShapeJS_keeps_canonical_mesh :
    ((AlphaShape3D.NewShapeJS exampleBuild
        [JsValue.array (starPoints.map jsPoint)]).run tetraShape).1
      = some (Except.ok ()) ∧
    ((AlphaShape3D.NewShapeJS exampleBuild
        [JsValue.array (starPoints.map jsPoint)]).run tetraShape).2.Points = starPoints ∧
    ((AlphaShape3D.NewShapeJS exampleBuild
        [JsValue.array (starPoints.map jsPoint)]).run tetraShape).2.surface_mesh
      = tetraMesh ∧
    ((AlphaShape3D.NewShapeJS exampleBuild
        [JsValue.array (starPoints.map jsPoint)]).run tetraShape).2.getBoundaryFacets
      = some ⟨[1, 2, 3, 2, 0, 3, 0, 1, 3, 1, 0, 2], 4, 3⟩ ∧
    tetraShape.getBoundaryFacets = some ⟨[1, 2, 3, 2, 0, 3, 0, 1, 3, 1, 0, 2], 4, 3⟩ := by
  refine ⟨rfl, by decide, by decide, by decide, by decide⟩

/-- No call of `NewShapeJS` changes the canonical mesh: successful or rejected,
the mesh after the call is the mesh before it. -/
theorem NewShapeJS_surface_mesh (lib : CGALBuild) (info : List JsValue) (self : AlphaShape3D) :
    ((AlphaShape3D.NewShapeJS lib info).run self).2.surface_mesh = self.surface_mesh := by
  unfold AlphaShape3D.NewShapeJS
  split
  · simp only [StateT.run, bind, StateT.bind, modify, modifyGet,
      MonadStateOf.modifyGet, StateT.modifyGet, get, getThe, MonadStateOf.get, StateT.get,
      set, StateT.set, pure, StateT.pure]
    generalize ingestPoints _ _ = ing
    obtain ⟨M, err⟩ := ing
    cases err with
    | some e => rfl
    | none =>
      cases hb : buildVertices M [] [] with
      | none => simp [StateT.bind, StateT.get, StateT.pure, hb]
      | some built => simp [StateT.bind, StateT.get, StateT.set, StateT.pure, hb]
  · rfl

/-! ### `getNearestNeighbor` -/

/-- The search loop of the examples keeps a pair of smallest distance. -/
theorem foldl_min_spec (l : List (ℕ × ℚ)) (b0 : ℕ × ℚ) :
    ∃ b, l.foldl (fun (best : Option (ℕ × ℚ)) c =>
        match best with
        | none => some c
        | some b => if c.2 < b.2 then some c else some b) (some b0) = some b ∧
      (b = b0 ∨ b ∈ l) ∧ b.2 ≤ b0.2 ∧ ∀ c ∈ l, b.2 ≤ c.2 := by
  induction l generalizing b0 with
  | nil => exact ⟨b0, rfl, Or.inl rfl, le_refl _, fun c hc => absurd hc (List.not_mem_nil c)⟩
  | cons x xs ih =>
    rw [List.foldl_cons]
    by_cases hx : x.2 < b0.2
    · obtain ⟨b, hb, hmem, hle, hmin⟩ := ih x
      refine ⟨b, by simpa [hx] using hb, ?_, le_trans hle (le_of_lt hx), ?_⟩
      · rcases hmem with h | h
        · exact Or.inr (h ▸ List.mem_cons_self _ _)
        · exact Or.inr (List.mem_cons_of_mem _ h)
      · intro c hc
        rcases List.mem_cons.mp hc with h | h
        · exact h ▸ hle
        · exact hmin c h
    · obtain ⟨b, hb, hmem, hle, hmin⟩ := ih b0
      refine ⟨b, by simpa [hx] using hb, ?_, hle, ?_⟩
      · rcases hmem with h | h
        · exact Or.inl h
        · exact Or.inr (List.mem_cons_of_mem _ h)
      · intro c hc
        rcases List.mem_cons.mp hc with h | h
        · exact h ▸ le_trans hle (not_lt.mp hx)
        · exact hmin c h

/-- The search of the library of the examples is an exact search. -/
theorem exampleCGAL_exactSearch : exampleCGAL.exactSearch := by
  intro n map q hn hmap
  have hlist : ∀ c, c ∈ (List.range n).filterMap
      (fun k => (map k).map (fun p => (k, sqDist q p))) ↔
      ∃ k p, k < n ∧ map k = some p ∧ c = (k, sqDist q p) := by
    intro c
    simp only [List.mem_filterMap, List.mem_range, Option.map_eq_some']
    constructor
    · rintro ⟨k, hk, p, hp, rfl⟩
      exact ⟨k, p, hk, hp, rfl⟩
    · rintro ⟨k, p, hk, hp, rfl⟩
      exact ⟨k, hk, p, hp, rfl⟩
  show ∃ k p, k < n ∧ map k = some p ∧
    ((List.range n).filterMap (fun k => (map k).map (fun p => (k, sqDist q p)))).foldl
      (fun (best : Option (ℕ × ℚ)) c =>
        match best with
        | none => some c
        | some b => if c.2 < b.2 then some c else some b) none = some (k, sqDist q p) ∧
    ∀ k' p', k' < n → map k' = some p' → sqDist q p ≤ sqDist q p'
  generalize hl : (List.range n).filterMap
    (fun k => (map k).map (fun p => (k, sqDist q p))) = l at hlist
  cases l with
  | nil =>
    obtain ⟨p, hp⟩ := hmap 0 hn
    exact absurd ((hlist (0, sqDist q p)).mpr ⟨0, p, hn, hp, rfl⟩) (List.not_mem_nil _)
  | cons x xs =>
    obtain ⟨b, hb, hmem, hle, hmin⟩ := foldl_min_spec xs x
    have hbmem : b ∈ x :: xs := by
      rcases hmem with h | h
      · exact h ▸ List.mem_cons_self _ _
      · exact List.mem_cons_of_mem _ h
    obtain ⟨k, p, hk, hp, rfl⟩ := (hlist b).mp hbmem
    refine ⟨k, p, hk, hp, ?_, ?_⟩
    · rw [List.foldl_cons]
      exact hb
    · intro k' p' hk' hp'
      have hc : (k', sqDist q p') ∈ x :: xs := (hlist _).mpr ⟨k', p', hk', hp', rfl⟩
      rcases List.mem_cons.mp hc with h | h
      · rw [← h] at hle
        exact hle
      · exact hmin _ h

/-- The three-decimal square root is monotone. -/
theorem fixedSqrt_mono (a b : ℚ) (h : a ≤ b) : fixedSqrt a ≤ fixedSqrt b := by
  unfold fixedSqrt
  have h1 : a * 1000000 ≤ b * 1000000 := by linarith
  have h2 : Rat.floor (a * 1000000) ≤ Rat.floor (b * 1000000) := Int.floor_mono h1
  have h3 : (Rat.floor (a * 1000000)).toNat ≤ (Rat.floor (b * 1000000)).toNat :=
    Int.toNat_le_toNat h2
  have h4 := Nat.sqrt_le_sqrt h3
  have h5 : ((Nat.sqrt (Rat.floor (a * 1000000)).toNat : ℕ) : ℚ)
      ≤ ((Nat.sqrt (Rat.floor (b * 1000000)).toNat : ℕ) : ℚ) := by exact_mod_cast h4
  exact div_le_div_of_nonneg_right h5 (by norm_num)

/-- A `filterMap` whose function succeeds on every element is a `map`. -/
theorem filterMap_eq_map_of_some {α β : Type} (f : α → Option β) (g : α → β) (l : List α)
    (h : ∀ x ∈ l, f x = some (g x)) : l.filterMap f = l.map g := by
  induction l with
  | nil => rfl
  | cons x xs ih =>
    rw [List.filterMap_cons, h x (List.mem_cons_self _ _), List.map_cons,
      ih (fun y hy => h y (List.mem_cons_of_mem _ hy))]

/-- The vertices `getNearestNeighbor` hands to the search, for a mesh whose
isolated vertices were marked removed: the list `vs` holds exactly the
vertices a face refers to, and `points` holds their positions in the same
order. -/
theorem searched_vertices (m m' : Mesh) (h1 : m'.vpoint = m.vpoint)
    (h2 : ∀ v, v < m.vpoint.length → m'.is_removed v = !m.faceReferenced v) :
    (m'.vertices.filter (fun i => !m'.is_removed i)) = m'.vertices ∧
    ((m'.vertices.filter (fun i => !m'.is_removed i)).filterMap m'.point).length
      = m'.vertices.length ∧
    (∀ k, k < m'.vertices.length → ∃ v p, m'.vertices[k]? = some v ∧
      ((m'.vertices.filter (fun i => !m'.is_removed i)).filterMap m'.point)[k]? = some p ∧
      m.point v = some p ∧ v < m.vpoint.length ∧ m.faceReferenced v = true) ∧
    (∀ v, v < m.vpoint.length → m.faceReferenced v = true →
      ∃ k, k < m'.vertices.length ∧ m'.vertices[k]? = some v) := by
  have hmem : ∀ v, v ∈ m'.vertices ↔ v < m.vpoint.length ∧ m.faceReferenced v = true := by
    intro v
    simp only [Mesh.vertices, List.mem_filter, List.mem_range, h1]
    constructor
    · rintro ⟨hv, hr⟩
      rw [h2 v hv] at hr
      exact ⟨hv, by simpa using hr⟩
    · rintro ⟨hv, hr⟩
      refine ⟨hv, ?_⟩
      rw [h2 v hv]
      simpa using hr
  have hfilter : (m'.vertices.filter (fun i => !m'.is_removed i)) = m'.vertices := by
    apply List.filter_eq_self.mpr
    intro v hv
    obtain ⟨hlt, hr⟩ := (hmem v).mp hv
    rw [h2 v hlt]
    simpa using hr
  have hpoints : (m'.vertices.filterMap m'.point)
      = m'.vertices.map (fun v => m.vpoint.getD v ⟨0, 0, 0⟩) := by
    apply filterMap_eq_map_of_some
    intro v hv
    obtain ⟨hlt, -⟩ := (hmem v).mp hv
    simp only [Mesh.point, h1, List.getElem?_eq_getElem hlt, List.getD_eq_getElem _ _ hlt]
  rw [hfilter, hpoints]
  refine ⟨rfl, by simp, ?_, ?_⟩
  · intro k hk
    have hv : m'.vertices[k] ∈ m'.vertices := List.getElem_mem hk
    obtain ⟨hlt, hr⟩ := (hmem _).mp hv
    refine ⟨m'.vertices[k], m.vpoint[m'.vertices[k]], List.getElem?_eq_getElem hk, ?_, ?_,
      hlt, hr⟩
    · rw [List.getElem?_map, List.getElem?_eq_getElem hk]
      simp [List.getElem?_eq_getElem hlt]
    · simp only [Mesh.point, List.getElem?_eq_getElem hlt]
  · intro v hlt hr
    have hv : v ∈ m'.vertices := (hmem v).mpr ⟨hlt, hr⟩
    obtain ⟨k, hk, hkv⟩ := List.getElem_of_mem hv
    exact ⟨k, hk, by rw [List.getElem?_eq_getElem hk, hkv]⟩

/-- A loop over `i < n` that stores `a i` at `(i, 0)` of one matrix and `b i`
at `(i, 0)` of another has run when `range n` is folded, and the results hold
`a i` and `b i` at `(i, 0)`. -/
theorem foldlM_set_range_pair {T : Type} (I D : CustomMatrix T) (hI : I.WF) (hD : D.WF)
    (n : ℕ) (a b : ℕ → T)
    (step : CustomMatrix T × CustomMatrix T → ℕ → Option (CustomMatrix T × CustomMatrix T))
    (hstep : ∀ ID i, i < n → step ID i = some (ID.1.set i 0 (a i), ID.2.set i 0 (b i)))
    (hIr : n ≤ I.rows) (hIc : 0 < I.cols) (hDr : n ≤ D.rows) (hDc : 0 < D.cols) :
    ∃ I' D', (List.range n).foldlM step (I, D) = some (I', D') ∧ I'.WF ∧ D'.WF ∧
      I'.rows = I.rows ∧ I'.cols = I.cols ∧ D'.rows = D.rows ∧ D'.cols = D.cols ∧
      ∀ i, i < n → I'.get? i 0 = some (a i) ∧ D'.get? i 0 = some (b i) := by
  have key : ∀ k, k ≤ n → ∃ I' D', (List.range k).foldlM step (I, D) = some (I', D') ∧
      I'.WF ∧ D'.WF ∧ I'.rows = I.rows ∧ I'.cols = I.cols ∧ D'.rows = D.rows ∧
      D'.cols = D.cols ∧ ∀ i, i < k → I'.get? i 0 = some (a i) ∧ D'.get? i 0 = some (b i) := by
    intro k
    induction k with
    | zero =>
      intro _
      exact ⟨I, D, rfl, hI, hD, rfl, rfl, rfl, rfl, fun i hi => absurd hi (Nat.not_lt_zero i)⟩
    | succ k ih =>
      intro hk
      obtain ⟨I', D', hfold, hIwf, hDwf, hIr', hIc', hDr', hDc', hget⟩ := ih (by omega)
      have hkn : k < n := by omega
      refine ⟨I'.set k 0 (a k), D'.set k 0 (b k), ?_, I'.set_WF _ _ _ hIwf,
        D'.set_WF _ _ _ hDwf, ?_, ?_, ?_, ?_, ?_⟩
      · rw [List.range_succ, List.foldlM_append, hfold]
        simp [List.foldlM_cons, List.foldlM_nil, hstep (I', D') k hkn]
      · rw [CustomMatrix.set_rows, hIr']
      · rw [CustomMatrix.set_cols, hIc']
      · rw [CustomMatrix.set_rows, hDr']
      · rw [CustomMatrix.set_cols, hDc']
      · intro i hi
        have hIk : k < I'.rows := by omega
        have hDk : k < D'.rows := by omega
        have hI0 : 0 < I'.cols := by omega
        have hD0 : 0 < D'.cols := by omega
        by_cases hik : i = k
        · subst hik
          exact ⟨I'.get?_set_self hIwf hIk hI0 _, D'.get?_set_self hDwf hDk hD0 _⟩
        · have hIi : i < I'.rows := by omega
          have hDi : i < D'.rows := by omega
          rw [I'.get?_set_other hIwf hIk hI0 hIi hI0 (fun h => hik h.1.symm),
            D'.get?_set_other hDwf hDk hD0 hDi hD0 (fun h => hik h.1.symm)]
          exact hget i (by omega)
  exact key n (le_refl n)

/-- What `getNearestNeighbor` returns, under the contracts of
`remove_isolated_vertices` and of the neighbour search, when a face of the
canonical mesh refers to some vertex: two well-formed one-column matrices
with one row per query, and for each query row the index of a vertex of the
canonical mesh that a face refers to, the transformed squared distance to
the position of that vertex, and no face-referenced vertex at a smaller
squared distance. -/
theorem getNearestNeighbor_spec (lib : CGAL) (QP : Matrix) (self : AlphaShape3D)
    (hQ : QP.WF) (hQc : QP.cols = 3)
    (hiso : lib.removesIsolated self.surface_mesh) (hsearch : lib.exactSearch)
    (hne : ∃ v, v < self.surface_mesh.vpoint.length ∧
      self.surface_mesh.faceReferenced v = true) :
    ∃ I D, (AlphaShape3D.getNearestNeighbor lib QP self).1 = some (I, D) ∧ I.WF ∧ D.WF ∧
      I.rows = QP.numRows ∧ I.cols = 1 ∧ D.rows = QP.numRows ∧ D.cols = 1 ∧
      ∀ i, i < QP.numRows → ∃ (x y z : ℚ) (v : ℕ) (p : Point),
        QP.get? i 0 = some x ∧ QP.get? i 1 = some y ∧ QP.get? i 2 = some z ∧
        I.get? i 0 = some (v : ℚ) ∧
        D.get? i 0 = some (euclideanDistance lib ⟨x, y, z⟩ p) ∧
        v < self.surface_mesh.vpoint.length ∧
        self.surface_mesh.faceReferenced v = true ∧
        self.surface_mesh.point v = some p ∧
        ∀ v' p', v' < self.surface_mesh.vpoint.length →
          self.surface_mesh.faceReferenced v' = true →
          self.surface_mesh.point v' = some p' →
          sqDist ⟨x, y, z⟩ p ≤ sqDist ⟨x, y, z⟩ p' := by
  obtain ⟨h1, h2⟩ := hiso
  obtain ⟨hvs, hplen, hkey, hcov⟩ := searched_vertices self.surface_mesh
    (lib.remove_isolated_vertices self.surface_mesh) h1 h2
  generalize hm' : lib.remove_isolated_vertices self.surface_mesh = m' at hvs hplen hkey hcov
  generalize hpts :
    (m'.vertices.filter (fun i => !m'.is_removed i)).filterMap m'.point = points
    at hplen hkey
  have hQr : QP.rows < 4294967296 := by
    obtain ⟨-, h⟩ := hQ
    rw [hQc] at h
    omega
  have hpos : 0 < m'.vertices.length := by
    obtain ⟨v, hv, hr⟩ := hne
    obtain ⟨k, hk, -⟩ := hcov v hv hr
    omega
  have hrow : ∀ i, i < QP.numRows → ∃ (x y z : ℚ) (k v : ℕ) (p : Point),
      QP.get? i 0 = some x ∧ QP.get? i 1 = some y ∧ QP.get? i 2 = some z ∧
      lib.k_neighbor_search m'.vertices.length (fun k => points[k]?) ⟨x, y, z⟩
        = some (k, sqDist ⟨x, y, z⟩ p) ∧
      m'.vertices[k]? = some v ∧
      v < self.surface_mesh.vpoint.length ∧
      self.surface_mesh.faceReferenced v = true ∧
      self.surface_mesh.point v = some p ∧
      ∀ v' p', v' < self.surface_mesh.vpoint.length →
        self.surface_mesh.faceReferenced v' = true →
        self.surface_mesh.point v' = some p' →
        sqDist ⟨x, y, z⟩ p ≤ sqDist ⟨x, y, z⟩ p' := by
    intro i hi
    have hi' : i < QP.rows := hi
    obtain ⟨x, hx⟩ := QP.get?_in_range hQ hi' (show 0 < QP.cols by omega)
    obtain ⟨y, hy⟩ := QP.get?_in_range hQ hi' (show 1 < QP.cols by omega)
    obtain ⟨z, hz⟩ := QP.get?_in_range hQ hi' (show 2 < QP.cols by omega)
    obtain ⟨k, p, hk, hp, hfound, hmin⟩ := hsearch m'.vertices.length
      (fun k => points[k]?) ⟨x, y, z⟩ hpos
      (fun k hk => by
        obtain ⟨v, p, -, hp, -⟩ := hkey k hk
        exact ⟨p, hp⟩)
    obtain ⟨v, p0, hv, hp0, hpoint, hlt, href⟩ := hkey k hk
    have hpp : p0 = p := by
      have h : some p0 = some p := by rw [← hp0]; exact hp
      exact Option.some.inj h
    subst hpp
    refine ⟨x, y, z, k, v, p0, hx, hy, hz, hfound, hv, hlt, href, hpoint, ?_⟩
    intro v' p' hlt' href' hpoint'
    obtain ⟨k', hk', hv'⟩ := hcov v' hlt' href'
    obtain ⟨v'', p'', hv'', hp'', hpoint'', -⟩ := hkey k' hk'
    have hvv : v'' = v' := by
      have h : some v'' = some v' := by rw [← hv'']; exact hv'
      exact Option.some.inj h
    subst hvv
    have hpp' : p'' = p' := by
      have h : some p'' = some p' := by rw [← hpoint'']; exact hpoint'
      exact Option.some.inj h
    subst hpp'
    exact hmin k' p'' hk' hp''
  obtain ⟨I, D, hfold, hIwf, hDwf, hIr, hIc, hDr, hDc, hget⟩ :=
    foldlM_set_range_pair (CustomMatrix.new QP.numRows 1 : Matrix)
      (CustomMatrix.new QP.numRows 1) (CustomMatrix.new_WF _ _ (by simpa using hQr))
      (CustomMatrix.new_WF _ _ (by simpa using hQr)) QP.numRows
      (fun i => ((m'.vertices[((lib.k_neighbor_search m'.vertices.length
        (fun k => points[k]?)
        ⟨(QP.get? i 0).getD 0, (QP.get? i 1).getD 0, (QP.get? i 2).getD 0⟩).getD (0, 0)).1]?).getD 0 : ℚ))
      (fun i => lib.inverse_of_transformed_distance
        ((lib.k_neighbor_search m'.vertices.length (fun k => points[k]?)
        ⟨(QP.get? i 0).getD 0, (QP.get? i 1).getD 0, (QP.get? i 2).getD 0⟩).getD (0, 0)).2)
      (fun (ID : Matrix × Matrix) i => do
        let x ← QP.get? i 0
        let y ← QP.get? i 1
        let z ← QP.get? i 2
        let found ← lib.k_neighbor_search m'.vertices.length
          (fun k => points[k]?) ⟨x, y, z⟩
        let v ← (m'.vertices.filter (fun i => !m'.is_removed i))[found.1]?
        pure (ID.1.set i 0 (v : ℚ),
          ID.2.set i 0 (lib.inverse_of_transformed_distance found.2)))
      (by
        intro ID i hi
        obtain ⟨x, y, z, k, v, p, hx, hy, hz, hfound, hv, -⟩ := hrow i hi
        simp [hx, hy, hz, hfound, hvs, hv])
      (le_refl _) Nat.one_pos (le_refl _) Nat.one_pos
  refine ⟨I, D, ?_, hIwf, hDwf, hIr, hIc, hDr, hDc, ?_⟩
  · rw [← hfold, ← hpts, ← hm']
    rfl
  · intro i hi
    obtain ⟨x, y, z, k, v, p, hx, hy, hz, hfound, hv, hlt, href, hpoint, hmin⟩ := hrow i hi
    obtain ⟨hIi, hDi⟩ := hget i hi
    refine ⟨x, y, z, v, p, hx, hy, hz, ?_, ?_, hlt, href, hpoint, hmin⟩
    · rw [hIi]
      simp [hx, hy, hz, hfound, hv]
    · rw [hDi]
      simp [hx, hy, hz, hfound, euclideanDistance]
/-- C18: under the contracts of the library calls (`remove_isolated_vertices`
marks exactly the vertices no face refers to, the neighbour search is exact,
the inverse transform of the distance is monotone), for a canonical mesh with
at least one face-referenced vertex `getNearestNeighbor` returns two columns
with one row per query point, and the distance in each row is the Euclidean
distance from the query to some face-referenced vertex and at most the
Euclidean distance from the query to every face-referenced vertex. -/
theorem getNearestNeighbor_nearest (lib : CGAL) (QP : Matrix) (self : AlphaShape3D)
    (hQ : QP.WF) (hQc : QP.cols = 3)
    (hiso : lib.removesIsolated self.surface_mesh) (hsearch : lib.exactSearch)
    (hmono : Monotone lib.inverse_of_transformed_distance)
    (hne : ∃ v, v < self.surface_mesh.vpoint.length ∧
      self.surface_mesh.faceReferenced v = true) :
    ∃ I D, ((AlphaShape3D.getNearestNeighbor lib QP).run self).1 = some (I, D) ∧
      I.numRows = QP.numRows ∧ I.numCols = 1 ∧ D.numRows = QP.numRows ∧ D.numCols = 1 ∧
      ∀ i, i < QP.numRows → ∃ (x y z d : ℚ),
        QP.get? i 0 = some x ∧ QP.get? i 1 = some y ∧ QP.get? i 2 = some z ∧
        D.get? i 0 = some d ∧
        (∃ (v : ℕ) (p : Point), self.surface_mesh.faceReferenced v = true ∧
          self.surface_mesh.point v = some p ∧ d = euclideanDistance lib ⟨x, y, z⟩ p) ∧
        ∀ (v' : ℕ) (p' : Point), self.surface_mesh.faceReferenced v' = true →
          self.surface_mesh.point v' = some p' →
          d ≤ euclideanDistance lib ⟨x, y, z⟩ p' := by
  obtain ⟨I, D, hres, -, -, hIr, hIc, hDr, hDc, hrows⟩ :=
    getNearestNeighbor_spec lib QP self hQ hQc hiso hsearch hne
  refine ⟨I, D, hres, hIr, hIc, hDr, hDc, ?_⟩
  intro i hi
  obtain ⟨x, y, z, v, p, hx, hy, hz, -, hD, -, href, hpoint, hmin⟩ := hrows i hi
  refine ⟨x, y, z, _, hx, hy, hz, hD, ⟨v, p, href, hpoint, rfl⟩, ?_⟩
  intro v' p' href' hpoint'
  have hlt : v' < self.surface_mesh.vpoint.length := by
    by_contra hge
    have hnone : self.surface_mesh.point v' = none := by
      simp only [Mesh.point]
      exact List.getElem?_eq_none (by omega)
    rw [hnone] at hpoint'
    exact Option.noConfusion hpoint'
  exact hmono (hmin v' p' hlt href' hpoint')

/-- Witness for C18: the mesh of the second example, whose vertex 0 at
`(1, 1, 1)` is isolated, and the query point `(1, 1, 1)`. -/
theorem getNearestNeighbor_nearest_witness :
    exampleCGALSqrt.removesIsolated starShape.surface_mesh ∧
    (∃ v, v < starShape.surface_mesh.vpoint.length ∧
      starShape.surface_mesh.faceReferenced v = true) ∧
    ∃ I D, ((AlphaShape3D.getNearestNeighbor exampleCGALSqrt ⟨[1, 1, 1], 1, 3⟩).run
        starShape).1 = some (I, D) ∧
      I.numRows = 1 ∧ I.numCols = 1 ∧ D.numRows = 1 ∧ D.numCols = 1 ∧
      ∀ i, i < 1 → ∃ (x y z d : ℚ),
        (⟨[1, 1, 1], 1, 3⟩ : Matrix).get? i 0 = some x ∧
        (⟨[1, 1, 1], 1, 3⟩ : Matrix).get? i 1 = some y ∧
        (⟨[1, 1, 1], 1, 3⟩ : Matrix).get? i 2 = some z ∧
        D.get? i 0 = some d ∧
        (∃ (v : ℕ) (p : Point), starShape.surface_mesh.faceReferenced v = true ∧
          starShape.surface_mesh.point v = some p ∧
          d = euclideanDistance exampleCGALSqrt ⟨x, y, z⟩ p) ∧
        ∀ (v' : ℕ) (p' : Point), starShape.surface_mesh.faceReferenced v' = true →
          starShape.surface_mesh.point v' = some p' →
          d ≤ euclideanDistance exampleCGALSqrt ⟨x, y, z⟩ p' :=
  ⟨by decide, ⟨1, by decide, by decide⟩,
    getNearestNeighbor_nearest exampleCGALSqrt ⟨[1, 1, 1], 1, 3⟩ starShape
      ⟨rfl, by decide⟩ rfl (by decide) exampleCGAL_exactSearch
      (fun a b h => fixedSqrt_mono a b h) ⟨1, by decide, by decide⟩⟩

/-- C19: under the contracts of `remove_isolated_vertices` and of the
neighbour search, for every query row the index `getNearestNeighbor` returns
is an index of a vertex of the canonical mesh itself (the index space before
the isolated vertices are dropped), a face of the canonical mesh refers to
that vertex, and the returned distance is the Euclidean distance from the
query point to the position of that vertex. -/
theorem getNearestNeighbor_index (lib : CGAL) (QP : Matrix) (self : AlphaShape3D)
    (hQ : QP.WF) (hQc : QP.cols = 3)
    (hiso : lib.removesIsolated self.surface_mesh) (hsearch : lib.exactSearch)
    (hne : ∃ v, v < self.surface_mesh.vpoint.length ∧
      self.surface_mesh.faceReferenced v = true) :
    ∃ I D, ((AlphaShape3D.getNearestNeighbor lib QP).run self).1 = some (I, D) ∧
      ∀ i, i < QP.numRows → ∃ (x y z : ℚ) (v : ℕ) (p : Point),
        QP.get? i 0 = some x ∧ QP.get? i 1 = some y ∧ QP.get? i 2 = some z ∧
        I.get? i 0 = some (v : ℚ) ∧
        v < self.surface_mesh.vpoint.length ∧
        self.surface_mesh.faceReferenced v = true ∧
        self.surface_mesh.point v = some p ∧
        D.get? i 0 = some (euclideanDistance lib ⟨x, y, z⟩ p) := by
  obtain ⟨I, D, hres, -, -, -, -, -, -, hrows⟩ :=
    getNearestNeighbor_spec lib QP self hQ hQc hiso hsearch hne
  refine ⟨I, D, hres, ?_⟩
  intro i hi
  obtain ⟨x, y, z, v, p, hx, hy, hz, hI, hD, hlt, href, hpoint, -⟩ := hrows i hi
  exact ⟨x, y, z, v, p, hx, hy, hz, hI, hlt, href, hpoint, hD⟩

/-- Witness for C19: the mesh of the second example and the two query points
`(1, 1, 1)` and `(0, 0, 5)`. -/
theorem getNearestNeighbor_index_witness :
    exampleCGAL.removesIsolated starShape.surface_mesh ∧
    ∃ I D, ((AlphaShape3D.getNearestNeighbor exampleCGAL ⟨[1, 1, 1, 0, 0, 5], 2, 3⟩).run
        starShape).1 = some (I, D) ∧
      ∀ i, i < 2 → ∃ (x y z : ℚ) (v : ℕ) (p : Point),
        (⟨[1, 1, 1, 0, 0, 5], 2, 3⟩ : Matrix).get? i 0 = some x ∧
        (⟨[1, 1, 1, 0, 0, 5], 2, 3⟩ : Matrix).get? i 1 = some y ∧
        (⟨[1, 1, 1, 0, 0, 5], 2, 3⟩ : Matrix).get? i 2 = some z ∧
        I.get? i 0 = some (v : ℚ) ∧
        v < starShape.surface_mesh.vpoint.length ∧
        starShape.surface_mesh.faceReferenced v = true ∧
        starShape.surface_mesh.point v = some p ∧
        D.get? i 0 = some (euclideanDistance exampleCGAL ⟨x, y, z⟩ p) :=
  ⟨by decide,
    getNearestNeighbor_index exampleCGAL ⟨[1, 1, 1, 0, 0, 5], 2, 3⟩ starShape
      ⟨rfl, by decide⟩ rfl (by decide) exampleCGAL_exactSearch ⟨1, by decide, by decide⟩⟩

/-! ### Reading back the text of `writeOff` -/

/-- The decimal digit characters: digits, no blank, and their values. -/
theorem digitChar_spec (k : ℕ) (hk : k < 10) :
    (Nat.digitChar k).isDigit = true ∧ Nat.digitChar k ≠ ' ' ∧
      (Nat.digitChar k).toNat - '0'.toNat = k := by
  interval_cases k <;> decide

/-- The digits `Nat.toDigitsCore` puts in front of `ds`: a non-empty list of
digit characters whose value is `n`. -/
theorem toDigitsCore_spec : ∀ (fuel n : ℕ) (ds : List Char), n < fuel →
    ∃ l, Nat.toDigitsCore 10 fuel n ds = l ++ ds ∧ l ≠ [] ∧
      (∀ c ∈ l, c.isDigit = true ∧ c ≠ ' ') ∧
      ∀ a, l.foldl (fun n c => n * 10 + (c.toNat - '0'.toNat)) a = a * 10 ^ l.length + n := by
  intro fuel
  induction fuel with
  | zero => intro n ds h; exact absurd h (Nat.not_lt_zero n)
  | succ fuel ih =>
    intro n ds h
    obtain ⟨hd, hs, hv⟩ := digitChar_spec (n % 10) (Nat.mod_lt n (by decide))
    rw [Nat.toDigitsCore]
    by_cases h0 : n / 10 = 0
    · refine ⟨[Nat.digitChar (n % 10)], by simp [h0], by simp, ?_, ?_⟩
      · intro c hc
        rw [List.mem_singleton] at hc
        subst hc
        exact ⟨hd, hs⟩
      · intro a
        simp only [List.foldl_cons, List.foldl_nil, hv, List.length_singleton, pow_one]
        omega
    · have hlt : n / 10 < fuel := by omega
      obtain ⟨l, hl, -, hall, hfold⟩ := ih (n / 10) (Nat.digitChar (n % 10) :: ds) hlt
      refine ⟨l ++ [Nat.digitChar (n % 10)], by simp [h0, hl], by simp, ?_, ?_⟩
      · intro c hc
        rcases List.mem_append.mp hc with hc | hc
        · exact hall c hc
        · rw [List.mem_singleton] at hc
          subst hc
          exact ⟨hd, hs⟩
      · intro a
        rw [List.foldl_append, hfold a]
        simp only [List.foldl_cons, List.foldl_nil, hv, List.length_append,
          List.length_singleton, pow_succ]
        nlinarith [Nat.div_add_mod n 10]

/-- The decimal text of a natural number is a non-empty token of digits
without a blank, and its value is the number. -/
theorem natText_spec (k : ℕ) :
    (toString k).data ≠ [] ∧ (∀ c ∈ (toString k).data, c ≠ ' ') ∧
      parseNat (toString k).data = some k := by
  obtain ⟨l, hl, hne, hall, hfold⟩ := toDigitsCore_spec (k + 1) k [] (Nat.lt_succ_self k)
  have hdata : (toString k).data = l := by
    show (Nat.toDigits 10 k).asString.data = l
    rw [Nat.toDigits, hl, List.append_nil]
    rfl
  rw [hdata]
  refine ⟨hne, fun c hc => (hall c hc).2, ?_⟩
  have hdig : l.all Char.isDigit = true := by
    rw [List.all_eq_true]
    exact fun c hc => (hall c hc).1
  simp only [parseNat, hne, hdig, ne_eq, not_false_eq_true, and_self, if_true]
  rw [hfold 0]
  simp

/-- The tokens of a line that joins tokens without a blank by single blanks
are those tokens. -/
theorem offTokens_join (line : String) (ts : List (List Char)) (hts : ts ≠ [])
    (hblank : ∀ t ∈ ts, ' ' ∉ t) (hline : line.data = [' '].intercalate ts) :
    offTokens line = ts := by
  rw [offTokens, hline]
  exact List.splitOn_intercalate ts ' ' hblank hts

/-- The reader reads the line of the counts back. -/
theorem parseOffCounts_line (n m : ℕ) :
    parseOffCounts (toString n ++ " " ++ toString m ++ " 0") = some (n, m) := by
  obtain ⟨-, hnb, hnv⟩ := natText_spec n
  obtain ⟨-, hmb, hmv⟩ := natText_spec m
  have htok : offTokens (toString n ++ " " ++ toString m ++ " 0")
      = [(toString n).data, (toString m).data, ['0']] := by
    apply offTokens_join
    · simp
    · intro t ht
      simp only [List.mem_cons, List.mem_singleton, List.not_mem_nil, or_false] at ht
      rcases ht with rfl | rfl | rfl
      · exact fun h => hnb _ h rfl
      · exact fun h => hmb _ h rfl
      · decide
    · simp [List.intercalate, List.intersperse]
  have h0 : parseNat ['0'] = some 0 := by decide
  simp [parseOffCounts, htok, hnv, hmv, h0]

/-- The reader reads a face line back. -/
theorem parseOffFace_line (a b c : ℕ) :
    parseOffFace ("3 " ++ toString a ++ " " ++ toString b ++ " " ++ toString c)
      = some [a, b, c] := by
  obtain ⟨-, hab, hav⟩ := natText_spec a
  obtain ⟨-, hbb, hbv⟩ := natText_spec b
  obtain ⟨-, hcb, hcv⟩ := natText_spec c
  have htok : offTokens ("3 " ++ toString a ++ " " ++ toString b ++ " " ++ toString c)
      = [['3'], (toString a).data, (toString b).data, (toString c).data] := by
    apply offTokens_join
    · simp
    · intro t ht
      simp only [List.mem_cons, List.mem_singleton, List.not_mem_nil, or_false] at ht
      rcases ht with rfl | rfl | rfl | rfl
      · decide
      · exact fun h => hab _ h rfl
      · exact fun h => hbb _ h rfl
      · exact fun h => hcb _ h rfl
    · simp [List.intercalate, List.intersperse]
  have h3 : parseNat ['3'] = some 3 := by decide
  simp [parseOffFace, htok, hav, hbv, hcv, h3]

/-- A line of three non-empty texts without a blank is a point line. -/
theorem isOffPointLine_line (x y z : String) (hx : x.data ≠ [] ∧ ' ' ∉ x.data)
    (hy : y.data ≠ [] ∧ ' ' ∉ y.data) (hz : z.data ≠ [] ∧ ' ' ∉ z.data) :
    isOffPointLine (x ++ " " ++ y ++ " " ++ z) = true := by
  have htok : offTokens (x ++ " " ++ y ++ " " ++ z) = [x.data, y.data, z.data] := by
    apply offTokens_join
    · simp
    · intro t ht
      simp only [List.mem_cons, List.mem_singleton, List.not_mem_nil, or_false] at ht
      rcases ht with rfl | rfl | rfl
      · exact hx.2
      · exact hy.2
      · exact hz.2
    · simp [List.intercalate, List.intersperse]
  simp [isOffPointLine, htok, hx.1, hy.1, hz.1]

/-- A `mapM` over the image of a list under `g` of reads that all succeed. -/
theorem mapM_map_some {α β γ : Type} (f : β → Option γ) (g : α → β) (h : α → γ)
    (l : List α) (hf : ∀ x ∈ l, f (g x) = some (h x)) :
    (l.map g).mapM f = some (l.map h) := by
  induction l with
  | nil => rfl
  | cons x xs ih =>
    rw [List.map_cons, List.mapM_cons, hf x (List.mem_cons_self _ _),
      ih (fun y hy => hf y (List.mem_cons_of_mem _ hy))]
    rfl

/-- C12: the text `writeOff` writes for a points matrix and a faces matrix
whose entries hold indices `idx i j` (the text of a `double` being a non-empty
token without a blank) is read back by the reader `parseOff` of the format:
the point count read is the number of rows of the points, the face count read
is the number of rows of the faces, and the faces read hold, in order, the
three indices of each row in order. -/
theorem writeOff_round_trip (fmt : ℚ → String) (Points bf : Matrix)
    (hP : Points.WF) (hPc : Points.cols = 3) (hF : bf.WF) (hFc : bf.cols = 3)
    (hfmt : ∀ q, (fmt q).data ≠ [] ∧ ' ' ∉ (fmt q).data)
    (idx : ℕ → ℕ → ℕ)
    (hidx : ∀ i j, i < bf.numRows → j < 3 →
      bf.get? i j = some (idx i j : ℚ) ∧ idx i j < 18446744073709551616) :
    ∃ lines, writeOff fmt Points bf = some lines ∧
      parseOff lines = some (Points.numRows, bf.numRows,
        (List.range bf.numRows).map (fun i => [idx i 0, idx i 1, idx i 2])) := by
  refine ⟨_, writeOff_eq fmt Points bf hP hPc hF hFc, ?_⟩
  have hfaces : ((List.range bf.numRows).map (offFaceLine bf)).mapM parseOffFace
      = some ((List.range bf.numRows).map (fun i => [idx i 0, idx i 1, idx i 2])) := by
    apply mapM_map_some
    intro i hi
    have hi' := List.mem_range.mp hi
    obtain ⟨h0, b0⟩ := hidx i 0 hi' (by decide)
    obtain ⟨h1, b1⟩ := hidx i 1 hi' (by decide)
    obtain ⟨h2, b2⟩ := hidx i 2 hi' (by decide)
    simp only [offFaceLine, h0, h1, h2, Option.getD_some, toUInt64_natCast _ b0,
      toUInt64_natCast _ b1, toUInt64_natCast _ b2]
    exact parseOffFace_line _ _ _
  have hpts : ((List.range Points.numRows).map (offPointLine fmt Points)).all isOffPointLine
      = true := by
    rw [List.all_eq_true]
    intro l hl
    obtain ⟨i, -, rfl⟩ := List.mem_map.mp hl
    exact isOffPointLine_line _ _ _ (hfmt _) (hfmt _) (hfmt _)
  have htake : ((List.range Points.numRows).map (offPointLine fmt Points)
      ++ (List.range bf.numRows).map (offFaceLine bf)).take Points.numRows
      = (List.range Points.numRows).map (offPointLine fmt Points) :=
    List.take_left' (by simp)
  have hdrop : ((List.range Points.numRows).map (offPointLine fmt Points)
      ++ (List.range bf.numRows).map (offFaceLine bf)).drop Points.numRows
      = (List.range bf.numRows).map (offFaceLine bf) :=
    List.drop_left' (by simp)
  show parseOff ("OFF" :: (toString Points.numRows ++ " " ++ toString bf.numRows ++ " 0")
    :: ((List.range Points.numRows).map (offPointLine fmt Points)
      ++ (List.range bf.numRows).map (offFaceLine bf))) = _
  simp only [parseOff, parseOffCounts_line, htake, hdrop, hpts, hfaces, if_true,
    List.length_append, List.length_map, List.length_range, and_self, Option.some_bind,
    Option.bind_eq_bind, Option.pure_def]

/-- The text of a natural number as the text of a `double`: a non-empty token
without a blank. -/
theorem toUInt64_text (q : ℚ) :
    (toString (toUInt64 q)).data ≠ [] ∧ ' ' ∉ (toString (toUInt64 q)).data :=
  ⟨(natText_spec _).1, fun h => (natText_spec _).2.1 _ h rfl⟩

/-- Witness for C12: the two triangles of six points. -/
theorem writeOff_round_trip_witness :
    twoTrianglesPoints.WF ∧ twoTrianglesFacets.WF ∧
    ∃ lines, writeOff (fun q => toString (toUInt64 q)) twoTrianglesPoints
        twoTrianglesFacets = some lines ∧
      parseOff lines = some (twoTrianglesPoints.numRows, twoTrianglesFacets.numRows,
        (List.range twoTrianglesFacets.numRows).map
          (fun i => [3 * i + 0, 3 * i + 1, 3 * i + 2])) :=
  ⟨⟨rfl, by decide⟩, ⟨rfl, by decide⟩,
    writeOff_round_trip (fun q => toString (toUInt64 q)) twoTrianglesPoints
      twoTrianglesFacets ⟨rfl, by decide⟩ rfl ⟨rfl, by decide⟩ rfl toUInt64_text
      (fun i j => 3 * i + j)
      (by
        intro i j hi hj
        have hi' : i < 2 := hi
        interval_cases i <;> interval_cases j <;> exact ⟨by decide, by decide⟩)⟩

/-- The text `writeOff` writes for the two triangles, and what the reader
reads from it. -/
theorem writeOff_twoTriangles :
    writeOff (fun q => toString (toUInt64 q)) twoTrianglesPoints twoTrianglesFacets
      = some ["OFF", "6 2 0", "5 0 0", "6 0 0", "5 1 0", "8 0 0", "9 0 0", "8 1 0",
        "3 0 1 2", "3 3 4 5"] ∧
    parseOff ["OFF", "6 2 0", "5 0 0", "6 0 0", "5 1 0", "8 0 0", "9 0 0", "8 1 0",
        "3 0 1 2", "3 3 4 5"] = some (6, 2, [[0, 1, 2], [3, 4, 5]]) := by
  decide

/-! ### The storage of a `CustomMatrix` -/

/-- C28: in a `CustomMatrix` of `r` rows and `c` columns whose storage holds
`r * c` entries with `r * c < 2^32`, an index pair `(i, j)` with `i < r` and
`j < c` is stored at offset `i * c + j`, which is smaller than `r * c`;
different in-range pairs have different offsets; and after a write of `v` at
`(i, j)` a read of `(i, j)` gives `v` while a read of any other in-range pair
gives what it held before. -/
theorem CustomMatrix_storage {T : Type} (m : CustomMatrix T) (hWF : m.WF) :
    (∀ i j, i < m.rows → j < m.cols →
      m.offset i j = i * m.cols + j ∧ m.offset i j < m.rows * m.cols) ∧
    (∀ i j i' j', i < m.rows → j < m.cols → i' < m.rows → j' < m.cols →
      m.offset i j = m.offset i' j' → i = i' ∧ j = j') ∧
    ∀ i j (v : T), i < m.rows → j < m.cols →
      (m.set i j v).get? i j = some v ∧
      ∀ i' j', i' < m.rows → j' < m.cols → ¬ (i = i' ∧ j = j') →
        (m.set i j v).get? i' j' = m.get? i' j' := by
  refine ⟨?_, ?_, ?_⟩
  · intro i j hi hj
    rw [m.offset_eq hWF hi hj]
    exact ⟨rfl, CustomMatrix.index_lt hi hj⟩
  · intro i j i' j' hi hj hi' hj' h
    rw [m.offset_eq hWF hi hj, m.offset_eq hWF hi' hj'] at h
    exact CustomMatrix.index_inj hj hj' h
  · intro i j v hi hj
    exact ⟨m.get?_set_self hWF hi hj v,
      fun i' j' hi' hj' hne => m.get?_set_other hWF hi hj hi' hj' hne v⟩

/-- Witness for C28: the 2 x 3 matrix of the two facets. -/
theorem CustomMatrix_storage_witness :
    twoTrianglesFacets.WF ∧
    twoTrianglesFacets.offset 1 2 = 1 * 3 + 2 ∧
    (twoTrianglesFacets.set 1 2 9).get? 1 2 = some 9 ∧
    (twoTrianglesFacets.set 1 2 9).get? 0 2 = twoTrianglesFacets.get? 0 2 :=
  have h := CustomMatrix_storage twoTrianglesFacets ⟨rfl, by decide⟩
  ⟨⟨rfl, by decide⟩, (h.1 1 2 (by decide) (by decide)).1,
    (h.2.2 1 2 9 (by decide) (by decide)).1,
    (h.2.2 1 2 9 (by decide) (by decide)).2 0 2 (by decide) (by decide) (by decide)⟩

/-! ### The local indices of a facet in `setAlpha` -/

/-- C23: for every local index `s` of the opposite vertex, the three local
indices `setAlpha` reads the facet with are pairwise different, each lies in
`0..3`, none is `s`, and each local index other than `s` is among them; so
for a cell whose four vertices carry different ids the polygon pushed for the
facet consists of three different vertex ids, the ids of the facet. -/
theorem setAlpha_facet_indices (s : Fin 4) (t : Triangulation) (c : ℕ)
    (hids : Function.Injective (fun j : Fin 4 => t.info ((t.cell c).vertex j))) :
    (facetIndices s.val).length = 3 ∧ (facetIndices s.val).Nodup ∧
    (∀ j ∈ facetIndices s.val, j < 4 ∧ j ≠ s.val) ∧
    (∀ k : Fin 4, k ≠ s → k.val ∈ facetIndices s.val) ∧
    (facetPolygon t ⟨c, s⟩).length = 3 ∧ (facetPolygon t ⟨c, s⟩).Nodup ∧
    ∀ v, v ∈ facetPolygon t ⟨c, s⟩ ↔ v ∈ t.facetVertices ⟨c, s⟩ := by
  have htable : (facetIndices s.val).length = 3 ∧ (facetIndices s.val).Nodup ∧
      (∀ j ∈ facetIndices s.val, j < 4 ∧ j ≠ s.val) ∧
      (∀ k : Fin 4, k ≠ s → k.val ∈ facetIndices s.val) := by
    revert s
    decide
  refine ⟨htable.1, htable.2.1, htable.2.2.1, htable.2.2.2, ?_, ?_,
    mem_facetPolygon t ⟨c, s⟩⟩
  · simp [facetPolygon, htable.1]
  · have hcases : ∀ k : Fin 4, k = 0 ∨ k = 1 ∨ k = 2 ∨ k = 3 := by decide
    have h01 := hids.ne (show (0 : Fin 4) ≠ 1 by decide)
    have h02 := hids.ne (show (0 : Fin 4) ≠ 2 by decide)
    have h03 := hids.ne (show (0 : Fin 4) ≠ 3 by decide)
    have h12 := hids.ne (show (1 : Fin 4) ≠ 2 by decide)
    have h13 := hids.ne (show (1 : Fin 4) ≠ 3 by decide)
    have h23 := hids.ne (show (2 : Fin 4) ≠ 3 by decide)
    have f0 : facetIndices (0 : Fin 4).val = [2, 1, 3] := by decide
    have f1 : facetIndices (1 : Fin 4).val = [2, 3, 0] := by decide
    have f2 : facetIndices (2 : Fin 4).val = [0, 3, 1] := by decide
    have f3 : facetIndices (3 : Fin 4).val = [0, 1, 2] := by decide
    simp only at h01 h02 h03 h12 h13 h23
    rcases hcases s with rfl | rfl | rfl | rfl
    · simp only [facetPolygon, f0, List.map]
      simp only [List.nodup_cons, List.mem_cons, List.mem_singleton, List.not_mem_nil,
        not_or, List.nodup_nil, not_false_eq_true, and_true]
      exact ⟨⟨Ne.symm h12, h23⟩, h13⟩
    · simp only [facetPolygon, f1, List.map]
      simp only [List.nodup_cons, List.mem_cons, List.mem_singleton, List.not_mem_nil,
        not_or, List.nodup_nil, not_false_eq_true, and_true]
      exact ⟨⟨h23, Ne.symm h02⟩, Ne.symm h03⟩
    · simp only [facetPolygon, f2, List.map]
      simp only [List.nodup_cons, List.mem_cons, List.mem_singleton, List.not_mem_nil,
        not_or, List.nodup_nil, not_false_eq_true, and_true]
      exact ⟨⟨h03, h01⟩, Ne.symm h13⟩
    · simp only [facetPolygon, f3, List.map]
      simp only [List.nodup_cons, List.mem_cons, List.mem_singleton, List.not_mem_nil,
        not_or, List.nodup_nil, not_false_eq_true, and_true]
      exact ⟨⟨h01, h02⟩, h12⟩

/-- Witness for C23: the facet opposite vertex 2 of the finite cell of the
triangulation of four points; its polygon is `(0, 3, 1)`. -/
theorem setAlpha_facet_indices_witness :
    Function.Injective
      (fun j : Fin 4 => tetraTriangulation.info ((tetraTriangulation.cell 4).vertex j)) ∧
    facetIndices 2 = [0, 3, 1] ∧
    facetPolygon tetraTriangulation ⟨4, 2⟩ = [0, 3, 1] ∧
    (facetPolygon tetraTriangulation ⟨4, 2⟩).Nodup :=
  ⟨by decide, by decide, by decide,
    (setAlpha_facet_indices 2 tetraTriangulation 4 (by decide)).2.2.2.2.2.1⟩

/-! ### The spectrum `getAlphaSpectrum` hands out -/

/-- In a strictly ascending list exactly `i` entries are smaller than entry
`i`: it is the `(i+1)`-th smallest. -/
theorem filter_lt_getElem_length (l : List ℚ) (hl : l.Pairwise (fun x y => x < y)) :
    ∀ (i : ℕ) (hi : i < l.length), (l.filter (fun w => decide (w < l[i]))).length = i := by
  induction l with
  | nil => intro i hi; exact absurd hi (Nat.not_lt_zero i)
  | cons x xs ih =>
    intro i hi
    obtain ⟨hx, hxs⟩ := List.pairwise_cons.mp hl
    cases i with
    | zero =>
      have hnil : (x :: xs).filter (fun w => decide (w < x)) = [] := by
        rw [List.filter_eq_nil_iff]
        intro w hw
        rcases List.mem_cons.mp hw with rfl | hw
        · simp
        · simpa using le_of_lt (hx w hw)
      simp only [List.getElem_cons_zero, hnil, List.length_nil]
    | succ j =>
      have hj : j < xs.length := by simpa using hi
      have hlt : x < xs[j] := hx _ (List.getElem_mem hj)
      simp only [List.getElem_cons_succ, List.filter_cons, hlt, decide_True, if_true,
        List.length_cons, ih hxs j hj]

/-- A successful `NewShapeJS` leaves an alpha shape object and its number of
alpha values in `numAlphaValues`. -/
theorem NewShapeJS_numAlphaValues (lib : CGALBuild) (info : List JsValue)
    (self : AlphaShape3D)
    (hok : ((AlphaShape3D.NewShapeJS lib info).run self).1 = some (Except.ok ())) :
    ∃ as3, ((AlphaShape3D.NewShapeJS lib info).run self).2.alphaShape = some as3 ∧
      ((AlphaShape3D.NewShapeJS lib info).run self).2.numAlphaValues
        = as3.number_of_alphas := by
  revert hok
  unfold AlphaShape3D.NewShapeJS
  split
  · simp only [StateT.run, bind, StateT.bind, modify, modifyGet,
      MonadStateOf.modifyGet, StateT.modifyGet, get, getThe, MonadStateOf.get, StateT.get,
      set, StateT.set, pure, StateT.pure]
    generalize ingestPoints _ _ = ing
    obtain ⟨M, err⟩ := ing
    cases err with
    | some e =>
      intro hok
      simp [StateT.pure] at hok
    | none =>
      cases hb : buildVertices M [] [] with
      | none => simp [StateT.bind, StateT.get, StateT.pure, hb]
      | some built => simp [StateT.bind, StateT.get, StateT.set, StateT.pure, hb]
  · intro hok
    simp [StateT.run, pure, StateT.pure] at hok

/-- The row `getAlphaSpectrum` returns in a state that holds an alpha shape
and its number of alpha values: `1 x N`, entry `(0, i)` is
`get_nth_alpha(i + 1)`, which in an ascending spectrum has exactly `i` smaller
values. -/
theorem getAlphaSpectrum_nth (self : AlphaShape3D) (as3 : As3)
    (hbuilt : self.alphaShape = some as3)
    (hnum : self.numAlphaValues = as3.number_of_alphas)
    (hsize : as3.number_of_alphas < 4294967296) :
    ∃ a, self.getAlphaSpectrum = some a ∧ a.numRows = 1 ∧
      a.numCols = as3.number_of_alphas ∧
      ∀ i, i < as3.number_of_alphas → ∃ v, as3.get_nth_alpha (i + 1) = some v ∧
        a.get? 0 i = some v ∧
        (as3.alpha_spectrum.Pairwise (fun x y => x < y) →
          (as3.alpha_spectrum.filter (fun w => decide (w < v))).length = i) := by
  obtain ⟨a, ha, hr, hc, hget⟩ :=
    getAlphaSpectrum_entries self as3 hbuilt hnum (by rw [hnum]; exact hsize)
  refine ⟨a, ha, hr, by rw [hc, hnum], ?_⟩
  intro i hi
  have hlt : i < as3.alpha_spectrum.length := hi
  refine ⟨as3.alpha_spectrum[i], ?_, ?_, ?_⟩
  · simp [As3.get_nth_alpha, List.getElem?_eq_getElem hlt]
  · rw [hget i (by rw [hnum]; exact hi), List.getElem?_eq_getElem hlt]
  · intro hasc
    exact filter_lt_getElem_length _ hasc i hlt

/-- The alpha shape object and the number of alpha values after `setAlpha` on
a built shape: the object with the new alpha, the number unchanged. -/
theorem setAlpha_state (lib : CGAL) (alpha : ℚ) (self : AlphaShape3D) (as3 : As3)
    (hbuilt : self.alphaShape = some as3) :
    ((AlphaShape3D.setAlpha lib alpha).run self).2.alphaShape = some (as3.set_alpha alpha) ∧
    ((AlphaShape3D.setAlpha lib alpha).run self).2.numAlphaValues = self.numAlphaValues := by
  simp [AlphaShape3D.setAlpha, StateT.run, bind, StateT.bind, modify, modifyGet,
    MonadStateOf.modifyGet, StateT.modifyGet, get, getThe, MonadStateOf.get, StateT.get,
    set, StateT.set, pure, StateT.pure, hbuilt]

/-- C24: after a successful `newShape`, and after any `setAlpha` that follows
it, `getAlphaSpectrum()` returns a `1 x N` matrix with `N` the number of alpha
values of the alpha shape recorded by `newShape`; for every `i < N` entry
`(0, i)` is `get_nth_alpha(i + 1)`, the value with exactly `i` smaller values
in the ascending spectrum.  The indices queried are `1..N`: index 0 is not
queried and the `N`-th value is in column `N - 1`. -/
theorem getAlphaSpectrum_whole_spectrum (build : CGALBuild) (lib : CGAL)
    (info : List JsValue) (self : AlphaShape3D)
    (hok : ((AlphaShape3D.NewShapeJS build info).run self).1 = some (Except.ok ())) :
    ∃ as3, ((AlphaShape3D.NewShapeJS build info).run self).2.alphaShape = some as3 ∧
      ((AlphaShape3D.NewShapeJS build info).run self).2.numAlphaValues
        = as3.number_of_alphas ∧
      (as3.number_of_alphas < 4294967296 →
        (∃ a, ((AlphaShape3D.NewShapeJS build info).run self).2.getAlphaSpectrum = some a ∧
          a.numRows = 1 ∧ a.numCols = as3.number_of_alphas ∧
          ∀ i, i < as3.number_of_alphas → ∃ v, as3.get_nth_alpha (i + 1) = some v ∧
            a.get? 0 i = some v ∧
            (as3.alpha_spectrum.Pairwise (fun x y => x < y) →
              (as3.alpha_spectrum.filter (fun w => decide (w < v))).length = i)) ∧
        ∀ alpha : ℚ, ∃ a,
          ((AlphaShape3D.setAlpha lib alpha).run
            ((AlphaShape3D.NewShapeJS build info).run self).2).2.getAlphaSpectrum = some a ∧
          a.numRows = 1 ∧ a.numCols = as3.number_of_alphas ∧
          ∀ i, i < as3.number_of_alphas → ∃ v, as3.get_nth_alpha (i + 1) = some v ∧
            a.get? 0 i = some v) := by
  obtain ⟨as3, hshape, hnum⟩ := NewShapeJS_numAlphaValues build info self hok
  refine ⟨as3, hshape, hnum, ?_⟩
  intro hsize
  refine ⟨getAlphaSpectrum_nth _ as3 hshape hnum hsize, ?_⟩
  intro alpha
  have hstate := (setAlpha_state lib alpha _ as3 hshape)
  obtain ⟨a, ha, hr, hc, hget⟩ := getAlphaSpectrum_nth
    ((AlphaShape3D.setAlpha lib alpha).run
      ((AlphaShape3D.NewShapeJS build info).run self).2).2 (as3.set_alpha alpha)
    hstate.1 (by rw [hstate.2]; exact hnum) hsize
  refine ⟨a, ha, hr, hc, ?_⟩
  intro i hi
  obtain ⟨v, hv, hav, -⟩ := hget i hi
  exact ⟨v, hv, hav⟩

/-- Witness for C24: `newShape` with the four points of the tetrahedron on a
new instance. -/
theorem getAlphaSpectrum_whole_spectrum_witness :
    ((AlphaShape3D.NewShapeJS exampleBuild [JsValue.array (tetraPoints.map jsPoint)]).run
      AlphaShape3D.init).1 = some (Except.ok ()) ∧
    ∃ as3,
      ((AlphaShape3D.NewShapeJS exampleBuild [JsValue.array (tetraPoints.map jsPoint)]).run
        AlphaShape3D.init).2.alphaShape = some as3 ∧
      ((AlphaShape3D.NewShapeJS exampleBuild [JsValue.array (tetraPoints.map jsPoint)]).run
        AlphaShape3D.init).2.numAlphaValues = as3.number_of_alphas :=
  ⟨rfl, (getAlphaSpectrum_whole_spectrum exampleBuild exampleCGAL
    [JsValue.array (tetraPoints.map jsPoint)] AlphaShape3D.init rfl).imp
    (fun _ h => ⟨h.1, h.2.1⟩)⟩

/-- The spectrum handed out for the tetrahedron: the three alpha values of
its alpha shape, in order. -/
theorem getAlphaSpectrum_tetra :
    ((AlphaShape3D.NewShapeJS exampleBuild [JsValue.array (tetraPoints.map jsPoint)]).run
      AlphaShape3D.init).2.getAlphaSpectrum = some ⟨[1 / 4, 1 / 2, 3 / 4], 1, 3⟩ := by
  rfl

/-! ### The matrix of the triangulation -/

/-- Three writes to one row of a three-column matrix: the row holds the three
values, the other rows are as before. -/
theorem CustomMatrix.set_row3 (M : Matrix) (hwf : M.WF) (hc : M.cols = 3) {r : ℕ}
    (hr : r < M.rows) (a b c : ℚ) :
    (((M.set r 0 a).set r 1 b).set r 2 c).WF ∧
    (((M.set r 0 a).set r 1 b).set r 2 c).rows = M.rows ∧
    (((M.set r 0 a).set r 1 b).set r 2 c).cols = M.cols ∧
    (((M.set r 0 a).set r 1 b).set r 2 c).row3? r = some [a, b, c] ∧
    ∀ r', r' < M.rows → r' ≠ r →
      (((M.set r 0 a).set r 1 b).set r 2 c).row3? r' = M.row3? r' := by
  have h0 : 0 < M.cols := by omega
  have h1 : 1 < M.cols := by omega
  have h2 : 2 < M.cols := by omega
  have hwf1 := M.set_WF r 0 a hwf
  have hwf2 := (M.set r 0 a).set_WF r 1 b hwf1
  have hwf3 := ((M.set r 0 a).set r 1 b).set_WF r 2 c hwf2
  refine ⟨hwf3, rfl, rfl, ?_, ?_⟩
  · simp only [CustomMatrix.row3?]
    rw [CustomMatrix.get?_set_other _ hwf2 hr h2 hr h0 (by omega),
      CustomMatrix.get?_set_other _ hwf1 hr h1 hr h0 (by omega),
      CustomMatrix.get?_set_self _ hwf hr h0,
      CustomMatrix.get?_set_other _ hwf2 hr h2 hr h1 (by omega),
      CustomMatrix.get?_set_self _ hwf1 hr h1,
      CustomMatrix.get?_set_self _ hwf2 hr h2]
    rfl
  · intro r' hr' hne
    simp only [CustomMatrix.row3?]
    rw [CustomMatrix.get?_set_other _ hwf2 hr h2 hr' h0 (by omega),
      CustomMatrix.get?_set_other _ hwf1 hr h1 hr' h0 (by omega),
      CustomMatrix.get?_set_other _ hwf hr h0 hr' h0 (by omega),
      CustomMatrix.get?_set_other _ hwf2 hr h2 hr' h1 (by omega),
      CustomMatrix.get?_set_other _ hwf1 hr h1 hr' h1 (by omega),
      CustomMatrix.get?_set_other _ hwf hr h0 hr' h1 (by omega),
      CustomMatrix.get?_set_other _ hwf2 hr h2 hr' h2 (by omega),
      CustomMatrix.get?_set_other _ hwf1 hr h1 hr' h2 (by omega),
      CustomMatrix.get?_set_other _ hwf hr h0 hr' h2 (by omega)]

/-- The loop of `fillTriangulationMatrix` is the fold of `fillCell` over the
finite cells. -/
theorem fillTriangulationMatrix_eq (dt : Dt) (M : Matrix) :
    fillTriangulationMatrix dt M = (dt.finite_cells.foldl (fillCell dt.tds) (M, 0)).1 := rfl

/-- One pass of the loop body: rows `i .. i+3` hold the ids of the four
vertex triples of the cell, the rows outside are as before, the counter
advances by 4. -/
theorem fillCell_spec (tds : Triangulation) (M : Matrix) (hwf : M.WF) (hc : M.cols = 3)
    (i : ℕ) (hi : i + 3 < M.rows) (cit : ℕ) :
    (fillCell tds (M, i) cit).2 = i + 4 ∧
    (fillCell tds (M, i) cit).1.WF ∧
    (fillCell tds (M, i) cit).1.rows = M.rows ∧
    (fillCell tds (M, i) cit).1.cols = 3 ∧
    (∀ r, r < 4 → (fillCell tds (M, i) cit).1.row3? (i + r) = some ((cellRowTriple r).map
      (fun k => ((tds.info ((tds.cell cit).vertex k) : ℕ) : ℚ)))) ∧
    ∀ r', r' < M.rows → (r' < i ∨ i + 3 < r') →
      (fillCell tds (M, i) cit).1.row3? r' = M.row3? r' := by
  have hrows : M.rows < 4294967296 := by
    obtain ⟨-, h⟩ := hwf
    rw [hc] at h
    omega
  have hu0 : u32 i = i := Nat.mod_eq_of_lt (by omega)
  have hu1 : u32 (i + 1) = i + 1 := Nat.mod_eq_of_lt (by omega)
  have hu2 : u32 (i + 1 + 1) = i + 2 := Nat.mod_eq_of_lt (by omega)
  have hu3 : u32 (i + 1 + 1 + 1) = i + 3 := Nat.mod_eq_of_lt (by omega)
  obtain ⟨v, hv⟩ : ∃ v : Fin 4 → ℚ,
      v = fun k => ((tds.info ((tds.cell cit).vertex k) : ℕ) : ℚ) := ⟨_, rfl⟩
  have hcell : fillCell tds (M, i) cit =
      (((((((((((((M.set i 0 (v 0)).set i 1 (v 1)).set i 2 (v 2)).set (i + 1) 0
        (v 0)).set (i + 1) 1 (v 2)).set (i + 1) 2 (v 3)).set (i + 2) 0 (v 1)).set (i + 2) 1
        (v 2)).set (i + 2) 2 (v 3)).set (i + 3) 0 (v 0)).set (i + 3) 1 (v 1)).set (i + 3) 2
        (v 3)), i + 4) := by
    subst hv
    simp only [fillCell, hu0, hu1, hu2, hu3]
  rw [hcell, ← hv]
  obtain ⟨w1, r1, c1, g1, o1⟩ := CustomMatrix.set_row3 M hwf hc (show i < M.rows by omega)
    (v 0) (v 1) (v 2)
  generalize ((M.set i 0 (v 0)).set i 1 (v 1)).set i 2 (v 2) = M1 at w1 r1 c1 g1 o1 ⊢
  obtain ⟨w2, r2, c2, g2, o2⟩ := CustomMatrix.set_row3 M1 w1 (by rw [c1, hc])
    (show i + 1 < M1.rows by omega) (v 0) (v 2) (v 3)
  generalize ((M1.set (i + 1) 0 (v 0)).set (i + 1) 1 (v 2)).set (i + 1) 2 (v 3) = M2
    at w2 r2 c2 g2 o2 ⊢
  obtain ⟨w3, r3, c3, g3, o3⟩ := CustomMatrix.set_row3 M2 w2 (by rw [c2, c1, hc])
    (show i + 2 < M2.rows by omega) (v 1) (v 2) (v 3)
  generalize ((M2.set (i + 2) 0 (v 1)).set (i + 2) 1 (v 2)).set (i + 2) 2 (v 3) = M3
    at w3 r3 c3 g3 o3 ⊢
  obtain ⟨w4, r4, c4, g4, o4⟩ := CustomMatrix.set_row3 M3 w3 (by rw [c3, c2, c1, hc])
    (show i + 3 < M3.rows by omega) (v 0) (v 1) (v 3)
  generalize ((M3.set (i + 3) 0 (v 0)).set (i + 3) 1 (v 1)).set (i + 3) 2 (v 3) = M4
    at w4 r4 c4 g4 o4 ⊢
  refine ⟨rfl, w4, (by show M4.rows = M.rows; omega), (by show M4.cols = 3; omega), ?_, ?_⟩
  · intro r hr
    interval_cases r
    · rw [o4 _ (by omega) (by omega), o3 _ (by omega) (by omega),
        o2 _ (by omega) (by omega), Nat.add_zero, g1]
      rfl
    · rw [o4 _ (by omega) (by omega), o3 _ (by omega) (by omega), g2]
      rfl
    · rw [o4 _ (by omega) (by omega), g3]
      rfl
    · rw [g4]
      rfl
  · intro r' hr' hout
    rw [o4 _ (by omega) (by omega), o3 _ (by omega) (by omega),
      o2 _ (by omega) (by omega), o1 _ (by omega) (by omega)]

/-- The loop of lines 196-215 on a matrix of `4 * cells` rows and 3 columns:
for the `k`-th finite cell, row `4 * k + r` holds the ids of the vertex triple
`cellRowTriple r` of the cell. -/
theorem fillTriangulationMatrix_spec (dt : Dt) (M : Matrix) (hwf : M.WF) (hc : M.cols = 3)
    (hr : M.rows = dt.number_of_finite_cells * 4) :
    (fillTriangulationMatrix dt M).WF ∧
    (fillTriangulationMatrix dt M).rows = M.rows ∧
    (fillTriangulationMatrix dt M).cols = 3 ∧
    ∀ k (hk : k < dt.finite_cells.length) r, r < 4 →
      (fillTriangulationMatrix dt M).row3? (4 * k + r) = some ((cellRowTriple r).map
        (fun j => ((dt.tds.info ((dt.tds.cell dt.finite_cells[k]).vertex j) : ℕ) : ℚ))) := by
  have key : ∀ n, n ≤ dt.finite_cells.length →
      ((dt.finite_cells.take n).foldl (fillCell dt.tds) (M, 0)).2 = 4 * n ∧
      ((dt.finite_cells.take n).foldl (fillCell dt.tds) (M, 0)).1.WF ∧
      ((dt.finite_cells.take n).foldl (fillCell dt.tds) (M, 0)).1.rows = M.rows ∧
      ((dt.finite_cells.take n).foldl (fillCell dt.tds) (M, 0)).1.cols = 3 ∧
      ∀ k (hk : k < dt.finite_cells.length), k < n → ∀ r, r < 4 →
        ((dt.finite_cells.take n).foldl (fillCell dt.tds) (M, 0)).1.row3? (4 * k + r)
          = some ((cellRowTriple r).map
            (fun j => ((dt.tds.info ((dt.tds.cell dt.finite_cells[k]).vertex j) : ℕ) : ℚ))) := by
    intro n
    induction n with
    | zero =>
      intro _
      exact ⟨rfl, hwf, rfl, hc, fun k _ hk => absurd hk (Nat.not_lt_zero k)⟩
    | succ n ih =>
      intro hn
      have hn' : n < dt.finite_cells.length := by omega
      obtain ⟨h2, hw, hrows, hcols, hget⟩ := ih (by omega)
      rw [List.take_succ, List.getElem?_eq_getElem hn', Option.toList_some,
        List.foldl_append, List.foldl_cons, List.foldl_nil]
      generalize (dt.finite_cells.take n).foldl (fillCell dt.tds) (M, 0) = st
        at h2 hw hrows hcols hget
      obtain ⟨M', i⟩ := st
      simp only at h2 hw hrows hcols hget
      subst h2
      have hlen : dt.number_of_finite_cells = dt.finite_cells.length := rfl
      obtain ⟨s2, sw, sr, sc, sget, sother⟩ := fillCell_spec dt.tds M' hw hcols (4 * n)
        (by rw [hrows, hr, hlen]; omega) dt.finite_cells[n]
      refine ⟨by rw [s2]; ring, sw, by rw [sr, hrows], sc, ?_⟩
      intro k hk hkn r hr4
      by_cases hkn' : k = n
      · subst hkn'
        exact sget r hr4
      · rw [sother (4 * k + r) (by rw [hrows, hr, hlen]; omega) (Or.inl (by omega))]
        exact hget k hk (by omega) r hr4
  obtain ⟨-, hw, hrows, hcols, hget⟩ := key dt.finite_cells.length (le_refl _)
  rw [List.take_length] at hw hrows hcols hget
  rw [fillTriangulationMatrix_eq]
  exact ⟨hw, hrows, hcols, fun k hk r hr4 => hget k hk hk r hr4⟩

/-- After `resize(r, c)` the storage holds `r * c` entries. -/
theorem CustomMatrix.resize_WF {T : Type} [Inhabited T] (m : CustomMatrix T) (r c : ℕ)
    (h : r * c < 4294967296) : (m.resize r c).WF := by
  have hu : u32 (r * c) = r * c := Nat.mod_eq_of_lt h
  refine ⟨?_, h⟩
  simp only [CustomMatrix.resize, hu, List.length_append, List.length_take,
    List.length_replicate]
  omega

/-- The matrix of the triangulation after a successful `NewShapeJS`: the loop
of lines 196-215 on the triangulation of the stored vertices, run on the
matrix resized to four rows per finite cell. -/
theorem NewShapeJS_triangulationMatrix (lib : CGALBuild) (info : List JsValue)
    (self : AlphaShape3D)
    (hok : ((AlphaShape3D.NewShapeJS lib info).run self).1 = some (Except.ok ())) :
    ((AlphaShape3D.NewShapeJS lib info).run self).2.triangulationMatrix
      = fillTriangulationMatrix
          (lib.Delaunay_triangulation_3 ((AlphaShape3D.NewShapeJS lib info).run self).2.Vertices)
          (self.triangulationMatrix.resize
            (u32 ((lib.Delaunay_triangulation_3
              ((AlphaShape3D.NewShapeJS lib info).run self).2.Vertices).number_of_finite_cells
                * 4)) 3) := by
  revert hok
  unfold AlphaShape3D.NewShapeJS
  split
  · simp only [StateT.run, bind, StateT.bind, modify, modifyGet,
      MonadStateOf.modifyGet, StateT.modifyGet, get, getThe, MonadStateOf.get, StateT.get,
      set, StateT.set, pure, StateT.pure]
    generalize ingestPoints _ _ = ing
    obtain ⟨M, err⟩ := ing
    cases err with
    | some e =>
      intro hok
      simp [StateT.pure] at hok
    | none =>
      cases hb : buildVertices M [] [] with
      | none => simp [StateT.bind, StateT.get, StateT.pure, hb]
      | some built => simp [StateT.bind, StateT.get, StateT.set, StateT.pure, hb]
  · intro hok
    simp [StateT.run, pure, StateT.pure] at hok

/-- C27: after a successful `newShape`, for the triangulation `Dt` of the
stored vertices (with `12 * cells < 2^32`), `getTriangulation()` has 4 rows
per finite cell and 3 columns, and for the `k`-th finite cell row `4 * k + r`
holds the vertex ids of the local triple `(0,1,2)`, `(0,2,3)`, `(1,2,3)`,
`(0,1,3)` for `r = 0, 1, 2, 3`; each triple has three different local indices,
and each of the four local indices is omitted by exactly one triple. -/
theorem getTriangulation_rows (lib : CGALBuild) (info : List JsValue) (self : AlphaShape3D)
    (hok : ((AlphaShape3D.NewShapeJS lib info).run self).1 = some (Except.ok ()))
    (hcells : (lib.Delaunay_triangulation_3
      ((AlphaShape3D.NewShapeJS lib info).run self).2.Vertices).number_of_finite_cells * 12
        < 4294967296) :
    ((AlphaShape3D.NewShapeJS lib info).run self).2.getTriangulation.numRows
      = 4 * (lib.Delaunay_triangulation_3
        ((AlphaShape3D.NewShapeJS lib info).run self).2.Vertices).number_of_finite_cells ∧
    ((AlphaShape3D.NewShapeJS lib info).run self).2.getTriangulation.numCols = 3 ∧
    (∀ k (hk : k < (lib.Delaunay_triangulation_3
        ((AlphaShape3D.NewShapeJS lib info).run self).2.Vertices).finite_cells.length) r,
      r < 4 →
      ((AlphaShape3D.NewShapeJS lib info).run self).2.getTriangulation.row3? (4 * k + r)
        = some ((cellRowTriple r).map (fun j =>
          (((lib.Delaunay_triangulation_3
            ((AlphaShape3D.NewShapeJS lib info).run self).2.Vertices).tds.info
              (((lib.Delaunay_triangulation_3
                ((AlphaShape3D.NewShapeJS lib info).run self).2.Vertices).tds.cell
                  ((lib.Delaunay_triangulation_3
                    ((AlphaShape3D.NewShapeJS lib info).run self).2.Vertices).finite_cells[k])).vertex
                j) : ℕ) : ℚ)))) ∧
    cellRowTriple 0 = [0, 1, 2] ∧ cellRowTriple 1 = [0, 2, 3] ∧
    cellRowTriple 2 = [1, 2, 3] ∧ cellRowTriple 3 = [0, 1, 3] ∧
    (∀ r : Fin 4, (cellRowTriple r.val).Nodup ∧ (cellRowTriple r.val).length = 3) ∧
    ∀ o : Fin 4, ∃ r : Fin 4, o ∉ cellRowTriple r.val ∧
      ∀ r' : Fin 4, o ∉ cellRowTriple r'.val → r' = r := by
  have hmat := NewShapeJS_triangulationMatrix lib info self hok
  generalize lib.Delaunay_triangulation_3
    ((AlphaShape3D.NewShapeJS lib info).run self).2.Vertices = dt at hmat hcells ⊢
  have hu : u32 (dt.number_of_finite_cells * 4) = dt.number_of_finite_cells * 4 :=
    Nat.mod_eq_of_lt (by omega)
  rw [hu] at hmat
  obtain ⟨-, hrows, hcols, hget⟩ := fillTriangulationMatrix_spec dt
    (self.triangulationMatrix.resize (dt.number_of_finite_cells * 4) 3)
    (CustomMatrix.resize_WF _ _ _ (by omega)) rfl rfl
  refine ⟨?_, ?_, ?_, rfl, rfl, rfl, rfl, by decide, by decide⟩
  · rw [AlphaShape3D.getTriangulation, hmat, CustomMatrix.numRows, hrows]
    show dt.number_of_finite_cells * 4 = 4 * dt.number_of_finite_cells
    ring
  · rw [AlphaShape3D.getTriangulation, hmat, CustomMatrix.numCols, hcols]
  · intro k hk r hr4
    rw [AlphaShape3D.getTriangulation, hmat]
    exact hget k hk r hr4

/-- Witness for C27: `newShape` with the five points of the second example,
whose triangulation has four finite cells; the matrix has 16 rows. -/
theorem getTriangulation_rows_witness :
    ((AlphaShape3D.NewShapeJS exampleBuild [JsValue.array (starPoints.map jsPoint)]).run
      AlphaShape3D.init).1 = some (Except.ok ()) ∧
    ((AlphaShape3D.NewShapeJS exampleBuild [JsValue.array (starPoints.map jsPoint)]).run
      AlphaShape3D.init).2.getTriangulation.numRows
      = 4 * (exampleBuild.Delaunay_triangulation_3
        ((AlphaShape3D.NewShapeJS exampleBuild
          [JsValue.array (starPoints.map jsPoint)]).run
            AlphaShape3D.init).2.Vertices).number_of_finite_cells ∧
    ((AlphaShape3D.NewShapeJS exampleBuild [JsValue.array (starPoints.map jsPoint)]).run
      AlphaShape3D.init).2.getTriangulation.numCols = 3 :=
  have h := getTriangulation_rows exampleBuild [JsValue.array (starPoints.map jsPoint)]
    AlphaShape3D.init rfl (by decide)
  ⟨rfl, h.1, h.2.1⟩

/-- The matrix `getTriangulation()` returns for the five points of the second
example: four rows for each of the four finite cells. -/
theorem getTriangulation_star :
    ((AlphaShape3D.NewShapeJS exampleBuild [JsValue.array (starPoints.map jsPoint)]).run
      AlphaShape3D.init).2.getTriangulation
      = ⟨[0, 2, 3, 0, 3, 4, 2, 3, 4, 0, 2, 4,
          1, 0, 3, 1, 3, 4, 0, 3, 4, 1, 0, 4,
          1, 2, 0, 1, 0, 4, 2, 0, 4, 1, 2, 4,
          1, 2, 3, 1, 3, 0, 2, 3, 0, 1, 2, 0], 16, 3⟩ := by
  decide

end alpha_shape_3d_ns

namespace native_module_ns

open Polynomial

/-! ## Theorems: `NativeModule` -/

/-- A `mapM` over `0..n-1` of reads that all succeed is the list of the values
read. -/
theorem mapM_range_ok {ε β : Type} (f : ℕ → Except ε β) (g : ℕ → β) (n : ℕ)
    (h : ∀ i, i < n → f i = Except.ok (g i)) :
    (List.range n).mapM f = Except.ok ((List.range n).map g) := by
  induction n with
  | zero => rfl
  | succ k ih =>
    rw [List.range_succ, List.mapM_append, ih (fun i hi => h i (by omega)),
      List.mapM_cons, List.mapM_nil, h k (by omega)]
    simp
    rfl

/-- The list of the entries `0..n-1` of a list of `n` numbers is the list. -/
theorem getD_range_numbers {D : Type} (qs : List D) (d : D) :
    (List.range qs.length).map (fun i => qs.getD i d) = qs := by
  apply List.ext_getElem?
  intro i
  by_cases hi : i < qs.length
  · rw [List.getElem?_map, List.getElem?_range hi, List.getElem?_eq_getElem hi]
    simp [List.getElem?_eq_getElem hi]
  · rw [List.getElem?_eq_none (by simpa using hi), List.getElem?_eq_none (by simpa using hi)]

/-- An array of numbers is loaded as the list of the numbers. -/
theorem loadVector_numbers {D : Type} (qs : List D) (n : ℕ) (hn : n = qs.length)
    (message : String) :
    loadVector (qs.map NapiValue.number) n message = Except.ok qs := by
  subst hn
  cases qs with
  | nil => rfl
  | cons d ds =>
    unfold loadVector
    rw [mapM_range_ok _ (fun i => (d :: ds).getD i d) (d :: ds).length,
      getD_range_numbers]
    intro i hi
    have hread : ((d :: ds).map NapiValue.number).getD i NapiValue.other
        = NapiValue.number ((d :: ds).getD i d) := by
      rw [List.getD_eq_getElem?_getD, List.getD_eq_getElem?_getD, List.getElem?_map,
        List.getElem?_eq_getElem hi]
      rfl
    rw [hread]
    rfl

/-- The total `trapz` accumulates over `i = 1..m` is the running total after
the pass for `m`. -/
theorem trapz_loop {D : Type} (fp : Double D) (x y : List D) (m : ℕ) :
    (List.range' 1 m).foldl
      (fun total i =>
        let dx := fp.sub (x.getD i fp.zero) (x.getD (i - 1) fp.zero)
        let dy := fp.mul fp.half (fp.add (y.getD i fp.zero) (y.getD (i - 1) fp.zero))
        fp.add total (fp.mul dx dy))
      fp.zero = runningTotal fp x y m := by
  induction m with
  | zero => rfl
  | succ m ih =>
    rw [List.range'_concat, List.foldl_append, ih, List.foldl_cons, List.foldl_nil]
    have h1m : 1 + 1 * m = m + 1 := by omega
    simp only [h1m]
    rfl

/-- The vector `cumtrapz` fills: after the passes `i = 1..m` entry `k <= m`
is the running total after the pass for `k`. -/
theorem cumtrapz_loop {D : Type} (fp : Double D) (x y : List D) (n : ℕ) (m : ℕ)
    (hm : m < n) :
    ((List.range' 1 m).foldl
      (fun (result : List D) i =>
        let dx := fp.sub (x.getD i fp.zero) (x.getD (i - 1) fp.zero)
        let dy := fp.mul fp.half (fp.add (y.getD i fp.zero) (y.getD (i - 1) fp.zero))
        result.set i (fp.add (result.getD (i - 1) fp.zero) (fp.mul dx dy)))
      ((List.replicate n fp.zero).set 0 fp.zero)).length = n ∧
    ∀ k, k ≤ m →
      ((List.range' 1 m).foldl
        (fun (result : List D) i =>
          let dx := fp.sub (x.getD i fp.zero) (x.getD (i - 1) fp.zero)
          let dy := fp.mul fp.half (fp.add (y.getD i fp.zero) (y.getD (i - 1) fp.zero))
          result.set i (fp.add (result.getD (i - 1) fp.zero) (fp.mul dx dy)))
        ((List.replicate n fp.zero).set 0 fp.zero)).getD k fp.zero
        = runningTotal fp x y k := by
  induction m with
  | zero =>
    refine ⟨by simp, ?_⟩
    intro k hk
    have hk0 : k = 0 := by omega
    subst hk0
    simp [List.getD_eq_getElem?_getD, List.getElem?_set, runningTotal]
  | succ m ih =>
    obtain ⟨hlen, hget⟩ := ih (by omega)
    rw [List.range'_concat, List.foldl_append, List.foldl_cons, List.foldl_nil]
    generalize (List.range' 1 m).foldl
      (fun (result : List D) i =>
        let dx := fp.sub (x.getD i fp.zero) (x.getD (i - 1) fp.zero)
        let dy := fp.mul fp.half (fp.add (y.getD i fp.zero) (y.getD (i - 1) fp.zero))
        result.set i (fp.add (result.getD (i - 1) fp.zero) (fp.mul dx dy)))
      ((List.replicate n fp.zero).set 0 fp.zero) = res at hlen hget
    have h1m : 1 + 1 * m = m + 1 := by omega
    simp only [h1m]
    refine ⟨by simp [hlen], ?_⟩
    intro k hk
    by_cases hkm : k = m + 1
    · subst hkm
      have hlt : m + 1 < res.length := by omega
      rw [List.getD_eq_getElem?_getD, List.getElem?_set, if_pos rfl, if_pos hlt,
        Option.getD_some, Nat.add_sub_cancel, hget m (le_refl m)]
      rfl
    · rw [List.getD_eq_getElem?_getD, List.getElem?_set, if_neg (by omega),
        ← List.getD_eq_getElem?_getD]
      exact hget k (by omega)

/-- On arrays of numbers, `x` absent or as long as `y`, with at least one
element `cumtrapz` returns the list of the running totals. -/
theorem cumtrapzArrays_numbers {D : Type} (fp : Double D) (ys : List D)
    (xs : Option (List D)) (hn : 1 ≤ ys.length)
    (hx : ∀ l, xs = some l → l.length = ys.length) :
    cumtrapzArrays fp (ys.map NapiValue.number) (xs.map (fun l => l.map NapiValue.number))
      = Except.ok ((List.range ys.length).map
          (fun k => runningTotal fp (abscissae fp ys.length xs) ys k)) := by
  have hn0 : ¬ ys.length = 0 := by omega
  have hloop : ∀ k, k ∈ List.range ys.length →
      ((List.range' 1 (ys.length - 1)).foldl
        (fun (result : List D) i =>
          let dx := fp.sub ((abscissae fp ys.length xs).getD i fp.zero)
            ((abscissae fp ys.length xs).getD (i - 1) fp.zero)
          let dy := fp.mul fp.half (fp.add (ys.getD i fp.zero) (ys.getD (i - 1) fp.zero))
          result.set i (fp.add (result.getD (i - 1) fp.zero) (fp.mul dx dy)))
        ((List.replicate ys.length fp.zero).set 0 fp.zero)).getD k fp.zero
        = runningTotal fp (abscissae fp ys.length xs) ys k := by
    intro k hk
    have hk' : k < ys.length := List.mem_range.mp hk
    exact (cumtrapz_loop fp (abscissae fp ys.length xs) ys ys.length (ys.length - 1)
      (by omega)).2 k (by omega)
  cases xs with
  | none =>
    simp only [cumtrapzArrays, List.length_map, Option.map_none', Bool.false_eq_true,
      if_false, hn0, loadVector_numbers ys _ rfl]
    show Except.ok _ = Except.ok _
    congr 1
    exact List.map_congr_left hloop
  | some l =>
    have hl := hx l rfl
    simp only [cumtrapzArrays, List.length_map, Option.map_some', hl, ne_eq,
      not_true_eq_false, decide_False, Bool.false_eq_true, if_false, hn0,
      loadVector_numbers ys _ rfl, loadVector_numbers l _ hl.symm]
    show Except.ok _ = Except.ok _
    congr 1
    exact List.map_congr_left hloop

/-- On arrays of numbers, `x` absent or as long as `y`, with at least two
elements `trapz` returns the running total after the last pass. -/
theorem trapzArrays_numbers {D : Type} (fp : Double D) (ys : List D)
    (xs : Option (List D)) (hn : 2 ≤ ys.length)
    (hx : ∀ l, xs = some l → l.length = ys.length) :
    trapzArrays fp (ys.map NapiValue.number) (xs.map (fun l => l.map NapiValue.number))
      = Except.ok (runningTotal fp (abscissae fp ys.length xs) ys (ys.length - 1)) := by
  have hn2 : ¬ ys.length < 2 := by omega
  cases xs with
  | none =>
    simp only [trapzArrays, List.length_map, Option.map_none', Bool.false_eq_true,
      if_false, hn2, loadVector_numbers ys _ rfl]
    show Except.ok _ = Except.ok _
    congr 1
    exact trapz_loop _ _ _ _
  | some l =>
    have hl := hx l rfl
    simp only [trapzArrays, List.length_map, Option.map_some', hl, ne_eq,
      not_true_eq_false, decide_False, Bool.false_eq_true, if_false, hn2,
      loadVector_numbers ys _ rfl, loadVector_numbers l _ hl.symm]
    show Except.ok _ = Except.ok _
    congr 1
    exact trapz_loop _ _ _ _

/-- A call with an array `y` and an optional array `x` reaches the part after
the argument checks. -/
theorem cumtrapz_numericArgs {D : Type} (fp : Double D) (ys : List D)
    (xs : Option (List D)) :
    cumtrapz fp (numericArgs ys xs)
      = cumtrapzArrays fp (ys.map NapiValue.number)
          (xs.map (fun l => l.map NapiValue.number)) := by
  cases xs with
  | none => rfl
  | some l => rfl

/-- A call with an array `y` and an optional array `x` reaches the part after
the argument checks. -/
theorem trapz_numericArgs {D : Type} (fp : Double D) (ys : List D)
    (xs : Option (List D)) :
    trapz fp (numericArgs ys xs)
      = trapzArrays fp (ys.map NapiValue.number)
          (xs.map (fun l => l.map NapiValue.number)) := by
  cases xs with
  | none => rfl
  | some l => rfl

/-! ### `trapz` and `cumtrapz` -/

/-- C22: `trapz` and `cumtrapz` reject bad input whatever the arrays hold:
with an array `x` whose length differs from the length of `y` both leave a
`RangeError` pending and return no result; `trapz` leaves a `RangeError`
pending whenever `y` has fewer than 2 elements (`x` absent or an array);
`cumtrapz` returns the empty array for an empty `y` (`x` absent or empty);
and for a `y` of at least 2 numbers, `x` absent or an array of as many
numbers, both return a result. -/
theorem trapz_cumtrapz_input_checks {D : Type} (fp : Double D) (ys : List (NapiValue D)) :
    (∀ (xs rest : List (NapiValue D)), xs.length ≠ ys.length →
      trapz fp (NapiValue.array ys :: NapiValue.array xs :: rest)
        = Except.error (JsException.RangeError "x and y arrays must have the same length") ∧
      cumtrapz fp (NapiValue.array ys :: NapiValue.array xs :: rest)
        = Except.error (JsException.RangeError "x and y arrays must have the same length")) ∧
    (ys.length < 2 →
      trapz fp [NapiValue.array ys]
        = Except.error (JsException.RangeError "trapz requires at least two data points") ∧
      ∀ (xs rest : List (NapiValue D)), ∃ message,
        trapz fp (NapiValue.array ys :: NapiValue.array xs :: rest)
          = Except.error (JsException.RangeError message)) ∧
    (ys = [] →
      cumtrapz fp [NapiValue.array ys] = Except.ok [] ∧
      ∀ rest : List (NapiValue D),
        cumtrapz fp (NapiValue.array ys :: NapiValue.array [] :: rest) = Except.ok []) ∧
    ∀ (qs : List D) (xq : Option (List D)), ys = qs.map NapiValue.number → 2 ≤ qs.length →
      (∀ l, xq = some l → l.length = qs.length) →
      (∃ v, trapz fp (numericArgs qs xq) = Except.ok v) ∧
      ∃ l, cumtrapz fp (numericArgs qs xq) = Except.ok l := by
  refine ⟨?_, ?_, ?_, ?_⟩
  · intro xs rest hne
    constructor
    · simp [trapz, trapzArrays, hne]
      rfl
    · simp [cumtrapz, cumtrapzArrays, hne]
      rfl
  · intro hlt
    constructor
    · simp [trapz, trapzArrays, hlt]
      rfl
    · intro xs rest
      by_cases hne : xs.length = ys.length
      · refine ⟨"trapz requires at least two data points", ?_⟩
        simp [trapz, trapzArrays, hne, hlt]
        rfl
      · refine ⟨"x and y arrays must have the same length", ?_⟩
        simp [trapz, trapzArrays, hne]
        rfl
  · intro hnil
    subst hnil
    refine ⟨rfl, fun rest => ?_⟩
    simp [cumtrapz, cumtrapzArrays]
    rfl
  · intro qs xq _ hlen hx
    exact ⟨⟨_, (trapz_numericArgs fp qs xq).trans (trapzArrays_numbers fp qs xq hlen hx)⟩,
      ⟨_, (cumtrapz_numericArgs fp qs xq).trans
        (cumtrapzArrays_numbers fp qs xq (by omega) hx)⟩⟩

/-- Witness for C22: a `y` of one number, with an `x` of two numbers and
without `x`. -/
theorem trapz_cumtrapz_input_checks_witness :
    trapz exampleDouble [NapiValue.array [NapiValue.number 1],
        NapiValue.array [NapiValue.number 0, NapiValue.number 1]]
      = Except.error (JsException.RangeError "x and y arrays must have the same length") ∧
    cumtrapz exampleDouble [NapiValue.array [NapiValue.number 1],
        NapiValue.array [NapiValue.number 0, NapiValue.number 1]]
      = Except.error (JsException.RangeError "x and y arrays must have the same length") ∧
    trapz exampleDouble [NapiValue.array [NapiValue.number 1]]
      = Except.error (JsException.RangeError "trapz requires at least two data points") :=
  have h := trapz_cumtrapz_input_checks exampleDouble [NapiValue.number 1]
  ⟨(h.1 [NapiValue.number 0, NapiValue.number 1] [] (by decide)).1,
    (h.1 [NapiValue.number 0, NapiValue.number 1] [] (by decide)).2,
    (h.2.1 (by decide)).1⟩

/-- The other rejections of `trapz` and `cumtrapz`: no argument, a first or
second argument that is not an array, an element that is not a number. -/
theorem trapz_cumtrapz_type_errors {D : Type} (fp : Double D) (d e : D) :
    trapz fp [] = Except.error (JsException.TypeError "trapz expects at least one argument") ∧
    cumtrapz fp []
      = Except.error (JsException.TypeError "cumtrapz expects at least one argument") ∧
    trapz fp [NapiValue.number d]
      = Except.error (JsException.TypeError "First argument must be an array") ∧
    trapz fp [NapiValue.array [NapiValue.number d], NapiValue.number e]
      = Except.error (JsException.TypeError "Second argument must be an array") ∧
    trapz fp [NapiValue.array [NapiValue.number d, NapiValue.other]]
      = Except.error (JsException.TypeError "y array must contain only numbers") :=
  ⟨rfl, rfl, rfl, rfl, rfl⟩

/-! ### The rounding of the examples -/

/-- An integer is rounded to itself. -/
theorem roundHalfEven_intCast (m : ℤ) : roundHalfEven (m : ℚ) = m := by
  unfold roundHalfEven
  rw [Int.floor_intCast, sub_self, if_pos (by norm_num)]

/-- An integer below `2^53` in absolute value is a `double`: it is rounded to
itself. -/
theorem round53_intCast (m : ℤ) (h : |m| < 2 ^ 53) : round53 (m : ℚ) = m := by
  unfold round53
  by_cases h0 : (m : ℚ) = 0
  · rw [if_pos h0, h0]
  · rw [if_neg h0]
    have hpos : (0 : ℚ) < |(m : ℚ)| := abs_pos.mpr h0
    have hlt : Int.log 2 |(m : ℚ)| < 53 := by
      rw [← Int.lt_zpow_iff_log_lt (by norm_num) hpos]
      have : |(m : ℚ)| < ((2 ^ 53 : ℤ) : ℚ) := by
        rw [← Int.cast_abs]
        exact_mod_cast h
      refine lt_of_lt_of_eq this ?_
      norm_num
    obtain ⟨k, hk⟩ := Int.exists_eq_neg_ofNat (show Int.log 2 |(m : ℚ)| - 52 ≤ 0 by omega)
    rw [hk, zpow_neg, zpow_natCast, div_inv_eq_mul]
    have hcast : (m : ℚ) * 2 ^ k = ((m * 2 ^ k : ℤ) : ℚ) := by push_cast; ring
    rw [hcast, roundHalfEven_intCast]
    push_cast
    field_simp


/-- The rounding of 1, which is a `double`. -/
theorem round53_one : round53 1 = 1 := by
  have hlog : Int.log 2 |(1 : ℚ)| = 0 := by
    rw [abs_one, Int.log_one_right]
  have hfloor : Int.floor ((1 : ℚ) / (2 : ℚ) ^ ((0 : ℤ) - 52)) = 4503599627370496 := by
    rw [Int.floor_eq_iff]
    norm_num
  unfold round53
  rw [if_neg (by norm_num), hlog]
  norm_num [roundHalfEven, hfloor]

/-- The rounding of `2^52`, which is a `double`. -/
theorem round53_pow52 : round53 4503599627370496 = 4503599627370496 := by
  have hlog : Int.log 2 |(4503599627370496 : ℚ)| = 52 := by
    rw [abs_of_pos (by norm_num), Int.log_of_one_le_right _ (by norm_num)]
    have hfl : ⌊(4503599627370496 : ℚ)⌋₊ = 4503599627370496 := by
      exact_mod_cast Nat.floor_natCast 4503599627370496
    have hlg : Nat.log 2 4503599627370496 = 52 := by
      rw [Nat.log_eq_iff (by norm_num)]
      norm_num
    rw [hfl, hlg]
    rfl
  have hfloor : Int.floor ((4503599627370496 : ℚ)) = 4503599627370496 := by
    rw [Int.floor_eq_iff]
    norm_num
  unfold round53
  rw [if_neg (by norm_num), hlog]
  norm_num [roundHalfEven, hfloor]

/-- The rounding of `2^53 + 1`, half way between the doubles `2^53` and
`2^53 + 2`: the tie goes to `2^53`, whose significand is even. -/
theorem round53_tie : round53 9007199254740993 = 9007199254740992 := by
  have hlog : Int.log 2 |(9007199254740993 : ℚ)| = 53 := by
    rw [abs_of_pos (by norm_num), Int.log_of_one_le_right _ (by norm_num)]
    have hfl : ⌊(9007199254740993 : ℚ)⌋₊ = 9007199254740993 := by
      exact_mod_cast Nat.floor_natCast 9007199254740993
    have hlg : Nat.log 2 9007199254740993 = 53 := by
      rw [Nat.log_eq_iff (by norm_num)]
      norm_num
    rw [hfl, hlg]
    rfl
  have hfloor : Int.floor ((9007199254740993 : ℚ) / 2) = 4503599627370496 := by
    rw [Int.floor_eq_iff]
    norm_num
  unfold round53
  rw [if_neg (by norm_num), hlog]
  norm_num [roundHalfEven, hfloor]

/-- The rounding of `-1/3`, which is no `double`: the nearest one is
`-6004799503160661 / 2^54`. -/
theorem round53_third : round53 (-1 / 3) = -(6004799503160661 / 18014398509481984) := by
  have hlog : Int.log 2 |(-1 / 3 : ℚ)| = -2 := by
    have habs : |(-1 / 3 : ℚ)| = 1 / 3 := by norm_num [abs_of_neg]
    rw [habs, Int.log_of_right_le_one _ (by norm_num)]
    have hcl : ⌈((1 : ℚ) / 3)⁻¹⌉₊ = 3 := by
      rw [show ((1 : ℚ) / 3)⁻¹ = ((3 : ℕ) : ℚ) by norm_num]
      exact Nat.ceil_natCast 3
    have hlg : Nat.clog 2 3 = 2 :=
      le_antisymm ((Nat.le_pow_iff_clog_le (by norm_num)).1 (by norm_num))
        ((Nat.pow_lt_iff_lt_clog (by norm_num)).1 (by norm_num))
    rw [hcl, hlg]
    rfl
  have hfloor : Int.floor ((-1 / 3 : ℚ) / (2 : ℚ) ^ ((-2 : ℤ) - 52)) = -6004799503160662 := by
    rw [Int.floor_eq_iff]
    norm_num
  unfold round53
  rw [if_neg (by norm_num), hlog]
  norm_num [roundHalfEven, hfloor]

/-- When no operation of the passes `1..k` rounds, the running total after
the pass for `k` is the trapezoid sum up to `k`. -/
theorem runningTotal_exact {D : Type} (fp : Double D) (v : D → ℚ) (hzero : v fp.zero = 0)
    (x y : List D) (k : ℕ) (hexact : ∀ i, 1 ≤ i → i ≤ k → exactPass fp v x y i) :
    v (runningTotal fp x y k)
      = ∑ i in Finset.Icc 1 k,
          (v (x.getD i fp.zero) - v (x.getD (i - 1) fp.zero))
            * (v (y.getD i fp.zero) + v (y.getD (i - 1) fp.zero)) / 2 := by
  induction k with
  | zero => simpa [runningTotal] using hzero
  | succ k ih =>
    obtain ⟨h1, h2, h3, h4, h5⟩ := hexact (k + 1) (by omega) (le_refl _)
    rw [Finset.sum_Icc_succ_top (by omega), ← ih (fun i hi hik => hexact i hi (by omega))]
    rw [Nat.add_sub_cancel] at h5
    show v (fp.add (runningTotal fp x y k) (trapezoid fp x y (k + 1))) = _
    rw [h5, h4, h3, h2, h1]
    ring

/-- For `y = [1, 3, 5]` without `x` no operation of the two passes rounds in
the double arithmetic of the examples. -/
theorem exactPass_example (i : ℕ) (h1 : 1 ≤ i) (h2 : i ≤ 2) :
    exactPass exampleDouble id (abscissae exampleDouble 3 none) [1, 3, 5] i := by
  have r1 : round53 1 = 1 := by simpa using round53_intCast 1 (by norm_num)
  have r2 : round53 2 = 2 := by simpa using round53_intCast 2 (by norm_num)
  have r4 : round53 4 = 4 := by simpa using round53_intCast 4 (by norm_num)
  have r6 : round53 6 = 6 := by simpa using round53_intCast 6 (by norm_num)
  have r8 : round53 8 = 8 := by simpa using round53_intCast 8 (by norm_num)
  interval_cases i
  · simp [exactPass, trapezoid, runningTotal, abscissae, uniformSpacing, exampleDouble,
      List.range, List.range.loop]
    norm_num [r1, r2, r4, r6, r8]
  · simp [exactPass, trapezoid, runningTotal, abscissae, uniformSpacing, exampleDouble,
      List.range, List.range.loop]
    norm_num [r1, r2, r4, r6, r8]

/-- C25 as amended: for a `y` of `n >= 1` numbers and an `x` that is absent
(then `x[i]` is `i` converted to `double`) or an array of `n` numbers,
`cumtrapz` returns `n` values, the first is `0.0` and value `k >= 1` is value
`k - 1` plus `(x[k] - x[k-1]) * (0.5 * (y[k] + y[k-1]))`, each operation the
operation of the double arithmetic; value `k` is the sum over `i = 1..k` of
`(x[i] - x[i-1]) * (y[i] + y[i-1]) / 2` when no operation of the passes
`1..k` rounds; for `n >= 2` the last value is what `trapz` returns on the
same arguments. -/
theorem cumtrapz_running_totals {D : Type} (fp : Double D) (ys : List D)
    (xs : Option (List D)) (hn : 1 ≤ ys.length)
    (hx : ∀ l, xs = some l → l.length = ys.length) :
    ∃ result, cumtrapz fp (numericArgs ys xs) = Except.ok result ∧
      result.length = ys.length ∧ result[0]? = some fp.zero ∧
      (∀ k, 1 ≤ k → k < ys.length →
        result[k]? = some (fp.add (result.getD (k - 1) fp.zero)
          (fp.mul
            (fp.sub ((abscissae fp ys.length xs).getD k fp.zero)
              ((abscissae fp ys.length xs).getD (k - 1) fp.zero))
            (fp.mul fp.half (fp.add (ys.getD k fp.zero) (ys.getD (k - 1) fp.zero)))))) ∧
      (xs = none →
        ∀ i, i < ys.length → (abscissae fp ys.length xs).getD i fp.zero = fp.ofUInt32 i) ∧
      (2 ≤ ys.length →
        trapz fp (numericArgs ys xs) = Except.ok (result.getD (ys.length - 1) fp.zero)) ∧
      ∀ (v : D → ℚ), v fp.zero = 0 → ∀ k, k < ys.length →
        (∀ i, 1 ≤ i → i ≤ k → exactPass fp v (abscissae fp ys.length xs) ys i) →
        v (result.getD k fp.zero)
          = ∑ i in Finset.Icc 1 k,
              (v ((abscissae fp ys.length xs).getD i fp.zero)
                - v ((abscissae fp ys.length xs).getD (i - 1) fp.zero))
              * (v (ys.getD i fp.zero) + v (ys.getD (i - 1) fp.zero)) / 2 := by
  refine ⟨_, (cumtrapz_numericArgs fp ys xs).trans (cumtrapzArrays_numbers fp ys xs hn hx),
    by simp, ?_, ?_, ?_, ?_, ?_⟩
  · rw [List.getElem?_map, List.getElem?_range (by omega)]
    rfl
  · intro k hk1 hk
    obtain ⟨j, rfl⟩ : ∃ j, k = j + 1 := ⟨k - 1, by omega⟩
    rw [List.getElem?_map, List.getElem?_range hk, List.getD_eq_getElem?_getD,
      List.getElem?_map, List.getElem?_range (by omega)]
    rfl
  · intro hnone i hi
    subst hnone
    show ((List.range ys.length).map (fun (i : ℕ) => fp.ofUInt32 i)).getD i fp.zero
      = fp.ofUInt32 i
    rw [List.getD_eq_getElem?_getD, List.getElem?_map, List.getElem?_range hi]
    rfl
  · intro h2
    rw [trapz_numericArgs, trapzArrays_numbers fp ys xs h2 hx, List.getD_eq_getElem?_getD,
      List.getElem?_map, List.getElem?_range (by omega)]
    rfl
  · intro v hzero k hk hexact
    rw [List.getD_eq_getElem?_getD, List.getElem?_map, List.getElem?_range hk]
    exact runningTotal_exact fp v hzero _ ys k hexact

/-- Witness for C25 as amended: `y = [1, 3, 5]` without `x`, where no
operation rounds. -/
theorem cumtrapz_running_totals_witness :
    ∃ result, cumtrapz exampleDouble (numericArgs [1, 3, 5] none) = Except.ok result ∧
      result.length = 3 ∧ result[0]? = some 0 ∧
      trapz exampleDouble (numericArgs [1, 3, 5] none) = Except.ok (result.getD 2 0) ∧
      result.getD 2 0
        = ∑ i in Finset.Icc 1 2,
            ((abscissae exampleDouble 3 none).getD i 0
              - (abscissae exampleDouble 3 none).getD (i - 1) 0)
            * (([1, 3, 5] : List ℚ).getD i 0 + ([1, 3, 5] : List ℚ).getD (i - 1) 0) / 2 :=
  (cumtrapz_running_totals exampleDouble [1, 3, 5] none (by decide) (by simp)).imp
    (fun _ h => ⟨h.1, h.2.1, h.2.2.1, h.2.2.2.2.2.1 (by decide),
      h.2.2.2.2.2.2 id rfl 2 (by decide) exactPass_example⟩)

/-- C25 on the code: for `y = [2^53, 1]` without `x` the sum
`(x[1] - x[0]) * (y[1] + y[0]) / 2` is `2^52 + 1/2`, and `cumtrapz` returns
`[0, 2^52]`, because `y[1] + y[0] = 2^53 + 1` is rounded to `2^53`. -/
theorem cumtrapz_rounds :
    cumtrapz exampleDouble (numericArgs [9007199254740992, 1] none)
      = Except.ok [0, 4503599627370496] ∧
    trapz exampleDouble (numericArgs [9007199254740992, 1] none)
      = Except.ok 4503599627370496 ∧
    (4503599627370496 : ℚ) ≠ ((1 : ℚ) - 0) * (1 + 9007199254740992) / 2 := by
  refine ⟨?_, ?_, ?_⟩
  · rw [cumtrapz_numericArgs, cumtrapzArrays_numbers _ _ _ (by decide) (by simp)]
    simp [List.range, List.range.loop, runningTotal, trapezoid, abscissae, uniformSpacing,
      exampleDouble]
    norm_num [round53_one, round53_tie, round53_pow52]
  · rw [trapz_numericArgs, trapzArrays_numbers _ _ _ (by decide) (by simp)]
    simp [runningTotal, trapezoid, abscissae, uniformSpacing, exampleDouble]
    norm_num [round53_one, round53_tie, round53_pow52]
  · norm_num

/-! ### `roots` -/

/-- The first loop of lines 122-124: after the passes `i = 1..m` the entries
`(i, i - 1)` with `1 <= i <= m` hold `1.0`, all others `0.0`. -/
theorem subdiagonal_loop {D : Type} (fp : Double D) (n m : ℕ) (a b : ℕ) :
    ((List.range' 1 m).foldl (fun (M : MatrixXd D) i => M.set i (i - 1) fp.one)
      (MatrixXd.Zero fp n n)).coeff a b
      = if 1 ≤ a ∧ a ≤ m ∧ b + 1 = a then fp.one else fp.zero := by
  induction m with
  | zero =>
    have h : ¬ (1 ≤ a ∧ a ≤ 0 ∧ b + 1 = a) := by omega
    rw [if_neg h]
    rfl
  | succ m ih =>
    rw [List.range'_concat, List.foldl_append, List.foldl_cons, List.foldl_nil]
    have h1m : 1 + 1 * m = m + 1 := by omega
    generalize (List.range' 1 m).foldl (fun (M : MatrixXd D) i => M.set i (i - 1) fp.one)
      (MatrixXd.Zero fp n n) = M at ih
    simp only [h1m, MatrixXd.set, Nat.add_sub_cancel, ih]
    by_cases hab : a = m + 1 ∧ b = m
    · obtain ⟨ha, hb⟩ := hab
      subst ha hb
      simp
    · rw [if_neg hab]
      by_cases h : 1 ≤ a ∧ a ≤ m ∧ b + 1 = a
      · rw [if_pos h, if_pos (by omega)]
      · rw [if_neg h, if_neg (by omega)]

/-- The second loop of lines 125-127: after the passes `i = 0..m-1` the
entries `(i, col)` with `i < m` hold `val i`, all others are as before. -/
theorem lastColumn_loop {D : Type} (M0 : MatrixXd D) (col : ℕ) (val : ℕ → D) (m : ℕ)
    (a b : ℕ) :
    ((List.range m).foldl (fun (M : MatrixXd D) i => M.set i col (val i)) M0).coeff a b
      = if a < m ∧ b = col then val a else M0.coeff a b := by
  induction m with
  | zero => simp
  | succ m ih =>
    rw [List.range_succ, List.foldl_append, List.foldl_cons, List.foldl_nil]
    generalize (List.range m).foldl (fun (M : MatrixXd D) i => M.set i col (val i)) M0
      = M at ih
    simp only [MatrixXd.set, ih]
    by_cases hab : a = m ∧ b = col
    · obtain ⟨ha, hb⟩ := hab
      subst ha hb
      simp
    · rw [if_neg hab]
      by_cases h : a < m ∧ b = col
      · rw [if_pos h, if_pos (by omega)]
      · rw [if_neg h, if_neg (by omega)]

/-- The entries of the matrix `roots` builds: the stored quotient in the last
column, `1.0` on the sub-diagonal, `0.0` elsewhere. -/
theorem companionMatrix_coeff {D : Type} (fp : Double D) (c : List D) (n : ℕ) (a b : ℕ)
    (ha : a < n) (hb : b < n) :
    (companionMatrix fp c n).coeff a b
      = if b + 1 = n then fp.div (fp.neg (c.getD (n - a) fp.zero)) (c.getD 0 fp.zero)
        else if a = b + 1 then fp.one else fp.zero := by
  simp only [companionMatrix, lastColumn_loop, subdiagonal_loop]
  by_cases hlast : b + 1 = n
  · rw [if_pos hlast, if_pos ⟨ha, by omega⟩]
  · rw [if_neg hlast, if_neg (by omega)]
    by_cases hsub : a = b + 1
    · rw [if_pos hsub, if_pos (by omega)]
    · rw [if_neg hsub, if_neg (by omega)]

/-- Read as numbers, with `0.0` read as 0 and `1.0` as 1, the matrix `roots`
builds is the matrix with ones on the sub-diagonal and the stored quotients
in the last column. -/
theorem companionMatrix_toMatrix {D : Type} (fp : Double D) (v : D → ℚ)
    (hzero : v fp.zero = 0) (hone : v fp.one = 1) (c : List D) (n : ℕ) :
    (companionMatrix fp c n).toMatrix v n
      = lastColumnCompanion n
          (fun i => -(v (fp.div (fp.neg (c.getD (n - i) fp.zero)) (c.getD 0 fp.zero)))) := by
  ext i j
  have hi := i.isLt
  have hj := j.isLt
  simp only [MatrixXd.toMatrix, lastColumnCompanion, Matrix.of_apply,
    companionMatrix_coeff fp c n i.val j.val hi hj]
  by_cases hlast : j.val + 1 = n
  · rw [if_pos hlast, if_pos hlast, neg_neg]
  · rw [if_neg hlast, if_neg hlast]
    by_cases hsub : i.val = j.val + 1
    · rw [if_pos hsub, if_pos hsub, hone]
    · rw [if_neg hsub, if_neg hsub, hzero]

/-- The characteristic polynomial of the matrix with ones on the sub-diagonal
and `-a i` in row `i` of the last column is `X ^ n + ∑ a i * X ^ i`. -/
theorem lastColumnCompanion_charpoly (n : ℕ) : ∀ a : ℕ → ℚ,
    (lastColumnCompanion n a).charpoly = X ^ n + ∑ i in Finset.range n, C (a i) * X ^ i := by
  induction n with
  | zero =>
    intro a
    simp [Matrix.charpoly]
  | succ n ih =>
    intro a
    cases n with
    | zero =>
      simp [Matrix.charpoly, Matrix.charmatrix_apply, lastColumnCompanion]
    | succ m =>
      have hsub0 : (Matrix.charmatrix (lastColumnCompanion (m + 2) a)).submatrix Fin.succ
          (Fin.succAbove 0)
          = Matrix.charmatrix (lastColumnCompanion (m + 1) (fun k => a (k + 1))) := by
        ext i j
        simp [Matrix.charmatrix_apply, lastColumnCompanion, Matrix.diagonal_apply, Fin.ext_iff]
      have hsubL : ((Matrix.charmatrix (lastColumnCompanion (m + 2) a)).submatrix Fin.succ
          (Fin.succAbove (Fin.last m).succ)).det = (-1) ^ (m + 1) := by
        rw [Matrix.det_of_upperTriangular]
        · have hx : ∀ x : Fin (m + 1), ¬ ((x : ℕ) = m + 1) := fun x => by omega
          simp [Matrix.charmatrix_apply, lastColumnCompanion, Matrix.diagonal_apply,
            Fin.ext_iff, hx]
        · intro i j hij
          have hlt : (j : ℕ) < (i : ℕ) := hij
          have h1 : ¬ ((i : ℕ) + 1 = j) := by omega
          have h2 : ¬ ((j : ℕ) = m + 1) := by omega
          have h3 : ¬ ((i : ℕ) = j) := by omega
          simp [Matrix.charmatrix_apply, lastColumnCompanion, Matrix.diagonal_apply,
            Fin.ext_iff, h1, h2, h3]
      have hmid : ∀ i : Fin m,
          Matrix.charmatrix (lastColumnCompanion (m + 1 + 1) a) 0 i.castSucc.succ = 0 := by
        intro i
        have h1 : ¬ ((i : ℕ) = m) := by omega
        simp [Matrix.charmatrix_apply, lastColumnCompanion, Matrix.diagonal_apply,
          Fin.ext_iff, h1]
      have h00 : Matrix.charmatrix (lastColumnCompanion (m + 1 + 1) a) 0 0 = X := by
        simp [Matrix.charmatrix_apply, lastColumnCompanion]
      have h0L : Matrix.charmatrix (lastColumnCompanion (m + 1 + 1) a) 0 (Fin.last m).succ
          = C (a 0) := by
        simp [Matrix.charmatrix_apply, lastColumnCompanion, Matrix.diagonal_apply, Fin.ext_iff]
      rw [Matrix.charpoly, Matrix.det_succ_row_zero, Fin.sum_univ_succ, Fin.sum_univ_castSucc]
      simp only [hmid, mul_zero, zero_mul, Finset.sum_const_zero, zero_add, h00, h0L,
        hsubL, hsub0]
      have hih := ih (fun k => a (k + 1))
      rw [Matrix.charpoly] at hih
      rw [hih, Finset.sum_range_succ' _ (m + 1)]
      have hpow : ((-1 : ℚ[X]) ^ (((Fin.last m).succ : Fin (m + 2)) : ℕ)) * (-1) ^ (m + 1)
          = 1 := by
        rw [Fin.val_succ, Fin.val_last, ← pow_add, ← two_mul, pow_mul]
        simp
      simp only [Fin.val_zero, pow_zero, one_mul]
      have hlast : (-1 : ℚ[X]) ^ (((Fin.last m).succ : Fin (m + 2)) : ℕ) * C (a 0)
          * (-1) ^ (m + 1) = C (a 0) := by
        rw [mul_right_comm, hpow, one_mul]
      rw [hlast, mul_add, Finset.mul_sum, mul_one, ← add_assoc]
      congr 1
      congr 1
      · ring
      · apply Finset.sum_congr rfl
        intro x _
        ring

/-- A complex number is an eigenvalue of a square matrix exactly when it is a
root of the characteristic polynomial. -/
theorem eigenvalue_iff_root {n : ℕ} (A : Matrix (Fin n) (Fin n) ℂ) (z : ℂ) :
    (∃ v : Fin n → ℂ, v ≠ 0 ∧ A.mulVec v = z • v) ↔ A.charpoly.eval z = 0 := by
  have hdet : A.charpoly.eval z = (Matrix.scalar (Fin n) z - A).det := by
    rw [Matrix.charpoly, Matrix.eval_det, Matrix.matPolyEquiv_charmatrix]
    simp
  have hscal : ∀ v : Fin n → ℂ, (Matrix.scalar (Fin n) z).mulVec v = z • v := by
    intro v
    simp [Matrix.scalar_apply, Matrix.smul_mulVec_assoc]
  rw [hdet, ← Matrix.exists_mulVec_eq_zero_iff]
  constructor
  · rintro ⟨v, hv, h⟩
    refine ⟨v, hv, ?_⟩
    rw [Matrix.sub_mulVec, h, hscal, sub_self]
  · rintro ⟨v, hv, h⟩
    refine ⟨v, hv, ?_⟩
    rw [Matrix.sub_mulVec, hscal] at h
    exact (sub_eq_zero.mp h).symm

/-- The value of `X ^ n + ∑ (c (n - i) / c 0) * X ^ i` at `z` vanishes exactly
when the value of the polynomial with the coefficients `c 0 .. c n` does. -/
theorem monic_root_iff (c : ℕ → ℚ) (n : ℕ) (h0 : c 0 ≠ 0) (z : ℂ) :
    ((X ^ n + ∑ i in Finset.range n, C (c (n - i) / c 0) * X ^ i : ℚ[X]).map
        (algebraMap ℚ ℂ)).eval z = 0 ↔
      ∑ k in Finset.range (n + 1), (c k : ℂ) * z ^ (n - k) = 0 := by
  have hc0 : (c 0 : ℂ) ≠ 0 := by exact_mod_cast h0
  have hflip : ∑ k in Finset.range (n + 1), (c k : ℂ) * z ^ (n - k)
      = ∑ j in Finset.range (n + 1), (c (n - j) : ℂ) * z ^ j := by
    rw [← Finset.sum_flip]
    apply Finset.sum_congr rfl
    intro j hj
    have hj' : j ≤ n := by
      have := Finset.mem_range.mp hj
      omega
    rw [Nat.sub_sub_self hj']
  have heval : ((X ^ n + ∑ i in Finset.range n, C (c (n - i) / c 0) * X ^ i : ℚ[X]).map
        (algebraMap ℚ ℂ)).eval z
      = z ^ n + ∑ i in Finset.range n, ((c (n - i) : ℂ) / (c 0 : ℂ)) * z ^ i := by
    simp [Polynomial.eval_finset_sum, Polynomial.map_sum]
  rw [heval, hflip, Finset.sum_range_succ, Nat.sub_self]
  have hmul : (c 0 : ℂ)
      * (z ^ n + ∑ i in Finset.range n, ((c (n - i) : ℂ) / (c 0 : ℂ)) * z ^ i)
      = ∑ x in Finset.range n, (c (n - x) : ℂ) * z ^ x + (c 0 : ℂ) * z ^ n := by
    rw [mul_add, Finset.mul_sum, add_comm]
    congr 1
    apply Finset.sum_congr rfl
    intro i _
    field_simp
  rw [← hmul]
  constructor
  · intro h
    rw [h, mul_zero]
  · intro h
    exact (mul_eq_zero.mp h).resolve_left hc0

/-- The value at `z` of `X ^ n + ∑ a i * X ^ i`. -/
theorem monic_eval (a : ℕ → ℚ) (n : ℕ) (z : ℂ) :
    ((X ^ n + ∑ i in Finset.range n, C (a i) * X ^ i : ℚ[X]).map (algebraMap ℚ ℂ)).eval z
      = z ^ n + ∑ i in Finset.range n, (a i : ℂ) * z ^ i := by
  simp [Polynomial.eval_finset_sum, Polynomial.map_sum]

/-- An array of numbers is loaded as the vector of the coefficients. -/
theorem loadCoefficients_numbers {D : Type} (cs : List D) (n : ℕ)
    (hlen : cs.length = n + 1) :
    loadCoefficients (cs.map NapiValue.number) n = Except.ok cs := by
  cases cs with
  | nil => simp at hlen
  | cons d ds =>
    unfold loadCoefficients
    rw [← hlen, mapM_range_ok _ (fun i => (d :: ds).getD i d) (d :: ds).length,
      getD_range_numbers]
    intro i hi
    have hread : ((d :: ds).map NapiValue.number).getD i NapiValue.other
        = NapiValue.number ((d :: ds).getD i d) := by
      rw [List.getD_eq_getElem?_getD, List.getD_eq_getElem?_getD, List.getElem?_map,
        List.getElem?_eq_getElem hi]
      rfl
    rw [hread]
    rfl

/-- The characteristic polynomial of the matrix `roots` builds, read as
numbers: its coefficients are the negated stored quotients. -/
theorem companionMatrix_charpoly {D : Type} (fp : Double D) (v : D → ℚ)
    (hzero : v fp.zero = 0) (hone : v fp.one = 1) (c : List D) (n : ℕ) :
    ((companionMatrix fp c n).toMatrix v n).charpoly
      = X ^ n + ∑ i in Finset.range n,
          C (-(v (fp.div (fp.neg (c.getD (n - i) fp.zero)) (c.getD 0 fp.zero)))) * X ^ i := by
  rw [companionMatrix_toMatrix fp v hzero hone, lastColumnCompanion_charpoly]

/-- What `roots` returns on an array of `n + 1` numbers: entry `i < n` is the
entry for the eigenvalue `i` the solver hands back for the matrix built. -/
theorem roots_numbers {D : Type} (fp : Double D) (eigenvalues : MatrixXd D → ℕ → D × D)
    (cs : List D) (n : ℕ) (hlen : cs.length = n + 1) :
    roots fp eigenvalues [NapiValue.array (cs.map NapiValue.number)]
      = some (Except.ok ((List.range n).map
          (fun i => rootEntry fp (eigenvalues (companionMatrix fp cs n) i)))) := by
  have hne : ¬ cs.length = 0 := by omega
  have hdeg : cs.length - 1 = n := by omega
  simp only [roots, List.getD_cons_zero, List.length_map, hne, if_false, hdeg,
    loadCoefficients_numbers cs n hlen]

/-- C26 as amended: for coefficients `c0 .. cn` with `n >= 1` the matrix
`roots` builds has `1.0` on the sub-diagonal, in row `i` of the last column
the quotient `q(i) = (-c(n-i)) / c0` as the double arithmetic yields it, and
`0.0` elsewhere; read as numbers its characteristic polynomial is
`X^n - q(n-1) X^(n-1) - ... - q(0)` and a complex number is an eigenvalue of
it exactly when it is a root of that polynomial; when every quotient is exact
and `c0` is not 0 that polynomial is `X^n + (c1/c0) X^(n-1) + ... + cn/c0`
and the eigenvalues are exactly the roots of `c0 z^n + ... + cn`; and `roots`
returns `n` values, value `i` made from the eigenvalue `i` the solver hands
back for this matrix. -/
theorem roots_companion {D : Type} (fp : Double D) (eigenvalues : MatrixXd D → ℕ → D × D)
    (v : D → ℚ) (hzero : v fp.zero = 0) (hone : v fp.one = 1)
    (cs : List D) (n : ℕ) (hlen : cs.length = n + 1) (_hn : 1 ≤ n) :
    (∀ i j : ℕ, i < n → j < n → (companionMatrix fp cs n).coeff i j
      = if j + 1 = n then fp.div (fp.neg (cs.getD (n - i) fp.zero)) (cs.getD 0 fp.zero)
        else if i = j + 1 then fp.one else fp.zero) ∧
    ((companionMatrix fp cs n).toMatrix v n).charpoly
      = X ^ n + ∑ i in Finset.range n,
          C (-(v (fp.div (fp.neg (cs.getD (n - i) fp.zero)) (cs.getD 0 fp.zero)))) * X ^ i ∧
    (∀ z : ℂ,
      (∃ w : Fin n → ℂ, w ≠ 0 ∧
        (((companionMatrix fp cs n).toMatrix v n).map (algebraMap ℚ ℂ)).mulVec w = z • w) ↔
      z ^ n + ∑ i in Finset.range n,
        ((-(v (fp.div (fp.neg (cs.getD (n - i) fp.zero)) (cs.getD 0 fp.zero))) : ℚ) : ℂ)
          * z ^ i = 0) ∧
    ((∀ i, i < n → v (fp.div (fp.neg (cs.getD (n - i) fp.zero)) (cs.getD 0 fp.zero))
        = -(v (cs.getD (n - i) fp.zero)) / v (cs.getD 0 fp.zero)) →
      v (cs.getD 0 fp.zero) ≠ 0 →
      ((companionMatrix fp cs n).toMatrix v n).charpoly
        = X ^ n + ∑ i in Finset.range n,
            C (v (cs.getD (n - i) fp.zero) / v (cs.getD 0 fp.zero)) * X ^ i ∧
      ∀ z : ℂ,
        (∃ w : Fin n → ℂ, w ≠ 0 ∧
          (((companionMatrix fp cs n).toMatrix v n).map (algebraMap ℚ ℂ)).mulVec w = z • w) ↔
        ∑ k in Finset.range (n + 1), (v (cs.getD k fp.zero) : ℂ) * z ^ (n - k) = 0) ∧
    ∃ result, roots fp eigenvalues [NapiValue.array (cs.map NapiValue.number)]
        = some (Except.ok result) ∧ result.length = n ∧
      ∀ i, i < n →
        result[i]? = some (rootEntry fp (eigenvalues (companionMatrix fp cs n) i)) := by
  have hchar := companionMatrix_charpoly fp v hzero hone cs n
  refine ⟨fun i j hi hj => companionMatrix_coeff fp cs n i j hi hj, hchar, ?_, ?_, ?_⟩
  · intro z
    rw [eigenvalue_iff_root, Matrix.charpoly_map, hchar, monic_eval]
  · intro hexact h0
    have hchar' : ((companionMatrix fp cs n).toMatrix v n).charpoly
        = X ^ n + ∑ i in Finset.range n,
            C (v (cs.getD (n - i) fp.zero) / v (cs.getD 0 fp.zero)) * X ^ i := by
      rw [hchar]
      congr 1
      apply Finset.sum_congr rfl
      intro i hi
      rw [hexact i (Finset.mem_range.mp hi), neg_div, neg_neg]
    refine ⟨hchar', ?_⟩
    intro z
    rw [eigenvalue_iff_root, Matrix.charpoly_map, hchar']
    exact monic_root_iff (fun k => v (cs.getD k fp.zero)) n h0 z
  · refine ⟨_, roots_numbers fp eigenvalues cs n hlen, by simp, ?_⟩
    intro i hi
    rw [List.getElem?_map, List.getElem?_range hi]
    rfl

/-- For the coefficients `1, -3, 2` the two quotients `-2 / 1` and `3 / 1`
are exact in the double arithmetic of the examples. -/
theorem exact_quotients_example (i : ℕ) (hi : i < 2) :
    id (exampleDouble.div
        (exampleDouble.neg (([1, -3, 2] : List ℚ).getD (2 - i) exampleDouble.zero))
        (([1, -3, 2] : List ℚ).getD 0 exampleDouble.zero))
      = -(id (([1, -3, 2] : List ℚ).getD (2 - i) exampleDouble.zero))
        / id (([1, -3, 2] : List ℚ).getD 0 exampleDouble.zero) := by
  have r2 : round53 (-2) = -2 := by simpa using round53_intCast (-2) (by norm_num)
  have r3 : round53 3 = 3 := by simpa using round53_intCast 3 (by norm_num)
  interval_cases i
  · simp [exampleDouble]
    norm_num [r2]
  · simp [exampleDouble]
    norm_num [r3]

/-- Witness for C26 as amended: the coefficients `1, -3, 2` of
`x^2 - 3x + 2`, the doubles read as the rationals they are; both quotients
are exact. -/
theorem roots_companion_witness :
    ((companionMatrix exampleDouble [1, -3, 2] 2).toMatrix id 2).charpoly
      = X ^ 2 + ∑ i in Finset.range 2,
          C (id (([1, -3, 2] : List ℚ).getD (2 - i) exampleDouble.zero)
            / id (([1, -3, 2] : List ℚ).getD 0 exampleDouble.zero)) * X ^ i ∧
    ∃ result, roots exampleDouble (fun _ i => (if i = 0 then 1 else 2, 0))
        [NapiValue.array (([1, -3, 2] : List ℚ).map NapiValue.number)]
        = some (Except.ok result) ∧ result.length = 2 ∧
      ∀ i, i < 2 →
        result[i]? = some (rootEntry exampleDouble
          ((fun (_ : MatrixXd ℚ) (i : ℕ) => ((if i = 0 then 1 else 2 : ℚ), (0 : ℚ)))
            (companionMatrix exampleDouble [1, -3, 2] 2) i)) :=
  have h := roots_companion exampleDouble (fun _ i => (if i = 0 then 1 else 2, 0)) id rfl rfl
    [1, -3, 2] 2 rfl (by decide)
  ⟨(h.2.2.2.1 exact_quotients_example (by simp [exampleDouble])).1, h.2.2.2.2⟩

/-- C26 on the code: for the coefficients `3, 1` of `3x + 1` the entry
`roots` stores is the double nearest to `-1/3`,
`-6004799503160661 / 2^54`, so the characteristic polynomial of the matrix
is not `X + 1/3`, and the root `-1/3` of `3x + 1` is no root of it. -/
theorem roots_companion_rounds :
    (companionMatrix exampleDouble [3, 1] 1).coeff 0 0
      = -(6004799503160661 / 18014398509481984) ∧
    ((companionMatrix exampleDouble [3, 1] 1).toMatrix id 1).charpoly
      ≠ X ^ 1 + ∑ i in Finset.range 1,
          C (([3, 1] : List ℚ).getD (1 - i) 0 / ([3, 1] : List ℚ).getD 0 0) * X ^ i ∧
    (3 : ℚ) * (-1 / 3) + 1 = 0 ∧
    (((companionMatrix exampleDouble [3, 1] 1).toMatrix id 1).charpoly).eval (-1 / 3) ≠ 0 := by
  have hentry : exampleDouble.div (exampleDouble.neg (([3, 1] : List ℚ).getD (1 - 0)
      exampleDouble.zero)) (([3, 1] : List ℚ).getD 0 exampleDouble.zero)
      = -(6004799503160661 / 18014398509481984) := by
    show round53 (-1 / 3) = _
    exact round53_third
  have hchar : ((companionMatrix exampleDouble [3, 1] 1).toMatrix id 1).charpoly
      = X + C (6004799503160661 / 18014398509481984) := by
    rw [companionMatrix_charpoly exampleDouble id rfl rfl, Finset.sum_range_one, hentry]
    simp
  refine ⟨?_, ?_, by norm_num, ?_⟩
  · rw [companionMatrix_coeff exampleDouble [3, 1] 1 0 0 (by decide) (by decide)]
    exact hentry
  · rw [hchar]
    intro h
    have h0 := congrArg (Polynomial.eval 0) h
    simp at h0
    norm_num at h0
  · rw [hchar]
    simp
    norm_num

/-- The values of `cumtrapz` and `trapz` for `y = [1, 3, 5]`, without `x` and
with `x = [0, 2, 3]`, in the double arithmetic of the examples: no operation
rounds. -/
theorem cumtrapz_trapz_example :
    cumtrapz exampleDouble (numericArgs [1, 3, 5] none) = Except.ok [0, 2, 6] ∧
    trapz exampleDouble (numericArgs [1, 3, 5] none) = Except.ok 6 ∧
    cumtrapz exampleDouble (numericArgs [1, 3, 5] (some [0, 2, 3])) = Except.ok [0, 4, 8] ∧
    trapz exampleDouble (numericArgs [1, 3, 5] (some [0, 2, 3])) = Except.ok 8 := by
  have h1 : round53 1 = 1 := by simpa using round53_intCast 1 (by norm_num)
  have h2 : round53 2 = 2 := by simpa using round53_intCast 2 (by norm_num)
  have h4 : round53 4 = 4 := by simpa using round53_intCast 4 (by norm_num)
  have h6 : round53 6 = 6 := by simpa using round53_intCast 6 (by norm_num)
  have h8 : round53 8 = 8 := by simpa using round53_intCast 8 (by norm_num)
  refine ⟨?_, ?_, ?_, ?_⟩
  · rw [cumtrapz_numericArgs, cumtrapzArrays_numbers _ _ _ (by decide) (by simp)]
    simp [List.range, List.range.loop, runningTotal, trapezoid, abscissae, uniformSpacing,
      exampleDouble]
    norm_num [h1, h2, h4, h6, h8]
  · rw [trapz_numericArgs, trapzArrays_numbers _ _ _ (by decide) (by simp)]
    simp [runningTotal, trapezoid, abscissae, uniformSpacing, exampleDouble]
    norm_num [h1, h2, h4, h6, h8]
  · rw [cumtrapz_numericArgs, cumtrapzArrays_numbers _ _ _ (by decide) (by simp)]
    simp [List.range, List.range.loop, runningTotal, trapezoid, abscissae, exampleDouble]
    norm_num [h1, h2, h4, h6, h8]
  · rw [trapz_numericArgs, trapzArrays_numbers _ _ _ (by decide) (by simp)]
    simp [runningTotal, trapezoid, abscissae, exampleDouble]
    norm_num [h1, h2, h4, h6, h8]

end native_module_ns
